import Mathlib

/-!
# kdada/gss: big-endian codec, peer send buffer and status fan-out

A shallow embedding of `reader.go`, `writer.go`, `udp.go` and the sample translators and
generator of `main.go`.

Modelling conventions.

* A `[]byte` is a `List Byte`; every slice this program builds comes from `make`, so its
  capacity equals its length, and a slice expression `s[lo:hi]` is checked against the length.
* A Go run-time panic (slice bounds, index out of range, negative `make`, failed type
  assertion) is the result `Ret.panic`; a returned non-nil `error` is `Ret.err msg`, where
  `msg` is what `err.Error()` yields.  Methods return the receiver's state at the moment they
  leave, also when they panic.
* `int` is the 64-bit two's complement integer.  Arithmetic that involves a caller-supplied
  `int` (the operand of `Seek`, the count of `ReadBytes`) or the reader's cursor wraps
  (`wrapInt`).  Arithmetic on lengths of allocated slices (`len(d)*2`, `Len + len(data)`,
  `len(data) + BufferSize`) is exact: the allocator caps a slice below `2^48` bytes.
* `math.Float32bits` and `math.Float32frombits` reinterpret a 32-bit pattern; a `float32` is
  represented by its pattern.
* The socket is a parameter: `Net` decides, from the datagrams handed over so far, the
  destination and the datagram, whether a transmission reports an error.  Time stamps
  (`LastRecv`, `LastSend`) are not represented.
* The event sink is a parameter as well: its calls are recorded in order, `Connect` answers
  through a given function, and a callback does not modify the manager or the peers.
* The loop of `Run` never ends by itself; `UDPManager.Run` processes a finite list of
  results of `ReadFromUDP`.  The parse loop of one datagram need not end and takes fuel.
-/

namespace Gss

/-! ## Machine types -/

/-- A Go `byte`. -/
abbrev Byte := Fin 256

/-- A Go `uint32`; addition on it wraps modulo `2^32`. -/
abbrev Uint32 := Fin 4294967296

/-- The conversion `byte(x)` of an unsigned integer. -/
def toByte (x : Nat) : Byte := ⟨x % 256, Nat.mod_lt x (by decide)⟩

/-- The conversion `uint32(x)`, also the result of a `uint32` shift computed in `Nat`. -/
def toUint32 (x : Nat) : Uint32 := ⟨x % 4294967296, Nat.mod_lt x (by decide)⟩

/-- Reduction of a mathematical integer to the 64-bit two's complement `int`. -/
def wrapInt (x : Int) : Int :=
  (x + 9223372036854775808) % 18446744073709551616 - 9223372036854775808

/-- The largest `int`, `math.MaxInt64`. -/
def maxInt : Int := 9223372036854775807

/-- The smallest `int`, `math.MinInt64`. -/
def minInt : Int := -9223372036854775808

/-- Result of a Go call: a normal return without error, a normal return with a non-nil
`error` whose message is `msg`, or a run-time panic. -/
inductive Ret (α : Type) where
  | ok (a : α)
  | err (msg : String)
  | panic
deriving DecidableEq

/-- A `float32`, represented by its IEEE-754 binary32 bit pattern. -/
structure GoFloat32 where
  bits : Uint32
deriving DecidableEq

/-- Bit pattern of a float: `math.Float32bits`. -/
def Float32bits (f : GoFloat32) : Uint32 := f.bits

/-- Float with a given bit pattern: `math.Float32frombits`. -/
def Float32frombits (c : Uint32) : GoFloat32 := ⟨c⟩

/-! ## Slices -/

/-- The slice expression `s[lo:hi]`: panics (`none`) unless `0 ≤ lo ≤ hi ≤ len(s)`. -/
def sliceOf (s : List Byte) (lo hi : Int) : Option (List Byte) :=
  if 0 ≤ lo ∧ lo ≤ hi ∧ hi ≤ (s.length : Int) then
    some ((s.drop lo.toNat).take (hi - lo).toNat)
  else none

/-- The contents of `dst` after `copy(dst, src)`: `min(len(dst), len(src))` bytes are copied. -/
def copyInto (dst src : List Byte) : List Byte :=
  src.take dst.length ++ dst.drop src.length

/-- The call `make([]byte, n)`: panics on a negative length, else `n` zero bytes. -/
def makeBytes (n : Int) : Option (List Byte) :=
  if n < 0 then none else some (List.replicate n.toNat 0)

/-! ## reader.go -/

/-- Reader over a byte slice (big-endian): the data and the cursor. -/
structure NetworkReader where
  Data : List Byte
  Pos : Int
deriving DecidableEq

/-- NewNetworkReader: cursor at 0. -/
def NewNetworkReader (data : List Byte) : NetworkReader := ⟨data, 0⟩

namespace NetworkReader

/-- Buffer: `this.Data[this.Pos:]`. -/
def Buffer (r : NetworkReader) : Ret (List Byte) :=
  match sliceOf r.Data r.Pos r.Data.length with
  | some b => .ok b
  | none => .panic

/-- Length: `len(this.Data) - this.Pos`. -/
def Length (r : NetworkReader) : Int := wrapInt ((r.Data.length : Int) - r.Pos)

/-- Seek: add `length` to the cursor, then clamp below at 0 and above at `len(Data)`. -/
def Seek (r : NetworkReader) (length : Int) : NetworkReader :=
  let r1 : NetworkReader := { r with Pos := wrapInt (r.Pos + length) }
  let r2 : NetworkReader := if r1.Pos < 0 then { r1 with Pos := 0 } else r1
  if r2.Pos > (r2.Data.length : Int) then { r2 with Pos := (r2.Data.length : Int) } else r2

/-- The error message of a short read. -/
def insufficient : String := "NetworkReader:可读取数据长度不足"

/-- ReadBytes: when `Length() >= count` advance the cursor and return
`Data[Pos-count : Pos]`, else return the error. -/
def ReadBytes (r : NetworkReader) (count : Int) : NetworkReader × Ret (List Byte) :=
  if r.Length ≥ count then
    let r1 : NetworkReader := { r with Pos := wrapInt (r.Pos + count) }
    match sliceOf r1.Data (wrapInt (r1.Pos - count)) r1.Pos with
    | some b => (r1, .ok b)
    | none => (r1, .panic)
  else (r, .err insufficient)

/-- ReadByte: `ReadBytes(1)` and its first byte. -/
def ReadByte (r : NetworkReader) : NetworkReader × Ret Byte :=
  match r.ReadBytes 1 with
  | (r1, .ok (b0 :: _)) => (r1, .ok b0)
  | (r1, .ok []) => (r1, .panic)
  | (r1, .err e) => (r1, .err e)
  | (r1, .panic) => (r1, .panic)

/-- ReadUint32: `ReadBytes(4)` combined as
`uint32(b[0])<<24 + uint32(b[1])<<16 + uint32(b[2])<<8 + uint32(b[3])`. -/
def ReadUint32 (r : NetworkReader) : NetworkReader × Ret Uint32 :=
  match r.ReadBytes 4 with
  | (r1, .ok (b0 :: b1 :: b2 :: b3 :: _)) =>
    (r1, .ok (toUint32 (b0.val <<< 24) + toUint32 (b1.val <<< 16)
      + toUint32 (b2.val <<< 8) + toUint32 b3.val))
  | (r1, .ok _) => (r1, .panic)
  | (r1, .err e) => (r1, .err e)
  | (r1, .panic) => (r1, .panic)

/-- ReadFloat32: `ReadUint32` reinterpreted by `math.Float32frombits`. -/
def ReadFloat32 (r : NetworkReader) : NetworkReader × Ret GoFloat32 :=
  match r.ReadUint32 with
  | (r1, .ok c) => (r1, .ok (Float32frombits c))
  | (r1, .err e) => (r1, .err e)
  | (r1, .panic) => (r1, .panic)

end NetworkReader

/-! ## writer.go -/

/-- Writer into a growable byte slice (big-endian): the backing store and the used length. -/
structure NetworkWriter where
  Data : List Byte
  Len : Int
deriving DecidableEq

/-- NewNetworkWriter: `make([]byte, bufferSize)` and used length 0. -/
def NewNetworkWriter (bufferSize : Int) : Ret NetworkWriter :=
  match makeBytes bufferSize with
  | some d => .ok ⟨d, 0⟩
  | none => .panic

namespace NetworkWriter

/-- Length: the used length. -/
def Length (w : NetworkWriter) : Int := w.Len

/-- Buffer: `this.Data[:this.Length()]`. -/
def Buffer (w : NetworkWriter) : Ret (List Byte) :=
  match sliceOf w.Data 0 w.Length with
  | some b => .ok b
  | none => .panic

/-- The method extend: replace the store by a zeroed one of twice the length and copy
`d[:Len]` into it. -/
def extend (w : NetworkWriter) : NetworkWriter × Ret Unit :=
  let d := w.Data
  let w1 : NetworkWriter := { w with Data := List.replicate (d.length * 2) 0 }
  match sliceOf d 0 w1.Len with
  | some src => ({ w1 with Data := copyInto w1.Data src }, .ok ())
  | none => (w1, .panic)

/-- WriteBytes: extend once when the free space is smaller than `len(data)`, then
`copy(Data[Len:], data)` and `Len += len(data)`. -/
def WriteBytes (w : NetworkWriter) (data : List Byte) : NetworkWriter × Ret Unit :=
  let step : NetworkWriter × Ret Unit :=
    if (w.Data.length : Int) - w.Len < (data.length : Int) then w.extend else (w, .ok ())
  match step with
  | (w1, .ok ()) =>
    match sliceOf w1.Data w1.Len w1.Data.length with
    | some dst =>
      ({ Data := w1.Data.take w1.Len.toNat ++ copyInto dst data,
         Len := w1.Len + (data.length : Int) }, .ok ())
    | none => (w1, .panic)
  | (w1, _) => (w1, .panic)

/-- WriteByte: `WriteBytes` of the one-byte slice. -/
def WriteByte (w : NetworkWriter) (data : Byte) : NetworkWriter × Ret Unit :=
  w.WriteBytes [data]

/-- WriteUint32: `b[3-i] = byte(data >> (i*8))` for `i = 0..3`, then `WriteBytes(b)`. -/
def WriteUint32 (w : NetworkWriter) (data : Uint32) : NetworkWriter × Ret Unit :=
  w.WriteBytes [toByte (data.val >>> 24), toByte (data.val >>> 16),
    toByte (data.val >>> 8), toByte (data.val >>> 0)]

/-- WriteFloat32: `WriteUint32` of `math.Float32bits(data)`. -/
def WriteFloat32 (w : NetworkWriter) (data : GoFloat32) : NetworkWriter × Ret Unit :=
  w.WriteUint32 (Float32bits data)

end NetworkWriter

/-! ## udp.go: peers -/

/-- A datagram handed to the socket: the destination address and the bytes. -/
abbrev Packet := String × List Byte

/-- The socket as seen by `SendPackage`: given the datagrams handed over so far, the
destination and the datagram, the error the transmission reports (`none` for success). -/
abbrev Net := List Packet → String → List Byte → Option String

/-- A socket on which no transmission fails. -/
def Net.reliable : Net := fun _ _ _ => none

/-- UDP peer: the remote address, the send buffer and its used size. -/
structure UDPClient where
  Client : String
  Buffer : List Byte
  BufferSize : Int
deriving DecidableEq

/-- NewUDPClient: a send buffer `make([]byte, bufferSize)` and used size 0. -/
def NewUDPClient (addr : String) (bufferSize : Int) : Ret UDPClient :=
  match makeBytes bufferSize with
  | some b => .ok ⟨addr, b, 0⟩
  | none => .panic

namespace UDPClient

/-- SendPackage: hand `data` to the socket as one datagram.  The call is recorded in the
list of datagrams; with no byte to send the write loop does not run and nil is returned. -/
def SendPackage (net : Net) (c : UDPClient) (data : List Byte) (wire : List Packet) :
    List Packet × Ret Unit :=
  let wire1 := wire ++ [(c.Client, data)]
  if data.length = 0 then (wire1, .ok ())
  else
    match net wire c.Client data with
    | none => (wire1, .ok ())
    | some e => (wire1, .err e)

/-- Flush: when `BufferSize > 0`, send `Buffer[:BufferSize]`, reset `BufferSize` to 0 and
return the transmission's error. -/
def Flush (net : Net) (c : UDPClient) (wire : List Packet) :
    UDPClient × List Packet × Ret Unit :=
  if c.BufferSize > 0 then
    match sliceOf c.Buffer 0 c.BufferSize with
    | some pkt =>
      let sent := c.SendPackage net pkt wire
      ({ c with BufferSize := 0 }, sent.1, sent.2)
    | none => (c, wire, .panic)
  else (c, wire, .ok ())

/-- Send: flush first when `len(data)+BufferSize > len(Buffer)` (returning its error),
then `copy(Buffer[BufferSize:], data)`, `BufferSize += len(data)`, and flush when
`BufferSize >= len(Buffer)`. -/
def Send (net : Net) (c : UDPClient) (data : List Byte) (wire : List Packet) :
    UDPClient × List Packet × Ret Unit :=
  let first : UDPClient × List Packet × Ret Unit :=
    if (data.length : Int) + c.BufferSize > (c.Buffer.length : Int) then c.Flush net wire
    else (c, wire, .ok ())
  match first with
  | (c1, wire1, .ok ()) =>
    match sliceOf c1.Buffer c1.BufferSize c1.Buffer.length with
    | some dst =>
      let c2 : UDPClient :=
        { c1 with
          Buffer := c1.Buffer.take c1.BufferSize.toNat ++ copyInto dst data
          BufferSize := c1.BufferSize + (data.length : Int) }
      if c2.BufferSize ≥ (c2.Buffer.length : Int) then c2.Flush net wire1
      else (c2, wire1, .ok ())
    | none => (c1, wire1, .panic)
  | (c1, wire1, r) => (c1, wire1, r)

/-- The bytes waiting in the send buffer, `Buffer[:BufferSize]`: what `Flush` would send. -/
def pending (c : UDPClient) : Option (List Byte) := sliceOf c.Buffer 0 c.BufferSize

end UDPClient

/-- Every datagram of `wire` has between 1 and `N` bytes. -/
def sizesWithin (N : Int) (wire : List Packet) : Prop :=
  ∀ p ∈ wire, 1 ≤ p.2.length ∧ (p.2.length : Int) ≤ N

/-- Every peer designated by a pointer satisfying `S` has a non-negative used size. -/
def nonnegOn (S : Nat → Prop) (heap : List UDPClient) : Prop :=
  ∀ p, S p → ∀ c, heap[p]? = some c → 0 ≤ c.BufferSize

/-- One call on a peer. -/
inductive Call where
  | send (data : List Byte)
  | flush
deriving DecidableEq

/-- A caller that issues the calls in order on one peer and carries on after an error or a
recovered panic; returns the peer and the datagrams handed to `SendPackage`. -/
def runCalls (net : Net) : List Call → UDPClient → List Packet → UDPClient × List Packet
  | [], c, wire => (c, wire)
  | .send data :: rest, c, wire =>
    let r := c.Send net data wire
    runCalls net rest r.1 r.2.1
  | .flush :: rest, c, wire =>
    let r := c.Flush net wire
    runCalls net rest r.1 r.2.1

/-! ## udp.go: the manager's Send -/

/-- Status: type tag and the object to encode. -/
structure Status (Obj : Type) where
  Typ : Uint32
  Object : Obj

/-- The `Generate` method of a `StatusGenerator`: bytes, an error, or a panic. -/
abbrev StatusGenerator (Obj : Type) := Obj → Ret (List Byte)

/-- The `Translate` method of an `OperationTranslator`: consumed count and value, an error,
or a panic. -/
abbrev OperationTranslator (Obj : Type) := List Byte → Ret (Int × Obj)

/-- UDP manager.  A `*UDPClient` is an index into the heap of peers of `World`. -/
structure UDPManager (Obj : Type) where
  Buffer : List Byte
  ClientsMap : String → Option Int
  Clients : List Nat
  Translators : Uint32 → Option (OperationTranslator Obj)
  Generators : Uint32 → Option (StatusGenerator Obj)

/-- What lies outside the manager: the allocated peers (a pointer is an index; an index out
of range is a nil pointer) and the datagrams handed to `SendPackage`, oldest first. -/
structure World where
  heap : List UDPClient
  wire : List Packet
deriving DecidableEq

/-- The framing done by the manager's Send: `NewNetworkWriter(4 + len(d))`,
`WriteUint32(s.Type)`, `WriteBytes(d)`, `Buffer()`. -/
def frame (t : Uint32) (d : List Byte) : Ret (List Byte) :=
  match NewNetworkWriter (4 + (d.length : Int)) with
  | .ok w =>
    match w.WriteUint32 t with
    | (w1, .ok ()) =>
      match w1.WriteBytes d with
      | (w2, .ok ()) => w2.Buffer
      | _ => .panic
    | _ => .panic
  | _ => .panic

/-- The inner loop `for _, c := range clients { err = c.Send(d); ... }`: returns the world,
the error text so far and whether the loop panicked. -/
def sendFrame (net : Net) (d : List Byte) : List Nat → World → String → World × String × Ret Unit
  | [], w, errInfo => (w, errInfo, .ok ())
  | c :: cs, w, errInfo =>
    match w.heap[c]? with
    | none => (w, errInfo, .panic)
    | some cl =>
      match cl.Send net d w.wire with
      | (cl1, wire1, .ok ()) => sendFrame net d cs ⟨w.heap.set c cl1, wire1⟩ errInfo
      | (cl1, wire1, .err e) => sendFrame net d cs ⟨w.heap.set c cl1, wire1⟩ (errInfo ++ e)
      | (cl1, wire1, .panic) => (⟨w.heap.set c cl1, wire1⟩, errInfo, .panic)

/-- The first loop of Send, over the statuses. -/
def sendStatuses {Obj : Type} (net : Net) (gens : Uint32 → Option (StatusGenerator Obj))
    (clients : List Nat) : List (Status Obj) → World → String → World × String × Ret Unit
  | [], w, errInfo => (w, errInfo, .ok ())
  | s :: rest, w, errInfo =>
    match gens s.Typ with
    | none => sendStatuses net gens clients rest w errInfo
    | some g =>
      match g s.Object with
      | .err e => sendStatuses net gens clients rest w (errInfo ++ e)
      | .panic => (w, errInfo, .panic)
      | .ok d =>
        match frame s.Typ d with
        | .ok f =>
          match sendFrame net f clients w errInfo with
          | (w1, errInfo1, .ok ()) => sendStatuses net gens clients rest w1 errInfo1
          | (w1, errInfo1, _) => (w1, errInfo1, .panic)
        | _ => (w, errInfo, .panic)

/-- The second loop of Send: `for _, c := range clients { err = c.Flush(); ... }`. -/
def flushAll (net : Net) : List Nat → World → String → World × String × Ret Unit
  | [], w, errInfo => (w, errInfo, .ok ())
  | c :: cs, w, errInfo =>
    match w.heap[c]? with
    | none => (w, errInfo, .panic)
    | some cl =>
      match cl.Flush net w.wire with
      | (cl1, wire1, .ok ()) => flushAll net cs ⟨w.heap.set c cl1, wire1⟩ errInfo
      | (cl1, wire1, .err e) => flushAll net cs ⟨w.heap.set c cl1, wire1⟩ (errInfo ++ e)
      | (cl1, wire1, .panic) => (⟨w.heap.set c cl1, wire1⟩, errInfo, .panic)

namespace UDPManager

/-- Send: encode and push every status to every listed peer, flush every listed peer, and
return `errors.New(errInfo)` when the collected text is not empty. -/
def Send {Obj : Type} (net : Net) (m : UDPManager Obj) (w : World) (clients : List Nat)
    (status : List (Status Obj)) : World × Ret Unit :=
  match sendStatuses net m.Generators clients status w "" with
  | (w1, errInfo1, .ok ()) =>
    match flushAll net clients w1 errInfo1 with
    | (w2, errInfo2, .ok ()) => if errInfo2 ≠ "" then (w2, .err errInfo2) else (w2, .ok ())
    | (w2, _, _) => (w2, .panic)
  | (w1, _, _) => (w1, .panic)

/-- Broadcast: Send to all peers of the manager. -/
def Broadcast {Obj : Type} (net : Net) (m : UDPManager Obj) (w : World)
    (status : List (Status Obj)) : World × Ret Unit :=
  m.Send net w m.Clients status

end UDPManager

/-! ## main.go, game.go: the sample generator -/

/-- Player position. -/
structure Player where
  x : GoFloat32
  y : GoFloat32
deriving DecidableEq

/-- Movement direction. -/
structure Direction where
  x : GoFloat32
  y : GoFloat32
deriving DecidableEq

/-- The dynamic values (`interface{}`) this program passes around. -/
inductive Value where
  | player (p : Player)
  | direction (d : Direction)
  | uint32 (v : Uint32)
  | nil
deriving DecidableEq

/-- MoveStatusGenerator.Generate: the assertion `a.(Player)`, then both coordinates written
into a writer of capacity 8. -/
def MoveStatusGenerator.Generate (a : Value) : Ret (List Byte) :=
  match a with
  | .player p =>
    match NewNetworkWriter 8 with
    | .ok w =>
      match w.WriteFloat32 p.x with
      | (w1, .ok ()) =>
        match w1.WriteFloat32 p.y with
        | (w2, .ok ()) => w2.Buffer
        | _ => .panic
      | _ => .panic
    | _ => .panic
  | _ => .panic

/-- MoveStatusGenerator.Type. -/
def MoveStatusGenerator.Typ : Uint32 := 1

/-! ## Specification vocabulary and sample data -/

/-- The frame of a tag-1 status for the player at `(2.0, 3.0)`: 12 bytes. -/
def frameA : List Byte := [0, 0, 0, 1, 64, 0, 0, 0, 64, 64, 0, 0]

/-- The frame of a tag-1 status for the player at `(3.0, 2.0)`: 12 bytes. -/
def frameB : List Byte := [0, 0, 0, 1, 64, 64, 0, 0, 64, 0, 0, 0]

/-- A peer of capacity `n` with an empty buffer, as `NewUDPClient` returns it. -/
def samplePeer (n : Nat) : UDPClient := ⟨"a", List.replicate n 0, 0⟩

/-- The tag-1 status of the player at `(2.0, 3.0)`. -/
def statusA : Status Value := ⟨1, .player ⟨⟨1073741824⟩, ⟨1077936128⟩⟩⟩

/-- The tag-1 status of the player at `(3.0, 2.0)`. -/
def statusB : Status Value := ⟨1, .player ⟨⟨1077936128⟩, ⟨1073741824⟩⟩⟩

/-- The payload the sample generator produces for a status (empty when it fails). -/
def samplePayload (s : Status Value) : List Byte :=
  match MoveStatusGenerator.Generate s.Object with
  | .ok d => d
  | _ => []

/-- A manager with the sample generator registered for tag 1 and nothing else. -/
def sampleManager : UDPManager Value :=
  { Buffer := List.replicate 20 0
    ClientsMap := fun _ => none
    Clients := []
    Translators := fun _ => none
    Generators := fun t => if t = MoveStatusGenerator.Typ then some MoveStatusGenerator.Generate else none }

/-- The big-endian encoding of a `uint32`, most significant byte first. -/
def bigEndian32 (v : Uint32) : List Byte :=
  [toByte (v.val / 16777216), toByte (v.val / 65536), toByte (v.val / 256), toByte v.val]

/-- The concatenation, in list order, of the frames `[big-endian tag][payload]` of the
statuses, for given payloads. -/
def framesOf {Obj : Type} (payload : Status Obj → List Byte) : List (Status Obj) → List Byte
  | [] => []
  | s :: rest => (bigEndian32 s.Typ ++ payload s) ++ framesOf payload rest

/-- The mathematical clamp of `x` to `[0, n]`. -/
def clamp (x : Int) (n : Nat) : Int := min (max x 0) (n : Int)

/-! ## udp.go: Run -/

/-- A call on the event sink (`UDPManagerEvent`), as recorded in the order of invocation.
`connect` carries the boolean the sink returned; `error` carries the peer (`none` for a nil
`*UDPClient`) and the error handed over (`none` for a nil `error`). -/
inductive Callback (Obj : Type) where
  | connect (client : Nat) (result : Bool)
  | recvOperation (client : Nat) (t : Uint32) (obj : Obj)
  | error (client : Option Nat) (err : Option String)
deriving DecidableEq

/-- The message of the error for a tag without translator. -/
def noTranslator : String := "指定类型的解释器不存在"

/-- The loop `for r.Length() > 0 { ... }` of Run over one datagram, for the peer `client`.
Each iteration takes one unit of `fuel`; `none` means that the fuel did not suffice.
Otherwise the reader, the extended list of callbacks and whether the loop panicked. -/
def parseLoop {Obj : Type} (translators : Uint32 → Option (OperationTranslator Obj))
    (client : Nat) :
    Nat → NetworkReader → List (Callback Obj) →
      Option (NetworkReader × List (Callback Obj) × Ret Unit)
  | 0, r, log => if r.Length > 0 then none else some (r, log, .ok ())
  | fuel + 1, r, log =>
    if r.Length > 0 then
      match r.ReadUint32 with
      | (r1, .err _) => some (r1, log ++ [.error (some client) none], .ok ())
      | (r1, .panic) => some (r1, log, .panic)
      | (r1, .ok t) =>
        match translators t with
        | none => some (r1, log ++ [.error (some client) (some noTranslator)], .ok ())
        | some tr =>
          match r1.Buffer with
          | .ok b =>
            match tr b with
            | .err e => some (r1, log ++ [.error (some client) (some e)], .ok ())
            | .panic => some (r1, log, .panic)
            | .ok (count, obj) =>
              parseLoop translators client fuel (r1.Seek count)
                (log ++ [.recvOperation client t obj])
          | _ => some (r1, log, .panic)
    else some (r, log, .ok ())

/-- What `ReadFromUDP` delivers: a datagram with the rendered source address, or an error. -/
inductive Recv where
  | datagram (addr : String) (data : List Byte)
  | failure (msg : String)
deriving DecidableEq

namespace UDPManager

/-- The peer lookup of Run: the registered peer `Clients[index]`, or a new peer made by
`NewUDPClient(addr, conn, len(Buffer))`, appended to `Clients`, entered into `ClientsMap`
and announced by `Connect`, whose result is recorded and not used. -/
def resolve {Obj : Type} (connect : UDPManager Obj → UDPClient → Bool) (m : UDPManager Obj)
    (w : World) (log : List (Callback Obj)) (addr : String) :
    UDPManager Obj × World × List (Callback Obj) × Ret Nat :=
  match m.ClientsMap addr with
  | some index =>
    if 0 ≤ index then
      match m.Clients[index.toNat]? with
      | some p => (m, w, log, .ok p)
      | none => (m, w, log, .panic)
    else (m, w, log, .panic)
  | none =>
    match NewUDPClient addr (m.Buffer.length : Int) with
    | .ok cl =>
      let p := w.heap.length
      let index : Int := (m.Clients.length : Int)
      let m1 : UDPManager Obj :=
        { m with
          Clients := m.Clients ++ [p]
          ClientsMap := fun a => if a = addr then some index else m.ClientsMap a }
      (m1, { w with heap := w.heap ++ [cl] }, log ++ [.connect p (connect m1 cl)], .ok p)
    | _ => (m, w, log, .panic)

/-- One iteration of the loop of Run for one result of `ReadFromUDP`.  A datagram is copied
into the receive buffer (at most `len(Buffer)` bytes), the peer is resolved and the bytes
`Buffer[:c]` are parsed; a read error is handed to `Error` with a nil peer. -/
def step {Obj : Type} (connect : UDPManager Obj → UDPClient → Bool) (fuel : Nat)
    (m : UDPManager Obj) (w : World) (log : List (Callback Obj)) :
    Recv → Option (UDPManager Obj × World × List (Callback Obj) × Ret Unit)
  | .failure msg => some (m, w, log ++ [.error none (some msg)], .ok ())
  | .datagram addr data =>
    let c : Nat := min data.length m.Buffer.length
    let m0 : UDPManager Obj := { m with Buffer := copyInto m.Buffer data }
    match resolve connect m0 w log addr with
    | (m1, w1, log1, .ok p) =>
      match w1.heap[p]? with
      | none => some (m1, w1, log1, .panic)
      | some _ =>
        match sliceOf m1.Buffer 0 (c : Int) with
        | none => some (m1, w1, log1, .panic)
        | some buf =>
          match parseLoop m1.Translators p fuel (NewNetworkReader buf) log1 with
          | none => none
          | some (_, log2, r) => some (m1, w1, log2, r)
    | (m1, w1, log1, _) => some (m1, w1, log1, .panic)

/-- The loop of Run over the successive results of `ReadFromUDP`, each parse with the given
fuel; it stops at a panic, and is `none` when a parse runs out of fuel. -/
def Run {Obj : Type} (connect : UDPManager Obj → UDPClient → Bool) (fuel : Nat) :
    List Recv → UDPManager Obj → World → List (Callback Obj) →
      Option (UDPManager Obj × World × List (Callback Obj) × Ret Unit)
  | [], m, w, log => some (m, w, log, .ok ())
  | rv :: rest, m, w, log =>
    match step connect fuel m w log rv with
    | none => none
    | some (m1, w1, log1, .ok ()) => Run connect fuel rest m1 w1 log1
    | some (m1, w1, log1, r) => some (m1, w1, log1, r)

end UDPManager

/-! ## main.go: the sample translators -/

/-- TestOperationTranslator.Translate: an error below 4 bytes, else 4 and the big-endian
`uint32` of the first four bytes. -/
def TestOperationTranslator.Translate (data : List Byte) : Ret (Int × Value) :=
  match data with
  | b0 :: b1 :: b2 :: b3 :: _ =>
    .ok (4, .uint32 (toUint32 (b0.val <<< 24) + toUint32 (b1.val <<< 16)
      + toUint32 (b2.val <<< 8) + toUint32 b3.val))
  | _ => .err "解析失败，类型0的data需要4个字节"

/-- The value a `d.x, _ = r.ReadFloat32()` leaves in `d.x`: the float read, or zero on error. -/
def floatOrZero (r : Ret GoFloat32) : Ret GoFloat32 :=
  match r with
  | .err _ => .ok ⟨0⟩
  | other => other

/-- The body of MoveOperationTranslator.Translate once the reader `r` is made: two
`ReadFloat32` whose errors are dropped, then the cursor, the direction and a nil error. -/
def MoveOperationTranslator.readDirection (r : NetworkReader) : Ret (Int × Value) :=
  match r.ReadFloat32 with
  | (r1, rx) =>
    match floatOrZero rx with
    | .ok x =>
      match r1.ReadFloat32 with
      | (r2, ry) =>
        match floatOrZero ry with
        | .ok y => .ok (r2.Pos, .direction ⟨x, y⟩)
        | _ => .panic
    | _ => .panic

/-- MoveOperationTranslator.Translate: `r = NewNetworkReader(data)`, then the two reads. -/
def MoveOperationTranslator.Translate (data : List Byte) : Ret (Int × Value) :=
  MoveOperationTranslator.readDirection (NewNetworkReader data)

/-! ## Vocabulary and sample data for Run -/

/-- An operation record of a datagram: the tag, the payload bytes and the value the
translator of the tag decodes from them. -/
structure OpRecord (Obj : Type) where
  tag : Uint32
  payload : List Byte
  value : Obj

/-- The datagram bytes of a list of records: `[big-endian tag][payload]`, back to back. -/
def encodeOps {Obj : Type} : List (OpRecord Obj) → List Byte
  | [] => []
  | o :: rest => (bigEndian32 o.tag ++ o.payload) ++ encodeOps rest

/-- A record is valid for a registry: its tag has a translator which, applied to the payload
followed by any suffix (of a length a slice can have), consumes exactly the payload and
returns the value without error. -/
def validOp {Obj : Type} (translators : Uint32 → Option (OperationTranslator Obj))
    (o : OpRecord Obj) : Prop :=
  ∃ tr, translators o.tag = some tr ∧
    ∀ suffix : List Byte, ((o.payload ++ suffix).length : Int) ≤ maxInt →
      tr (o.payload ++ suffix) = .ok ((o.payload.length : Int), o.value)

/-- The `RecvOperation` calls of a list of records for a peer, in order. -/
def opCallbacks {Obj : Type} (client : Nat) (ops : List (OpRecord Obj)) : List (Callback Obj) :=
  ops.map (fun o => .recvOperation client o.tag o.value)

/-- The manager as `main` sets it up, with a receive buffer of `n` bytes: the translators
of tags 0 and 1 and the generator of tag 1. -/
def mainManager (n : Nat) : UDPManager Value :=
  { Buffer := List.replicate n 0
    ClientsMap := fun _ => none
    Clients := []
    Translators := fun t =>
      if t = 0 then some TestOperationTranslator.Translate
      else if t = 1 then some MoveOperationTranslator.Translate
      else none
    Generators := fun t =>
      if t = MoveStatusGenerator.Typ then some MoveStatusGenerator.Generate else none }

/-- A translator that reports `math.MaxInt64` consumed bytes, a nil value and no error. -/
def greedyTranslator : OperationTranslator Value := fun _ => .ok (maxInt, .nil)

/-- The record of the datagram `00000001 40000000 40400000`: tag 1, direction `(2.0, 3.0)`. -/
def moveRecord : OpRecord Value :=
  ⟨1, [64, 0, 0, 0, 64, 64, 0, 0], .direction ⟨⟨1073741824⟩, ⟨1077936128⟩⟩⟩

/-- The peer announced by a callback, when the callback is `Connect`. -/
def Callback.connectPtr {Obj : Type} : Callback Obj → Option Nat
  | .connect p _ => some p
  | _ => none

/-- Whether a callback is `Connect`. -/
def Callback.isConnect {Obj : Type} (cb : Callback Obj) : Bool := cb.connectPtr.isSome

/-- The distinct addresses in order of first appearance, extended by one address. -/
def noteAddr (seen : List String) (a : String) : List String :=
  if a ∈ seen then seen else seen ++ [a]

/-- The distinct source addresses of the datagrams among the results of `ReadFromUDP`, in
order of first appearance, starting from the addresses `seen`. -/
def addrsOf : List Recv → List String → List String
  | [], seen => seen
  | .datagram a _ :: rest, seen => addrsOf rest (noteAddr seen a)
  | .failure _ :: rest, seen => addrsOf rest seen

/-- The peer registry invariant of Run for a receive buffer of `N` bytes, the addresses
`seen` so far (distinct, in order of first appearance) and the callbacks `log` so far. -/
structure Registered {Obj : Type} (N : Nat) (m : UDPManager Obj) (w : World)
    (log : List (Callback Obj)) (seen : List String) : Prop where
  /-- The addresses are pairwise distinct. -/
  nodup : seen.Nodup
  /-- There are as many registered peers as addresses. -/
  size : m.Clients.length = seen.length
  /-- The receive buffer keeps its size. -/
  capacity : m.Buffer.length = N
  /-- `ClientsMap` is defined exactly on the addresses seen and sends the `i`-th to `i`. -/
  index : ∀ a : String,
    m.ClientsMap a = if a ∈ seen then some ((seen.indexOf a : Nat) : Int) else none
  /-- `Clients[i]` points to the peer `NewUDPClient` made for the `i`-th address with the
  size of the receive buffer. -/
  peer : ∀ (i : Nat) (a : String), seen[i]? = some a →
    ∃ (p : Nat) (c : UDPClient), m.Clients[i]? = some p ∧
      NewUDPClient a (N : Int) = .ok c ∧ w.heap[p]? = some c
  /-- The registered pointers are pairwise distinct. -/
  distinct : m.Clients.Nodup
  /-- The `Connect` calls so far are, in order, one for each registered peer. -/
  connects : log.filterMap Callback.connectPtr = m.Clients
  /-- Every `RecvOperation` for a peer comes after a `Connect` for that peer. -/
  ordered : ∀ (pre post : List (Callback Obj)) (p : Nat) (t : Uint32) (o : Obj),
    log = pre ++ Callback.recvOperation p t o :: post → ∃ b, Callback.connect p b ∈ pre

/-! ## Vocabulary for the errors and the per-peer view of the manager's Send -/

/-- The concatenation of error messages, in order. -/
def concatMsgs : List String → String
  | [] => ""
  | e :: rest => e ++ concatMsgs rest

/-- The inner loop of Send with the errors kept apart: the world, the messages of the
errors the `c.Send` calls returned, in order of occurrence, and whether the loop panicked. -/
def sendFrameT (net : Net) (d : List Byte) : List Nat → World → World × List String × Ret Unit
  | [], w => (w, [], .ok ())
  | c :: cs, w =>
    match w.heap[c]? with
    | none => (w, [], .panic)
    | some cl =>
      match cl.Send net d w.wire with
      | (cl1, wire1, .ok ()) => sendFrameT net d cs ⟨w.heap.set c cl1, wire1⟩
      | (cl1, wire1, .err e) =>
        let r := sendFrameT net d cs ⟨w.heap.set c cl1, wire1⟩
        (r.1, e :: r.2.1, r.2.2)
      | (cl1, wire1, .panic) => (⟨w.heap.set c cl1, wire1⟩, [], .panic)

/-- The first loop of Send with the errors kept apart: the messages of the errors returned
by the generators and by the `c.Send` calls, in order of occurrence. -/
def sendStatusesT {Obj : Type} (net : Net) (gens : Uint32 → Option (StatusGenerator Obj))
    (clients : List Nat) : List (Status Obj) → World → World × List String × Ret Unit
  | [], w => (w, [], .ok ())
  | s :: rest, w =>
    match gens s.Typ with
    | none => sendStatusesT net gens clients rest w
    | some g =>
      match g s.Object with
      | .err e =>
        let r := sendStatusesT net gens clients rest w
        (r.1, e :: r.2.1, r.2.2)
      | .panic => (w, [], .panic)
      | .ok d =>
        match frame s.Typ d with
        | .ok f =>
          match sendFrameT net f clients w with
          | (w1, errs1, .ok ()) =>
            let r := sendStatusesT net gens clients rest w1
            (r.1, errs1 ++ r.2.1, r.2.2)
          | (w1, errs1, _) => (w1, errs1, .panic)
        | _ => (w, [], .panic)

/-- The second loop of Send with the errors kept apart: the messages of the errors the
final `c.Flush` calls returned, in order of occurrence. -/
def flushAllT (net : Net) : List Nat → World → World × List String × Ret Unit
  | [], w => (w, [], .ok ())
  | c :: cs, w =>
    match w.heap[c]? with
    | none => (w, [], .panic)
    | some cl =>
      match cl.Flush net w.wire with
      | (cl1, wire1, .ok ()) => flushAllT net cs ⟨w.heap.set c cl1, wire1⟩
      | (cl1, wire1, .err e) =>
        let r := flushAllT net cs ⟨w.heap.set c cl1, wire1⟩
        (r.1, e :: r.2.1, r.2.2)
      | (cl1, wire1, .panic) => (⟨w.heap.set c cl1, wire1⟩, [], .panic)

/-- The messages of all errors returned during a call of Send by a generator, by a
`UDPClient.Send` or by a final `UDPClient.Flush`, in order of occurrence. -/
def UDPManager.SendErrors {Obj : Type} (net : Net) (m : UDPManager Obj) (w : World)
    (clients : List Nat) (status : List (Status Obj)) : List String :=
  (sendStatusesT net m.Generators clients status w).2.1 ++
    (flushAllT net clients (sendStatusesT net m.Generators clients status w).1).2.1

/-- A manager whose statuses carry the result their generator is to return: every tag has
the generator that returns the object as it is. -/
def echoManager : UDPManager (Ret (List Byte)) :=
  { Buffer := []
    ClientsMap := fun _ => none
    Clients := []
    Translators := fun _ => none
    Generators := fun _ => some (fun x => x) }

/-- The datagrams of `wire` addressed to `a`, in order. -/
def packetsTo (a : String) (wire : List Packet) : List Packet :=
  wire.filter (fun pk => decide (pk.1 = a))

/-- Two sockets treat the peer at `a` alike: for equal histories of datagrams to `a`, a
transmission to `a` has the same outcome on both. -/
def agreeOn (a : String) (net1 net2 : Net) : Prop :=
  ∀ (w1 w2 : List Packet) (d : List Byte),
    packetsTo a w1 = packetsTo a w2 → net1 w1 a d = net2 w2 a d

/-- A socket on which exactly the transmissions to the addresses in `bad` fail, with the
error message `x`. -/
def failingFor (bad : List String) : Net :=
  fun _ a _ => if a ∈ bad then some "x" else none

/-- The shape shared by the two loops over the peers in Send: apply `op` to each listed
peer in turn, collect the error messages, stop at a panic. -/
def loopClients (op : UDPClient → List Packet → UDPClient × List Packet × Ret Unit) :
    List Nat → World → String → World × String × Ret Unit
  | [], w, errInfo => (w, errInfo, .ok ())
  | c :: cs, w, errInfo =>
    match w.heap[c]? with
    | none => (w, errInfo, .panic)
    | some cl =>
      match op cl w.wire with
      | (cl1, wire1, .ok ()) => loopClients op cs ⟨w.heap.set c cl1, wire1⟩ errInfo
      | (cl1, wire1, .err e) => loopClients op cs ⟨w.heap.set c cl1, wire1⟩ (errInfo ++ e)
      | (cl1, wire1, .panic) => (⟨w.heap.set c cl1, wire1⟩, errInfo, .panic)

/-- Two worlds look alike from the peer at pointer `j` with address `a`: the peer is in the
same state, the datagrams addressed to it are the same, and no other listed peer has its
address. -/
structure SameView (a : String) (j : Nat) (clients : List Nat) (w1 w2 : World) : Prop where
  /-- The peer at `j` is the same in both worlds. -/
  peer : w1.heap[j]? = w2.heap[j]?
  /-- The peer at `j` has the address `a`. -/
  addr : ∀ c : UDPClient, w1.heap[j]? = some c → c.Client = a
  /-- The datagrams addressed to `a` are the same. -/
  packets : packetsTo a w1.wire = packetsTo a w2.wire
  /-- In the first world no other listed peer has the address `a`. -/
  others1 : ∀ i ∈ clients, i ≠ j → ∀ c : UDPClient, w1.heap[i]? = some c → c.Client ≠ a
  /-- In the second world no other listed peer has the address `a`. -/
  others2 : ∀ i ∈ clients, i ≠ j → ∀ c : UDPClient, w2.heap[i]? = some c → c.Client ≠ a

/-! # Theorems -/

/-! ## Slices, machine integers and the codec -/

theorem wrapInt_of_range (x : Int) (h0 : minInt ≤ x) (h1 : x ≤ maxInt) : wrapInt x = x := by
  unfold wrapInt
  unfold minInt at h0
  unfold maxInt at h1
  omega

theorem sliceOf_eq_some (s : List Byte) (lo hi : Int) (h0 : 0 ≤ lo) (h1 : lo ≤ hi)
    (h2 : hi ≤ (s.length : Int)) :
    sliceOf s lo hi = some ((s.drop lo.toNat).take (hi - lo).toNat) := by
  unfold sliceOf
  rw [if_pos ⟨h0, h1, h2⟩]

theorem sliceOf_eq_none (s : List Byte) (lo hi : Int)
    (h : ¬ (0 ≤ lo ∧ lo ≤ hi ∧ hi ≤ (s.length : Int))) : sliceOf s lo hi = none := by
  unfold sliceOf
  rw [if_neg h]

theorem sliceOf_front (s : List Byte) (n : Nat) (h : n ≤ s.length) :
    sliceOf s 0 (n : Int) = some (s.take n) := by
  rw [sliceOf_eq_some s 0 n (le_refl 0) (by omega) (by omega)]
  simp

theorem sliceOf_back (s : List Byte) (n : Nat) (h : n ≤ s.length) :
    sliceOf s (n : Int) (s.length : Int) = some (s.drop n) := by
  rw [sliceOf_eq_some s n s.length (by omega) (by omega) (le_refl _)]
  have e : ((s.length : Int) - (n : Int)).toNat = s.length - n := by omega
  simp [e]

theorem sliceOf_length (s b : List Byte) (lo hi : Int) (h : sliceOf s lo hi = some b) :
    (b.length : Int) = hi - lo ∧ 0 ≤ lo ∧ lo ≤ hi ∧ hi ≤ (s.length : Int) := by
  unfold sliceOf at h
  split at h
  · rename_i hc
    obtain ⟨h0, h1, h2⟩ := hc
    have hb : b = (s.drop lo.toNat).take (hi - lo).toNat := by
      injection h with h'
      exact h'.symm
    refine ⟨?_, h0, h1, h2⟩
    rw [hb, List.length_take, List.length_drop]
    omega
  · cases h

theorem copyInto_length (dst src : List Byte) : (copyInto dst src).length = dst.length := by
  unfold copyInto
  rw [List.length_append, List.length_take, List.length_drop]
  omega

theorem copyInto_fits (dst src : List Byte) (h : src.length ≤ dst.length) :
    copyInto dst src = src ++ dst.drop src.length := by
  unfold copyInto
  rw [List.take_of_length_le h]

theorem WriteBytes_fits (w : NetworkWriter) (data : List Byte) (k : Nat) (hk : w.Len = (k : Int))
    (h1 : k + data.length ≤ w.Data.length) :
    w.WriteBytes data =
      (⟨w.Data.take k ++ (data ++ w.Data.drop (k + data.length)),
        ((k + data.length : Nat) : Int)⟩, .ok ()) := by
  obtain ⟨D, L⟩ := w
  simp only at hk h1
  subst hk
  have hno : ¬ ((D.length : Int) - (k : Int) < (data.length : Int)) := by omega
  have hs : sliceOf D (k : Int) D.length = some (D.drop k) := sliceOf_back D k (by omega)
  have hc : copyInto (D.drop k) data = data ++ D.drop (k + data.length) := by
    rw [copyInto_fits _ _ (by rw [List.length_drop]; omega), List.drop_drop]
  unfold NetworkWriter.WriteBytes
  simp only [if_neg hno, hs, hc, Int.toNat_ofNat, Nat.cast_add]

theorem Buffer_of_len (w : NetworkWriter) (k : Nat) (hk : w.Len = (k : Int))
    (h : k ≤ w.Data.length) : w.Buffer = .ok (w.Data.take k) := by
  unfold NetworkWriter.Buffer NetworkWriter.Length
  rw [hk, sliceOf_front w.Data k h]

theorem NewNetworkWriter_ok (n : Nat) :
    NewNetworkWriter (n : Int) = .ok ⟨List.replicate n 0, 0⟩ := by
  unfold NewNetworkWriter makeBytes
  have h : ¬ ((n : Int) < 0) := by omega
  simp [h]

theorem toUint32_bytes (v : Uint32) :
    toUint32 ((toByte (v.val >>> 24)).val <<< 24) + toUint32 ((toByte (v.val >>> 16)).val <<< 16)
      + toUint32 ((toByte (v.val >>> 8)).val <<< 8) + toUint32 (toByte (v.val >>> 0)).val = v := by
  apply Fin.ext
  have hv := v.isLt
  simp only [Fin.val_add, toUint32, toByte, Nat.shiftRight_eq_div_pow, Nat.shiftLeft_eq]
  norm_num
  omega

theorem writeUint32_bytes (v : Uint32) :
    [toByte (v.val >>> 24), toByte (v.val >>> 16), toByte (v.val >>> 8), toByte (v.val >>> 0)]
      = bigEndian32 v := by
  simp [bigEndian32, Nat.shiftRight_eq_div_pow]

theorem Length_of_range (r : NetworkReader) (hlen : (r.Data.length : Int) ≤ maxInt)
    (hp0 : 0 ≤ r.Pos) (hp1 : r.Pos ≤ (r.Data.length : Int)) :
    r.Length = (r.Data.length : Int) - r.Pos := by
  unfold NetworkReader.Length
  apply wrapInt_of_range
  · unfold minInt
    omega
  · omega

theorem ReadBytes_ok (r : NetworkReader) (n : Int) (hlen : (r.Data.length : Int) ≤ maxInt)
    (hp0 : 0 ≤ r.Pos) (hp1 : r.Pos ≤ (r.Data.length : Int)) (hn : 0 ≤ n)
    (hfit : n ≤ (r.Data.length : Int) - r.Pos) :
    r.ReadBytes n = (⟨r.Data, r.Pos + n⟩, .ok ((r.Data.drop r.Pos.toNat).take n.toNat)) := by
  have hL := Length_of_range r hlen hp0 hp1
  have hw : wrapInt (r.Pos + n) = r.Pos + n :=
    wrapInt_of_range _ (by unfold minInt; omega) (by omega)
  have hw2 : wrapInt (r.Pos + n - n) = r.Pos :=
    (wrapInt_of_range _ (by unfold minInt; omega) (by omega)).trans (by omega)
  have hs : sliceOf r.Data r.Pos (r.Pos + n) = some ((r.Data.drop r.Pos.toNat).take n.toNat) := by
    rw [sliceOf_eq_some r.Data r.Pos (r.Pos + n) hp0 (by omega) (by omega)]
    congr 3
    omega
  unfold NetworkReader.ReadBytes
  rw [if_pos (by rw [hL]; exact hfit)]
  simp only [hw, hw2, hs]

theorem ReadBytes_short (r : NetworkReader) (n : Int) (h : r.Length < n) :
    r.ReadBytes n = (r, .err NetworkReader.insufficient) := by
  unfold NetworkReader.ReadBytes
  rw [if_neg (by omega)]

theorem ReadUint32_of_ReadBytes (r r1 : NetworkReader) (b0 b1 b2 b3 : Byte)
    (h : r.ReadBytes 4 = (r1, .ok [b0, b1, b2, b3])) :
    r.ReadUint32 = (r1, .ok (toUint32 (b0.val <<< 24) + toUint32 (b1.val <<< 16)
        + toUint32 (b2.val <<< 8) + toUint32 b3.val)) := by
  unfold NetworkReader.ReadUint32
  rw [h]

theorem ReadFloat32_of_ReadUint32 (r r1 : NetworkReader) (c : Uint32)
    (h : r.ReadUint32 = (r1, .ok c)) : r.ReadFloat32 = (r1, .ok (Float32frombits c)) := by
  unfold NetworkReader.ReadFloat32
  rw [h]

theorem ReadBytes_four (b0 b1 b2 b3 : Byte) :
    (NewNetworkReader [b0, b1, b2, b3]).ReadBytes 4
      = (⟨[b0, b1, b2, b3], 4⟩, .ok [b0, b1, b2, b3]) := by
  rw [ReadBytes_ok (NewNetworkReader [b0, b1, b2, b3]) 4 (by simp [NewNetworkReader, maxInt])
    (by simp [NewNetworkReader]) (by simp [NewNetworkReader]) (by omega)
    (by simp [NewNetworkReader])]
  rfl

theorem Length_at_end (d : List Byte) (hlen : (d.length : Int) ≤ maxInt) :
    NetworkReader.Length ⟨d, (d.length : Int)⟩ = 0 := by
  rw [Length_of_range _ hlen (by simp) (by simp)]
  simp

theorem WriteUint32_fresh (n : Nat) (hn : 4 ≤ n) (v : Uint32) :
    NetworkWriter.WriteUint32 ⟨List.replicate n 0, 0⟩ v
      = (⟨bigEndian32 v ++ List.replicate (n - 4) 0, 4⟩, .ok ()) := by
  unfold NetworkWriter.WriteUint32
  rw [writeUint32_bytes,
    WriteBytes_fits ⟨List.replicate n 0, 0⟩ (bigEndian32 v) 0 rfl
      (by simp [bigEndian32]; omega)]
  simp [bigEndian32]

theorem Buffer_after_WriteUint32 (n : Nat) (v : Uint32) :
    NetworkWriter.Buffer ⟨bigEndian32 v ++ List.replicate (n - 4) 0, 4⟩ = .ok (bigEndian32 v) := by
  rw [Buffer_of_len _ 4 rfl (by simp [bigEndian32])]
  simp [bigEndian32]

theorem ReadUint32_bigEndian32 (v : Uint32) :
    (NewNetworkReader (bigEndian32 v)).ReadUint32 = (⟨bigEndian32 v, 4⟩, .ok v) := by
  have h := ReadUint32_of_ReadBytes _ _ _ _ _ _
    (ReadBytes_four (toByte (v.val / 16777216)) (toByte (v.val / 65536))
      (toByte (v.val / 256)) (toByte v.val))
  have e := toUint32_bytes v
  simp only [Nat.shiftRight_eq_div_pow, Nat.pow_zero, Nat.div_one] at e
  have e24 : (2 : Nat) ^ 24 = 16777216 := by norm_num
  have e16 : (2 : Nat) ^ 16 = 65536 := by norm_num
  have e8 : (2 : Nat) ^ 8 = 256 := by norm_num
  rw [e24, e16, e8] at e
  rw [e] at h
  exact h

/-- C1: a `uint32` written by `WriteUint32` into a writer of capacity at least 4 is read
back unchanged by `ReadUint32` over the writer's `Buffer()`, without error and with no
readable byte left; a `float32` written by `WriteFloat32` is read back by `ReadFloat32`
with the same 32-bit pattern. -/
theorem C1_uint32_float32_roundtrip (n : Int) (hn : 4 ≤ n) (v : Uint32) (f : GoFloat32) :
    (∃ w w1 b r, NewNetworkWriter n = .ok w ∧ w.WriteUint32 v = (w1, .ok ()) ∧
        w1.Buffer = .ok b ∧ (NewNetworkReader b).ReadUint32 = (r, .ok v) ∧ r.Length = 0) ∧
    (∃ w w1 b r g, NewNetworkWriter n = .ok w ∧ w.WriteFloat32 f = (w1, .ok ()) ∧
        w1.Buffer = .ok b ∧ (NewNetworkReader b).ReadFloat32 = (r, .ok g) ∧
        Float32bits g = Float32bits f ∧ r.Length = 0) := by
  obtain ⟨m, rfl⟩ := Int.eq_ofNat_of_zero_le (by omega : 0 ≤ n)
  have hm : 4 ≤ m := by omega
  have hend : ∀ u : Uint32, NetworkReader.Length ⟨bigEndian32 u, 4⟩ = 0 := fun u =>
    Length_at_end (bigEndian32 u) (by simp [bigEndian32, maxInt])
  constructor
  · exact ⟨_, _, _, _, NewNetworkWriter_ok m, WriteUint32_fresh m hm v,
      Buffer_after_WriteUint32 m v, ReadUint32_bigEndian32 v, hend v⟩
  · exact ⟨_, _, _, _, _, NewNetworkWriter_ok m, WriteUint32_fresh m hm (Float32bits f),
      Buffer_after_WriteUint32 m _,
      ReadFloat32_of_ReadUint32 _ _ _ (ReadUint32_bigEndian32 (Float32bits f)), rfl, hend _⟩

/-- Witness of C1: capacity 4, the value `0xDEADBEEF` and a NaN with payload. -/
theorem C1_uint32_float32_roundtrip_witness :
    (4 : Int) ≤ 4 ∧
    ((∃ w w1 b r, NewNetworkWriter 4 = .ok w ∧ w.WriteUint32 3735928559 = (w1, .ok ()) ∧
        w1.Buffer = .ok b ∧ (NewNetworkReader b).ReadUint32 = (r, .ok 3735928559) ∧
        r.Length = 0) ∧
    (∃ w w1 b r g, NewNetworkWriter 4 = .ok w ∧
        w.WriteFloat32 ⟨2143289345⟩ = (w1, .ok ()) ∧
        w1.Buffer = .ok b ∧ (NewNetworkReader b).ReadFloat32 = (r, .ok g) ∧
        Float32bits g = Float32bits ⟨2143289345⟩ ∧ r.Length = 0)) :=
  ⟨by decide, C1_uint32_float32_roundtrip 4 (by decide) 3735928559 ⟨2143289345⟩⟩

/-- C2: on a reader whose cursor lies in `[0, len(Data)]`, `ReadBytes(n)` with `n ≥ 0`
returns an error exactly when `Length() < n`; on error the reader is unchanged; on success
it returns the `n` bytes `Data[p .. p+n)`, the cursor becomes `p+n` and `Length()` drops by
`n`. -/
theorem C2_ReadBytes_contract (r : NetworkReader) (n : Int)
    (hlen : (r.Data.length : Int) ≤ maxInt)
    (hp0 : 0 ≤ r.Pos) (hp1 : r.Pos ≤ (r.Data.length : Int)) (hn : 0 ≤ n) :
    ((∃ e, (r.ReadBytes n).2 = .err e) ↔ r.Length < n) ∧
    (r.Length < n → (r.ReadBytes n).1 = r) ∧
    (¬ r.Length < n →
      (r.ReadBytes n).2 = .ok ((r.Data.drop r.Pos.toNat).take n.toNat) ∧
      (((r.Data.drop r.Pos.toNat).take n.toNat).length : Int) = n ∧
      (r.ReadBytes n).1.Data = r.Data ∧
      (r.ReadBytes n).1.Pos = r.Pos + n ∧
      (r.ReadBytes n).1.Length = r.Length - n) := by
  have hL := Length_of_range r hlen hp0 hp1
  by_cases h : r.Length < n
  · have hs := ReadBytes_short r n h
    refine ⟨⟨fun _ => h, fun _ => ⟨_, by rw [hs]⟩⟩, fun _ => by rw [hs], fun hc => absurd h hc⟩
  · have hok := ReadBytes_ok r n hlen hp0 hp1 hn (by omega)
    refine ⟨⟨?_, fun hc => absurd hc h⟩, fun hc => absurd hc h, fun _ => ?_⟩
    · rintro ⟨e, he⟩
      rw [hok] at he
      cases he
    · rw [hok]
      refine ⟨rfl, ?_, rfl, rfl, ?_⟩
      · rw [List.length_take, List.length_drop]
        omega
      · rw [Length_of_range ⟨r.Data, r.Pos + n⟩ hlen (by simp only; omega) (by simp only; omega),
          hL]
        simp only
        omega

/-- Witness of C2: at cursor 1 of a three-byte reader, a read of two bytes succeeds and
moves the cursor to 3, and a read of five bytes is the error case. -/
theorem C2_ReadBytes_contract_witness :
    (NetworkReader.ReadBytes ⟨[1, 2, 3], 1⟩ 2).2 = .ok [2, 3] ∧
    (NetworkReader.ReadBytes ⟨[1, 2, 3], 1⟩ 2).1.Pos = (⟨[1, 2, 3], 1⟩ : NetworkReader).Pos + 2 ∧
    ((∃ e, (NetworkReader.ReadBytes ⟨[1, 2, 3], 1⟩ 5).2 = .err e)
      ↔ NetworkReader.Length ⟨[1, 2, 3], 1⟩ < 5) ∧
    NetworkReader.Length ⟨[1, 2, 3], 1⟩ < 5 :=
  ⟨by decide,
    ((C2_ReadBytes_contract ⟨[1, 2, 3], 1⟩ 2 (by decide) (by decide) (by decide)
      (by decide)).2.2 (by decide)).2.2.2.1,
    (C2_ReadBytes_contract ⟨[1, 2, 3], 1⟩ 5 (by decide) (by decide) (by decide)
      (by decide)).1,
    by decide⟩

/-- Seek without overflow: when `Pos + length` is representable, the cursor becomes the
clamp of the sum to `[0, len(Data)]`. -/
theorem Seek_of_representable (r : NetworkReader) (d : Int)
    (h0 : minInt ≤ r.Pos + d) (h1 : r.Pos + d ≤ maxInt) :
    (r.Seek d).Pos = clamp (r.Pos + d) r.Data.length ∧ (r.Seek d).Data = r.Data := by
  unfold NetworkReader.Seek clamp
  simp only [wrapInt_of_range _ h0 h1]
  constructor
  · split <;> split <;> simp only at * <;> omega
  · split <;> split <;> rfl

/-- C3 (failing input): at cursor 1 of a one-byte reader, `Seek(math.MaxInt64)` wraps the
sum to `math.MinInt64` and leaves the cursor at 0, whereas the clamp of the mathematical
sum `1 + MaxInt64` to `[0, 1]` is 1. -/
theorem C3_Seek_wraps_at_MaxInt :
    (0 : Int) ≤ (⟨[0], 1⟩ : NetworkReader).Pos ∧
    (⟨[0], 1⟩ : NetworkReader).Pos ≤ ((⟨[0], 1⟩ : NetworkReader).Data.length : Int) ∧
    minInt ≤ maxInt ∧ maxInt ≤ maxInt ∧
    (NetworkReader.Seek ⟨[0], 1⟩ maxInt).Pos = 0 ∧
    clamp ((⟨[0], 1⟩ : NetworkReader).Pos + maxInt) (⟨[0], 1⟩ : NetworkReader).Data.length = 1 := by
  decide

/-- C4 (failing input): after `NewNetworkWriter(1)` and `WriteBytes` of three bytes the
store holds two bytes under a used length of 3, and `Buffer()` panics. -/
theorem C4_Buffer_panics_after_oversized_write :
    NewNetworkWriter 1 = .ok ⟨[0], 0⟩ ∧
    NetworkWriter.WriteBytes ⟨[0], 0⟩ [1, 2, 3] = (⟨[1, 2], 3⟩, .ok ()) ∧
    NetworkWriter.Buffer ⟨[1, 2], 3⟩ = .panic := by
  decide

theorem extend_ok (D : List Byte) (k : Nat) (hk : k ≤ D.length) :
    NetworkWriter.extend ⟨D, (k : Int)⟩
      = (⟨D.take k ++ List.replicate (D.length * 2 - k) 0, (k : Int)⟩, .ok ()) := by
  unfold NetworkWriter.extend
  simp only [sliceOf_front D k hk]
  rw [copyInto_fits _ _ (by rw [List.length_take, List.length_replicate]; omega)]
  simp [List.length_take, Nat.min_eq_left hk]

theorem take_append_self (a b : List Byte) (k : Nat) (h : a.length = k) :
    (a ++ b).take k = a := by
  subst h
  simp

/-- C5: on a writer with `0 ≤ Len ≤ len(Data)`, `WriteBytes(data)` returns for every
`data`, and afterwards the first `Len(old)` bytes of the backing store are the bytes
`Buffer()` returned before the write. -/
theorem C5_WriteBytes_preserves_written (w : NetworkWriter) (data : List Byte)
    (h0 : 0 ≤ w.Len) (h1 : w.Len ≤ (w.Data.length : Int)) :
    (w.WriteBytes data).2 = .ok () ∧
    w.Buffer = .ok ((w.WriteBytes data).1.Data.take w.Len.toNat) := by
  obtain ⟨D, L⟩ := w
  simp only at h0 h1
  obtain ⟨k, rfl⟩ := Int.eq_ofNat_of_zero_le h0
  have hk : k ≤ D.length := by omega
  have hB : NetworkWriter.Buffer ⟨D, (k : Int)⟩ = .ok (D.take k) := Buffer_of_len _ k rfl hk
  have htk : (D.take k).length = k := by rw [List.length_take]; omega
  rw [hB]
  simp only [Int.toNat_ofNat]
  by_cases hx : (D.length : Int) - (k : Int) < (data.length : Int)
  · -- the store is doubled first
    have hs : sliceOf (D.take k ++ List.replicate (D.length * 2 - k) 0) (k : Int)
        ((D.take k ++ List.replicate (D.length * 2 - k) 0).length : Int)
        = some ((D.take k ++ List.replicate (D.length * 2 - k) 0).drop k) :=
      sliceOf_back _ k (by rw [List.length_append, htk]; omega)
    unfold NetworkWriter.WriteBytes
    simp only [if_pos hx, extend_ok D k hk, hs, Int.toNat_ofNat]
    refine ⟨trivial, ?_⟩
    rw [take_append_self _ _ k htk, take_append_self _ _ k htk]
  · -- the free space suffices
    have hfit : k + data.length ≤ D.length := by omega
    rw [WriteBytes_fits ⟨D, (k : Int)⟩ data k rfl hfit]
    exact ⟨rfl, by rw [take_append_self _ _ k htk]⟩

/-- Witness of C5: three bytes written after one, into a store of length 1. -/
theorem C5_WriteBytes_preserves_written_witness :
    ((0 : Int) ≤ (⟨[7], 1⟩ : NetworkWriter).Len ∧
      (⟨[7], 1⟩ : NetworkWriter).Len ≤ ((⟨[7], 1⟩ : NetworkWriter).Data.length : Int)) ∧
    (NetworkWriter.WriteBytes ⟨[7], 1⟩ [1, 2, 3]).1 = ⟨[7, 1], 4⟩ ∧
    ((NetworkWriter.WriteBytes ⟨[7], 1⟩ [1, 2, 3]).2 = .ok () ∧
      NetworkWriter.Buffer ⟨[7], 1⟩
        = .ok ((NetworkWriter.WriteBytes ⟨[7], 1⟩ [1, 2, 3]).1.Data.take
            (⟨[7], 1⟩ : NetworkWriter).Len.toNat)) :=
  ⟨by decide, by decide,
    C5_WriteBytes_preserves_written ⟨[7], 1⟩ [1, 2, 3] (by decide) (by decide)⟩

/-! ## Peers: Send and Flush -/

theorem SendPackage_wire (net : Net) (c : UDPClient) (data : List Byte) (wire : List Packet) :
    (c.SendPackage net data wire).1 = wire ++ [(c.Client, data)] := by
  unfold UDPClient.SendPackage
  split
  · rfl
  · split <;> rfl

theorem SendPackage_reliable (net : Net) (hnet : ∀ l a d, net l a d = none) (c : UDPClient)
    (data : List Byte) (wire : List Packet) :
    c.SendPackage net data wire = (wire ++ [(c.Client, data)], .ok ()) := by
  unfold UDPClient.SendPackage
  rw [hnet]
  split <;> rfl

theorem Flush_idle (net : Net) (c : UDPClient) (wire : List Packet) (h : c.BufferSize ≤ 0) :
    c.Flush net wire = (c, wire, .ok ()) := by
  unfold UDPClient.Flush
  rw [if_neg (by omega)]

theorem Flush_sends (net : Net) (c : UDPClient) (wire : List Packet) (k : Nat)
    (hk : c.BufferSize = (k : Int)) (h0 : 0 < k) (h1 : k ≤ c.Buffer.length) :
    c.Flush net wire =
      ({ c with BufferSize := 0 }, wire ++ [(c.Client, c.Buffer.take k)],
        (c.SendPackage net (c.Buffer.take k) wire).2) := by
  unfold UDPClient.Flush
  rw [if_pos (by omega), hk, sliceOf_front c.Buffer k h1]
  simp only [SendPackage_wire]

theorem Flush_panics (net : Net) (c : UDPClient) (wire : List Packet)
    (h : (c.Buffer.length : Int) < c.BufferSize) : c.Flush net wire = (c, wire, .panic) := by
  unfold UDPClient.Flush
  rw [if_pos (by omega), sliceOf_eq_none _ _ _ (by omega)]

theorem Flush_frame (net : Net) (c : UDPClient) (wire : List Packet) :
    (c.Flush net wire).1.Buffer = c.Buffer ∧ (c.Flush net wire).1.Client = c.Client ∧
    ((c.Flush net wire).2.1 = wire ∨
      ∃ pkt, (c.Flush net wire).2.1 = wire ++ [(c.Client, pkt)] ∧ 1 ≤ pkt.length ∧
        pkt.length ≤ c.Buffer.length) := by
  by_cases h0 : c.BufferSize ≤ 0
  · rw [Flush_idle net c wire h0]
    exact ⟨rfl, rfl, Or.inl rfl⟩
  · by_cases h1 : c.BufferSize ≤ (c.Buffer.length : Int)
    · obtain ⟨k, hk⟩ := Int.eq_ofNat_of_zero_le (by omega : 0 ≤ c.BufferSize)
      rw [Flush_sends net c wire k hk (by omega) (by omega)]
      refine ⟨rfl, rfl, Or.inr ⟨c.Buffer.take k, rfl, ?_, ?_⟩⟩
      · rw [List.length_take]; omega
      · rw [List.length_take]; omega
    · rw [Flush_panics net c wire (by omega)]
      exact ⟨rfl, rfl, Or.inl rfl⟩

theorem sizesWithin_append (N : Int) (wire : List Packet) (a : String) (pkt : List Byte)
    (h : sizesWithin N wire) (h1 : 1 ≤ pkt.length) (h2 : (pkt.length : Int) ≤ N) :
    sizesWithin N (wire ++ [(a, pkt)]) := by
  intro p hp
  rcases List.mem_append.mp hp with hp | hp
  · exact h p hp
  · rw [List.mem_singleton] at hp
    subst hp
    exact ⟨h1, h2⟩

theorem Flush_sizes (net : Net) (c : UDPClient) (wire : List Packet) (N : Int)
    (hN : (c.Buffer.length : Int) = N) (hw : sizesWithin N wire) :
    ((c.Flush net wire).1.Buffer.length : Int) = N ∧ sizesWithin N (c.Flush net wire).2.1 := by
  obtain ⟨hb, -, hcase⟩ := Flush_frame net c wire
  rw [hb]
  refine ⟨hN, ?_⟩
  rcases hcase with h | ⟨pkt, h, h1, h2⟩
  · rw [h]; exact hw
  · rw [h]; exact sizesWithin_append N wire _ pkt hw h1 (by omega)

theorem Send_sizes (net : Net) (c : UDPClient) (data : List Byte) (wire : List Packet) (N : Int)
    (hN : (c.Buffer.length : Int) = N) (hw : sizesWithin N wire) :
    ((c.Send net data wire).1.Buffer.length : Int) = N ∧
      sizesWithin N (c.Send net data wire).2.1 := by
  unfold UDPClient.Send
  have hfirst : ∀ x : UDPClient × List Packet × Ret Unit,
      x = (if (data.length : Int) + c.BufferSize > (c.Buffer.length : Int) then c.Flush net wire
        else (c, wire, .ok ())) → ((x.1.Buffer.length : Int) = N ∧ sizesWithin N x.2.1) := by
    intro x hx
    split at hx
    · rw [hx]; exact Flush_sizes net c wire N hN hw
    · rw [hx]; exact ⟨hN, hw⟩
  generalize (if (data.length : Int) + c.BufferSize > (c.Buffer.length : Int) then c.Flush net wire
        else (c, wire, .ok ())) = x at hfirst
  obtain ⟨c1, wire1, r⟩ := x
  obtain ⟨hb1, hw1⟩ := hfirst _ rfl
  simp only at hb1 hw1
  cases r with
  | err e => exact ⟨hb1, hw1⟩
  | panic => exact ⟨hb1, hw1⟩
  | ok u =>
    simp only
    split
    · rename_i dst hdst
      have hl := sliceOf_length _ _ _ _ hdst
      have hlen2 : (((c1.Buffer.take c1.BufferSize.toNat ++ copyInto dst data).length : Nat) : Int)
          = N := by
        rw [List.length_append, List.length_take, copyInto_length]
        omega
      split
      · exact Flush_sizes net _ wire1 N hlen2 hw1
      · exact ⟨hlen2, hw1⟩
    · exact ⟨hb1, hw1⟩

theorem runCalls_sizes (net : Net) (N : Int) (calls : List Call) :
    ∀ (c : UDPClient) (wire : List Packet), (c.Buffer.length : Int) = N → sizesWithin N wire →
      sizesWithin N (runCalls net calls c wire).2 := by
  induction calls with
  | nil => intro c wire _ hw; exact hw
  | cons call rest ih =>
    intro c wire hN hw
    cases call with
    | send data =>
      have h := Send_sizes net c data wire N hN hw
      exact ih _ _ h.1 h.2
    | flush =>
      have h := Flush_sizes net c wire N hN hw
      exact ih _ _ h.1 h.2

theorem NewUDPClient_ok (addr : String) (N : Int) (c : UDPClient)
    (h : NewUDPClient addr N = .ok c) :
    c.Client = addr ∧ (c.Buffer.length : Int) = N ∧ c.BufferSize = 0 := by
  unfold NewUDPClient makeBytes at h
  by_cases hn : N < 0
  · rw [if_pos hn] at h
    cases h
  · rw [if_neg hn] at h
    injection h with h
    subst h
    refine ⟨rfl, ?_, rfl⟩
    simp only [List.length_replicate]
    omega

/-- C6: whatever `Send` and `Flush` calls are made on a peer created by `NewUDPClient` with
buffer capacity `N`, every datagram handed to `SendPackage` has at least 1 and at most `N`
bytes. -/
theorem C6_packet_sizes (net : Net) (addr : String) (N : Int) (c : UDPClient)
    (hc : NewUDPClient addr N = .ok c) (calls : List Call) :
    ∀ p ∈ (runCalls net calls c []).2, 1 ≤ p.2.length ∧ (p.2.length : Int) ≤ N := by
  obtain ⟨-, hN, -⟩ := NewUDPClient_ok addr N c hc
  exact runCalls_sizes net N calls c [] hN (fun p hp => absurd hp (List.not_mem_nil p))

/-- Witness of C6: capacity 4, a 3-byte send, a 2-byte send and a flush hand over the
datagrams of 3 and 2 bytes. -/
theorem C6_packet_sizes_witness :
    NewUDPClient "a" 4 = .ok ⟨"a", [0, 0, 0, 0], 0⟩ ∧
    (runCalls Net.reliable [.send [1, 2, 3], .send [4, 5], .flush] ⟨"a", [0, 0, 0, 0], 0⟩ []).2
      = [("a", [1, 2, 3]), ("a", [4, 5])] ∧
    ∀ p ∈ (runCalls Net.reliable [.send [1, 2, 3], .send [4, 5], .flush]
        ⟨"a", [0, 0, 0, 0], 0⟩ []).2, 1 ≤ p.2.length ∧ (p.2.length : Int) ≤ 4 :=
  ⟨by decide, by decide,
    C6_packet_sizes Net.reliable "a" 4 ⟨"a", [0, 0, 0, 0], 0⟩ (by decide)
      [.send [1, 2, 3], .send [4, 5], .flush]⟩

/-- Send when the data fits behind the `k` buffered bytes: no flush comes first. -/
theorem Send_fits (net : Net) (addr : String) (Buf data : List Byte) (k : Nat)
    (wire : List Packet) (h : k + data.length ≤ Buf.length) :
    UDPClient.Send net ⟨addr, Buf, (k : Int)⟩ data wire =
      if k + data.length = Buf.length then
        UDPClient.Flush net
          ⟨addr, Buf.take k ++ (data ++ Buf.drop (k + data.length)), ((k + data.length : Nat) : Int)⟩
          wire
      else
        (⟨addr, Buf.take k ++ (data ++ Buf.drop (k + data.length)),
          ((k + data.length : Nat) : Int)⟩, wire, .ok ()) := by
  have hno : ¬ ((data.length : Int) + (k : Int) > (Buf.length : Int)) := by omega
  have hs : sliceOf Buf (k : Int) Buf.length = some (Buf.drop k) := sliceOf_back Buf k (by omega)
  have hc : copyInto (Buf.drop k) data = data ++ Buf.drop (k + data.length) := by
    rw [copyInto_fits _ _ (by rw [List.length_drop]; omega), List.drop_drop]
  have hl : (Buf.take k ++ (data ++ Buf.drop (k + data.length))).length = Buf.length := by
    simp only [List.length_append, List.length_take, List.length_drop]
    omega
  unfold UDPClient.Send
  simp only [if_neg hno, hs, hc, Int.toNat_ofNat, hl, Nat.cast_add]
  by_cases e : k + data.length = Buf.length
  · rw [if_pos e, if_pos (by omega)]
  · rw [if_neg e, if_neg (by omega)]

/-- Send when the data does not fit behind the `k` buffered bytes and the transmission of
the flush succeeds: the buffered bytes go out first, then the data is stored at the front. -/
theorem Send_overflow (net : Net) (hnet : ∀ l a d, net l a d = none) (addr : String)
    (Buf data : List Byte) (k : Nat) (wire : List Packet) (h0 : 0 < k) (h1 : k ≤ Buf.length)
    (h : Buf.length < k + data.length) :
    UDPClient.Send net ⟨addr, Buf, (k : Int)⟩ data wire =
      if Buf.length ≤ data.length then
        UDPClient.Flush net ⟨addr, copyInto Buf data, (data.length : Int)⟩
          (wire ++ [(addr, Buf.take k)])
      else
        (⟨addr, copyInto Buf data, (data.length : Int)⟩, wire ++ [(addr, Buf.take k)],
          .ok ()) := by
  have hyes : (data.length : Int) + (k : Int) > (Buf.length : Int) := by omega
  have hf := Flush_sends net ⟨addr, Buf, (k : Int)⟩ wire k rfl h0 h1
  rw [SendPackage_reliable net hnet] at hf
  have hs : sliceOf Buf (0 : Int) Buf.length = some Buf := by
    have := sliceOf_back Buf 0 (Nat.zero_le _)
    simpa using this
  unfold UDPClient.Send
  simp only [if_pos hyes, hf, hs, Int.toNat_zero, List.take_zero, List.nil_append,
    copyInto_length, Int.zero_add]
  by_cases e : Buf.length ≤ data.length
  · rw [if_pos e, if_pos (by omega)]
  · rw [if_neg e, if_neg (by omega)]

theorem pending_eq (c : UDPClient) (B : List Byte) (h : c.pending = some B) :
    ∃ k : Nat, c.BufferSize = (k : Int) ∧ k ≤ c.Buffer.length ∧ B = c.Buffer.take k ∧
      B.length = k := by
  unfold UDPClient.pending at h
  obtain ⟨hl, h0, h1, h2⟩ := sliceOf_length _ _ _ _ h
  obtain ⟨k, hk⟩ := Int.eq_ofNat_of_zero_le h1
  refine ⟨k, hk, by omega, ?_, by omega⟩
  rw [hk, sliceOf_front c.Buffer k (by omega)] at h
  injection h with h
  exact h.symm

theorem pending_mk (addr : String) (X : List Byte) (n : Nat) (h : n ≤ X.length) :
    UDPClient.pending ⟨addr, X, (n : Int)⟩ = some (X.take n) := by
  unfold UDPClient.pending
  exact sliceOf_front X n h

theorem take_store (B data rest : List Byte) (k : Nat) (hB : B.length = k) :
    (B ++ (data ++ rest)).take (k + data.length) = B ++ data := by
  rw [← List.append_assoc]
  exact take_append_self (B ++ data) rest _ (by rw [List.length_append, hB])

/-- C7: on a peer of capacity `N > 0` holding the buffered bytes `B`, `|B| < N`, and for
`|data| ≤ N`, with transmissions that do not fail, `Send(data)` returns nil and: when
`|B|+|data| < N` nothing is transmitted and `B ++ data` is buffered; when `|B|+|data| = N`
the one packet `B ++ data` is transmitted and the buffer is empty; when `|B|+|data| > N`
the (non-empty) `B` is transmitted first, then `data` is buffered, and `data` is transmitted
at once as a second packet exactly when `|data| = N`. -/
theorem C7_Send_coalescing (net : Net) (hnet : ∀ l a d, net l a d = none) (c : UDPClient)
    (B data : List Byte) (wire : List Packet)
    (hN : 0 < c.Buffer.length) (hB : c.pending = some B) (hBN : B.length < c.Buffer.length)
    (hd : data.length ≤ c.Buffer.length) :
    (c.Send net data wire).2.2 = .ok () ∧
    (B.length + data.length < c.Buffer.length →
      (c.Send net data wire).2.1 = wire ∧
      (c.Send net data wire).1.pending = some (B ++ data)) ∧
    (B.length + data.length = c.Buffer.length →
      (c.Send net data wire).2.1 = wire ++ [(c.Client, B ++ data)] ∧
      (c.Send net data wire).1.pending = some []) ∧
    (c.Buffer.length < B.length + data.length →
      B ≠ [] ∧
      (data.length < c.Buffer.length →
        (c.Send net data wire).2.1 = wire ++ [(c.Client, B)] ∧
        (c.Send net data wire).1.pending = some data) ∧
      (data.length = c.Buffer.length →
        (c.Send net data wire).2.1 = wire ++ [(c.Client, B), (c.Client, data)] ∧
        (c.Send net data wire).1.pending = some [])) := by
  obtain ⟨k, hk, hkN, hBeq, hBlen⟩ := pending_eq c B hB
  obtain ⟨addr, Buf, bs⟩ := c
  simp only at hk hkN hBeq hN hBN hd ⊢
  subst hk
  rcases Nat.lt_trichotomy (k + data.length) Buf.length with hlt | heq | hgt
  · -- the data is appended, nothing is sent
    rw [Send_fits net addr Buf data k wire (by omega), if_neg (by omega)]
    refine ⟨rfl, fun _ => ⟨rfl, ?_⟩, fun h => by omega, fun h => by omega⟩
    have hl : k + data.length
        ≤ (Buf.take k ++ (data ++ Buf.drop (k + data.length))).length := by
      simp only [List.length_append, List.length_take, List.length_drop]
      omega
    rw [pending_mk _ _ _ hl, ← hBeq, take_store B data _ k hBlen]
  · -- the buffer becomes full and is sent
    have hl : (Buf.take k ++ (data ++ Buf.drop (k + data.length))).length = Buf.length := by
      simp only [List.length_append, List.length_take, List.length_drop]
      omega
    rw [Send_fits net addr Buf data k wire (by omega), if_pos heq,
      Flush_sends net _ wire (k + data.length) rfl (by omega) (by rw [hl]; omega),
      SendPackage_reliable net hnet]
    simp only
    rw [← hBeq, take_store B data _ k hBlen]
    refine ⟨trivial, fun h => by omega, fun _ => ⟨rfl, ?_⟩, fun h => by omega⟩
    have := pending_mk addr (B ++ (data ++ Buf.drop (k + data.length))) 0 (Nat.zero_le _)
    simpa using this
  · -- the buffered bytes are sent first
    have hk0 : 0 < k := by omega
    have hBne : B ≠ [] := by
      intro e
      rw [e] at hBlen
      simp at hBlen
      omega
    rw [Send_overflow net hnet addr Buf data k wire hk0 hkN (by omega), ← hBeq]
    by_cases hfull : Buf.length ≤ data.length
    · have hdN : data.length = Buf.length := by omega
      have hci : copyInto Buf data = data := by
        unfold copyInto
        rw [List.take_of_length_le (by omega), List.drop_of_length_le (by omega),
          List.append_nil]
      rw [if_pos hfull, hci,
        Flush_sends net _ _ data.length rfl (by omega) (le_refl _),
        SendPackage_reliable net hnet]
      simp only [List.take_length, List.append_assoc, List.singleton_append]
      refine ⟨(by first | rfl | trivial), fun h => by omega, fun h => by omega, fun _ => ⟨hBne, fun h => by omega,
        fun _ => ⟨(by first | rfl | trivial), ?_⟩⟩⟩
      have := pending_mk addr data 0 (Nat.zero_le _)
      simpa using this
    · rw [if_neg hfull]
      refine ⟨rfl, fun h => by omega, fun h => by omega, fun _ => ⟨hBne, fun _ => ⟨rfl, ?_⟩,
        fun h => by omega⟩⟩
      rw [pending_mk _ _ _ (by rw [copyInto_length]; omega),
        copyInto_fits _ _ (by omega)]
      exact congrArg some (take_append_self data _ _ rfl)

/-- Witness of C7: two 12-byte frames sent to a peer of capacity 20.  The second `Send`
hands over the first frame as one 12-byte packet and buffers the second, which the following
`Flush` hands over as a second 12-byte packet. -/
theorem C7_Send_coalescing_witness :
    UDPClient.Send Net.reliable (samplePeer 20) frameA []
      = (⟨"a", frameA ++ List.replicate 8 0, 12⟩, [], .ok ()) ∧
    (UDPClient.Send Net.reliable ⟨"a", frameA ++ List.replicate 8 0, 12⟩ frameB []).2.1
      = [("a", frameA)] ∧
    (UDPClient.Send Net.reliable ⟨"a", frameA ++ List.replicate 8 0, 12⟩ frameB []).1.pending
      = some frameB ∧
    (UDPClient.Flush Net.reliable
      (UDPClient.Send Net.reliable ⟨"a", frameA ++ List.replicate 8 0, 12⟩ frameB []).1
      (UDPClient.Send Net.reliable ⟨"a", frameA ++ List.replicate 8 0, 12⟩ frameB []).2.1).2.1
      = [("a", frameA), ("a", frameB)] :=
  ⟨by decide,
    ((C7_Send_coalescing Net.reliable (fun _ _ _ => rfl)
      ⟨"a", frameA ++ List.replicate 8 0, 12⟩ frameA frameB [] (by decide) (by decide)
      (by decide) (by decide)).2.2.2 (by decide)).2.1 (by decide) |>.1,
    ((C7_Send_coalescing Net.reliable (fun _ _ _ => rfl)
      ⟨"a", frameA ++ List.replicate 8 0, 12⟩ frameA frameB [] (by decide) (by decide)
      (by decide) (by decide)).2.2.2 (by decide)).2.1 (by decide) |>.2,
    by decide⟩

/-! ## The manager's Send -/

theorem Flush_BufferSize (net : Net) (c : UDPClient) (wire : List Packet) :
    (c.Flush net wire).1.BufferSize = c.BufferSize ∨ (c.Flush net wire).1.BufferSize = 0 := by
  unfold UDPClient.Flush
  split
  · split
    · exact Or.inr rfl
    · exact Or.inl rfl
  · exact Or.inl rfl

theorem Flush_empties (net : Net) (c : UDPClient) (wire : List Packet) (h0 : 0 ≤ c.BufferSize)
    (hr : (c.Flush net wire).2.2 ≠ .panic) : (c.Flush net wire).1.BufferSize = 0 := by
  by_cases hz : c.BufferSize ≤ 0
  · rw [Flush_idle net c wire hz]
    show c.BufferSize = 0
    omega
  · by_cases h1 : c.BufferSize ≤ (c.Buffer.length : Int)
    · obtain ⟨k, hk⟩ := Int.eq_ofNat_of_zero_le h0
      rw [Flush_sends net c wire k hk (by omega) (by omega)]
    · rw [Flush_panics net c wire (by omega)] at hr
      exact absurd rfl hr

theorem Send_BufferSize_nonneg (net : Net) (c : UDPClient) (data : List Byte)
    (wire : List Packet) (h0 : 0 ≤ c.BufferSize) : 0 ≤ (c.Send net data wire).1.BufferSize := by
  unfold UDPClient.Send
  have hfirst : ∀ x : UDPClient × List Packet × Ret Unit,
      x = (if (data.length : Int) + c.BufferSize > (c.Buffer.length : Int) then c.Flush net wire
        else (c, wire, .ok ())) → 0 ≤ x.1.BufferSize := by
    intro x hx
    split at hx
    · rw [hx]
      rcases Flush_BufferSize net c wire with h | h <;> omega
    · rw [hx]; exact h0
  generalize (if (data.length : Int) + c.BufferSize > (c.Buffer.length : Int) then c.Flush net wire
        else (c, wire, .ok ())) = x at hfirst
  obtain ⟨c1, wire1, r⟩ := x
  have h1 : 0 ≤ c1.BufferSize := hfirst _ rfl
  cases r with
  | err e => exact h1
  | panic => exact h1
  | ok u =>
    simp only
    split
    · split
      · rename_i dst _ _
        rcases Flush_BufferSize net
          ⟨c1.Client, c1.Buffer.take c1.BufferSize.toNat ++ copyInto dst data,
            c1.BufferSize + (data.length : Int)⟩ wire1 with h | h
        · rw [h]; simp only; omega
        · rw [h]
      · simp only; omega
    · exact h1

theorem nonnegOn_set (S : Nat → Prop) (heap : List UDPClient) (q : Nat) (c : UDPClient)
    (h : nonnegOn S heap) (hc : 0 ≤ c.BufferSize) : nonnegOn S (heap.set q c) := by
  intro p hp x hx
  rw [List.getElem?_set] at hx
  split at hx
  · split at hx
    · injection hx with hx
      rw [← hx]; exact hc
    · cases hx
  · exact h p hp x hx

theorem sendFrame_nonneg (net : Net) (d : List Byte) (S : Nat → Prop) (cs : List Nat) :
    ∀ (w : World) (errInfo : String), (∀ q ∈ cs, S q) → nonnegOn S w.heap →
      nonnegOn S (sendFrame net d cs w errInfo).1.heap := by
  induction cs with
  | nil => intro w errInfo _ h; exact h
  | cons c cs ih =>
    intro w errInfo hS h
    have hcs : ∀ q ∈ cs, S q := fun q hq => hS q (List.mem_cons_of_mem _ hq)
    simp only [sendFrame]
    cases hc : w.heap[c]? with
    | none => exact h
    | some cl =>
      simp only
      have hnn := Send_BufferSize_nonneg net cl d w.wire (h c (hS c (List.mem_cons_self _ _)) cl hc)
      rcases hsend : cl.Send net d w.wire with ⟨cl1, wire1, r⟩
      rw [hsend] at hnn
      have hset := nonnegOn_set S w.heap c cl1 h hnn
      cases r with
      | ok u => exact ih _ _ hcs hset
      | err e => exact ih _ _ hcs hset
      | panic => exact hset

theorem sendStatuses_nonneg {Obj : Type} (net : Net) (gens : Uint32 → Option (StatusGenerator Obj))
    (clients : List Nat) (status : List (Status Obj)) :
    ∀ (w : World) (errInfo : String), nonnegOn (fun p => p ∈ clients) w.heap →
      nonnegOn (fun p => p ∈ clients) (sendStatuses net gens clients status w errInfo).1.heap := by
  induction status with
  | nil => intro w errInfo h; exact h
  | cons s rest ih =>
    intro w errInfo h
    simp only [sendStatuses]
    cases gens s.Typ with
    | none => exact ih _ _ h
    | some g =>
      simp only
      cases g s.Object with
      | err e => exact ih _ _ h
      | panic => exact h
      | ok d =>
        simp only
        cases frame s.Typ d with
        | err e => exact h
        | panic => exact h
        | ok f =>
          simp only
          have hf := sendFrame_nonneg net f (fun p => p ∈ clients) clients w errInfo
            (fun q hq => hq) h
          rcases hsf : sendFrame net f clients w errInfo with ⟨w1, e1, r1⟩
          rw [hsf] at hf
          cases r1 with
          | ok u => exact ih _ _ hf
          | err e => exact hf
          | panic => exact hf

theorem flushAll_empties (net : Net) (cs : List Nat) :
    ∀ (w : World) (errInfo : String), (flushAll net cs w errInfo).2.2 ≠ .panic →
      (∀ p ∈ cs, ∀ c, w.heap[p]? = some c → 0 ≤ c.BufferSize) →
      (∀ p : Nat, (∃ c : UDPClient, w.heap[p]? = some c ∧ c.BufferSize = 0) →
        ∃ c : UDPClient, (flushAll net cs w errInfo).1.heap[p]? = some c ∧ c.BufferSize = 0) ∧
      (∀ p ∈ cs, ∃ c, (flushAll net cs w errInfo).1.heap[p]? = some c ∧ c.BufferSize = 0) := by
  induction cs with
  | nil =>
    intro w errInfo _ _
    exact ⟨fun p hp => hp, fun p hp => absurd hp (List.not_mem_nil p)⟩
  | cons c cs ih =>
    intro w errInfo hr hnn
    simp only [flushAll] at hr ⊢
    cases hc : w.heap[c]? with
    | none =>
      rw [hc] at hr
      exact absurd rfl hr
    | some cl =>
      rw [hc] at hr
      simp only at hr ⊢
      have hclen : c < w.heap.length := by
        by_contra hge
        rw [List.getElem?_eq_none (by omega)] at hc
        cases hc
      have hz := Flush_empties net cl w.wire (hnn c (List.mem_cons_self _ _) cl hc)
      rcases hfl : cl.Flush net w.wire with ⟨cl1, wire1, r⟩
      rw [hfl] at hr hz
      simp only at hz hr
      have hr1 : r ≠ .panic := by
        intro e
        rw [e] at hr
        exact absurd rfl hr
      have hz1 : cl1.BufferSize = 0 := hz hr1
      have hnn1 : ∀ p ∈ cs, ∀ x, (w.heap.set c cl1)[p]? = some x → 0 ≤ x.BufferSize := by
        intro p hp x hx
        by_cases e : c = p
        · subst e
          rw [List.getElem?_set_self hclen] at hx
          injection hx with hx
          rw [← hx, hz1]
        · rw [List.getElem?_set_ne e] at hx
          exact hnn p (List.mem_cons_of_mem _ hp) x hx
      have hkeep : ∀ p : Nat, (∃ x : UDPClient, w.heap[p]? = some x ∧ x.BufferSize = 0) →
          ∃ x : UDPClient, (w.heap.set c cl1)[p]? = some x ∧ x.BufferSize = 0 := by
        intro p ⟨x, hx, hx0⟩
        by_cases e : c = p
        · subst e
          exact ⟨cl1, List.getElem?_set_self hclen, hz1⟩
        · exact ⟨x, by rw [List.getElem?_set_ne e]; exact hx, hx0⟩
      have hhere : ∃ x : UDPClient, (w.heap.set c cl1)[c]? = some x ∧ x.BufferSize = 0 :=
        ⟨cl1, List.getElem?_set_self hclen, hz1⟩
      cases r with
      | panic => exact absurd rfl hr1
      | ok u =>
        simp only at hr ⊢
        obtain ⟨ih1, ih2⟩ := ih ⟨w.heap.set c cl1, wire1⟩ errInfo hr hnn1
        refine ⟨fun p hp => ih1 p (hkeep p hp), fun p hp => ?_⟩
        rcases List.mem_cons.mp hp with e | hp
        · rw [e]; exact ih1 c hhere
        · exact ih2 p hp
      | err e =>
        simp only at hr ⊢
        obtain ⟨ih1, ih2⟩ := ih ⟨w.heap.set c cl1, wire1⟩ (errInfo ++ e) hr hnn1
        refine ⟨fun p hp => ih1 p (hkeep p hp), fun p hp => ?_⟩
        rcases List.mem_cons.mp hp with e | hp
        · rw [e]; exact ih1 c hhere
        · exact ih2 p hp

/-- C9: when `UDPManager.Send` returns (does not panic) on listed peers whose used size is
not negative, every listed peer has `BufferSize = 0` afterwards, whatever errors the
generators and the transmissions reported. -/
theorem C9_Send_leaves_buffers_empty {Obj : Type} (net : Net) (m : UDPManager Obj) (w : World)
    (clients : List Nat) (status : List (Status Obj))
    (hwf : ∀ p ∈ clients, ∀ c : UDPClient, w.heap[p]? = some c → 0 ≤ c.BufferSize)
    (hret : (m.Send net w clients status).2 ≠ .panic) :
    ∀ p ∈ clients, ∃ c : UDPClient,
      (m.Send net w clients status).1.heap[p]? = some c ∧ c.BufferSize = 0 := by
  have hnn := sendStatuses_nonneg net m.Generators clients status w "" (fun p hp c hc => hwf p hp c hc)
  unfold UDPManager.Send at hret ⊢
  rcases hss : sendStatuses net m.Generators clients status w "" with ⟨w1, e1, r1⟩
  rw [hss] at hnn hret
  cases r1 with
  | err e => exact absurd rfl hret
  | panic => exact absurd rfl hret
  | ok u =>
    simp only at hret hnn ⊢
    have hfa := flushAll_empties net clients w1 e1
    rcases hfl : flushAll net clients w1 e1 with ⟨w2, e2, r2⟩
    rw [hfl] at hfa hret
    cases r2 with
    | err e => exact absurd rfl hret
    | panic => exact absurd rfl hret
    | ok u =>
      simp only at hfa ⊢
      have h2 := (hfa (fun h => by cases h) (fun p hp c hc => hnn p hp c hc)).2
      split <;> exact h2

/-- Witness of C9: two 12-byte statuses sent to a peer of capacity 20 over a socket on
which every transmission fails; the call returns an error and the buffer is empty. -/
theorem C9_Send_leaves_buffers_empty_witness :
    (UDPManager.Send (fun _ _ _ => some "x") sampleManager ⟨[samplePeer 20], []⟩ [0]
        [statusA, statusB]).2
      = .err "x" ∧
    ∀ p ∈ [0], ∃ c : UDPClient,
      (UDPManager.Send (fun _ _ _ => some "x") sampleManager ⟨[samplePeer 20], []⟩ [0]
        [statusA, statusB]).1.heap[p]? = some c ∧
      c.BufferSize = 0 :=
  ⟨by decide,
    C9_Send_leaves_buffers_empty (fun _ _ _ => some "x") sampleManager ⟨[samplePeer 20], []⟩ [0]
      [statusA, statusB]
      (by decide) (by decide)⟩

theorem bigEndian32_length (t : Uint32) : (bigEndian32 t).length = 4 := rfl

theorem frame_eq (t : Uint32) (d : List Byte) : frame t d = .ok (bigEndian32 t ++ d) := by
  have hcast : (4 : Int) + (d.length : Int) = ((4 + d.length : Nat) : Int) := by omega
  have hw := WriteUint32_fresh (4 + d.length) (by omega) t
  have hlen : 4 + d.length ≤ (bigEndian32 t ++ List.replicate (4 + d.length - 4) 0).length := by
    rw [List.length_append, bigEndian32_length, List.length_replicate]
    omega
  have hb := WriteBytes_fits ⟨bigEndian32 t ++ List.replicate (4 + d.length - 4) 0, 4⟩ d 4 rfl hlen
  have hdrop : (bigEndian32 t ++ List.replicate (4 + d.length - 4) 0).drop (4 + d.length) = [] := by
    apply List.drop_of_length_le
    rw [List.length_append, bigEndian32_length, List.length_replicate]
    omega
  have htake : (bigEndian32 t ++ List.replicate (4 + d.length - 4) 0).take 4 = bigEndian32 t :=
    take_append_self _ _ 4 (bigEndian32_length t)
  simp only [hdrop, htake, List.append_nil] at hb
  unfold frame
  rw [hcast, NewNetworkWriter_ok]
  simp only [hw, hb]
  rw [Buffer_of_len _ (4 + d.length) rfl
    (by rw [List.length_append, bigEndian32_length])]
  rw [List.take_of_length_le (by rw [List.length_append, bigEndian32_length])]

theorem framesOf_length {Obj : Type} (payload : Status Obj → List Byte) (status : List (Status Obj)) :
    (framesOf payload status).length = (status.map (fun s => 4 + (payload s).length)).sum := by
  induction status with
  | nil => rfl
  | cons s rest ih =>
    simp only [framesOf, List.length_append, bigEndian32_length, ih, List.map_cons, List.sum_cons]

theorem sendFrame_single (net : Net) (f : List Byte) (p : Nat) (w : World) (errInfo : String)
    (c c1 : UDPClient) (wire1 : List Packet) (hp : w.heap[p]? = some c)
    (hs : c.Send net f w.wire = (c1, wire1, .ok ())) :
    sendFrame net f [p] w errInfo = (⟨w.heap.set p c1, wire1⟩, errInfo, .ok ()) := by
  simp only [sendFrame, hp, hs]

theorem getElem?_set_here (heap : List UDPClient) (p : Nat) (c c1 : UDPClient)
    (hp : heap[p]? = some c) : (heap.set p c1)[p]? = some c1 := by
  apply List.getElem?_set_self
  by_contra hge
  rw [List.getElem?_eq_none (by omega)] at hp
  cases hp

/-- The first loop of Send on one peer, when every status has a succeeding generator and
all frames fit strictly behind the `k` buffered bytes: nothing is transmitted and the frames
are appended to the buffered bytes in order. -/
theorem sendStatuses_coalesce {Obj : Type} (net : Net)
    (gens : Uint32 → Option (StatusGenerator Obj)) (p : Nat) (payload : Status Obj → List Byte)
    (status : List (Status Obj)) :
    ∀ (w : World) (errInfo : String) (c : UDPClient) (k : Nat),
      (∀ s ∈ status, ∃ g, gens s.Typ = some g ∧ g s.Object = .ok (payload s)) →
      w.heap[p]? = some c → c.BufferSize = (k : Int) →
      k + (framesOf payload status).length < c.Buffer.length →
      ∃ (w1 : World) (c1 : UDPClient),
        sendStatuses net gens [p] status w errInfo = (w1, errInfo, .ok ()) ∧
        w1.wire = w.wire ∧ w1.heap[p]? = some c1 ∧ c1.Client = c.Client ∧
        c1.BufferSize = ((k + (framesOf payload status).length : Nat) : Int) ∧
        c1.Buffer.length = c.Buffer.length ∧
        c1.Buffer.take (k + (framesOf payload status).length)
          = c.Buffer.take k ++ framesOf payload status := by
  induction status with
  | nil =>
    intro w errInfo c k _ hp hk _
    exact ⟨w, c, rfl, rfl, hp, rfl, by simpa [framesOf] using hk, rfl, by simp [framesOf]⟩
  | cons s rest ih =>
    intro w errInfo c k hgen hp hk hfit
    obtain ⟨g, hg, hgs⟩ := hgen s (List.mem_cons_self _ _)
    obtain ⟨addr, Buf, bs⟩ := c
    simp only at hk hfit ⊢
    subst hk
    simp only [framesOf, List.length_append] at hfit ⊢
    have hfl : (bigEndian32 s.Typ ++ payload s).length = 4 + (payload s).length := by
      rw [List.length_append, bigEndian32_length]
    have hsend := Send_fits net addr Buf (bigEndian32 s.Typ ++ payload s) k w.wire
      (by rw [hfl]; rw [bigEndian32_length] at hfit; omega)
    rw [if_neg (by rw [hfl]; rw [bigEndian32_length] at hfit; omega)] at hsend
    have hsf := sendFrame_single net (bigEndian32 s.Typ ++ payload s) p w errInfo _ _ _ hp hsend
    have hlen1 : (Buf.take k ++ ((bigEndian32 s.Typ ++ payload s)
        ++ Buf.drop (k + (bigEndian32 s.Typ ++ payload s).length))).length = Buf.length := by
      simp only [List.length_append, List.length_take, List.length_drop, bigEndian32_length] at hfit ⊢
      omega
    have hfit1 : k + (bigEndian32 s.Typ ++ payload s).length + (framesOf payload rest).length
        < (Buf.take k ++ ((bigEndian32 s.Typ ++ payload s)
          ++ Buf.drop (k + (bigEndian32 s.Typ ++ payload s).length))).length := by
      rw [hlen1, List.length_append]
      omega
    obtain ⟨w1, c1, h1, h2, h3, h4, h5, h6, h7⟩ :=
      ih ⟨w.heap.set p ⟨addr, Buf.take k ++ ((bigEndian32 s.Typ ++ payload s)
          ++ Buf.drop (k + (bigEndian32 s.Typ ++ payload s).length)),
          ((k + (bigEndian32 s.Typ ++ payload s).length : Nat) : Int)⟩, w.wire⟩ errInfo
        ⟨addr, Buf.take k ++ ((bigEndian32 s.Typ ++ payload s)
          ++ Buf.drop (k + (bigEndian32 s.Typ ++ payload s).length)),
          ((k + (bigEndian32 s.Typ ++ payload s).length : Nat) : Int)⟩
        (k + (bigEndian32 s.Typ ++ payload s).length)
        (fun x hx => hgen x (List.mem_cons_of_mem _ hx))
        (getElem?_set_here w.heap p _ _ hp) rfl hfit1
    refine ⟨w1, c1, ?_, h2, h3, h4, ?_, ?_, ?_⟩
    · simp only [sendStatuses, hg, hgs, frame_eq, hsf]
      exact h1
    · rw [h5]
      simp only [List.length_append, Nat.cast_add]
      omega
    · rw [h6, hlen1]
    · have e : k + ((bigEndian32 s.Typ).length + (payload s).length + (framesOf payload rest).length)
          = k + (bigEndian32 s.Typ ++ payload s).length + (framesOf payload rest).length := by
        simp only [List.length_append]
        omega
      rw [e, h7, take_store (Buf.take k) (bigEndian32 s.Typ ++ payload s) _ k
        (by rw [List.length_take]; omega)]
      simp only [List.append_assoc]

theorem flushAll_single (net : Net) (p : Nat) (w : World) (errInfo : String)
    (c c1 : UDPClient) (wire1 : List Packet) (hp : w.heap[p]? = some c)
    (hs : c.Flush net w.wire = (c1, wire1, .ok ())) :
    flushAll net [p] w errInfo = (⟨w.heap.set p c1, wire1⟩, errInfo, .ok ()) := by
  simp only [flushAll, hp, hs]

/-- C8: `UDPManager.Send` of statuses with succeeding generators to one peer with an empty
buffer, over transmissions that do not fail.  When the list is not empty and the frames
together are shorter than the capacity, the status loop transmits nothing and the call
transmits exactly one packet, the frames `[big-endian tag][payload]` in list order.  When
the list is a single status whose frame has exactly the capacity, that frame is the one
packet and it is already transmitted by the status loop, before the final flush. -/
theorem C8_Send_coalesces_statuses {Obj : Type} (net : Net)
    (hnet : ∀ l a d, net l a d = none) (m : UDPManager Obj) (w : World) (p : Nat)
    (c : UDPClient) (payload : Status Obj → List Byte) (status : List (Status Obj))
    (hp : w.heap[p]? = some c) (hempty : c.BufferSize = 0)
    (hgen : ∀ s ∈ status, ∃ g, m.Generators s.Typ = some g ∧ g s.Object = .ok (payload s)) :
    (status ≠ [] → (status.map (fun s => 4 + (payload s).length)).sum < c.Buffer.length →
      (sendStatuses net m.Generators [p] status w "").1.wire = w.wire ∧
      (m.Send net w [p] status).2 = .ok () ∧
      (m.Send net w [p] status).1.wire = w.wire ++ [(c.Client, framesOf payload status)]) ∧
    (∀ s, status = [s] → 4 + (payload s).length = c.Buffer.length →
      (sendStatuses net m.Generators [p] status w "").1.wire
        = w.wire ++ [(c.Client, bigEndian32 s.Typ ++ payload s)] ∧
      (m.Send net w [p] status).2 = .ok () ∧
      (m.Send net w [p] status).1.wire
        = w.wire ++ [(c.Client, bigEndian32 s.Typ ++ payload s)]) := by
  constructor
  · intro hne hsum
    rw [← framesOf_length] at hsum
    obtain ⟨w1, c1, h1, h2, h3, h4, h5, h6, h7⟩ :=
      sendStatuses_coalesce net m.Generators p payload status w "" c 0 hgen hp
        (by rw [hempty]; rfl) (by omega)
    simp only [Nat.zero_add, List.take_zero, List.nil_append] at h5 h7
    have hpos : 0 < (framesOf payload status).length := by
      cases status with
      | nil => exact absurd rfl hne
      | cons s rest =>
        simp only [framesOf, List.length_append, bigEndian32_length]
        omega
    have hfl := Flush_sends net c1 w1.wire _ h5 hpos (by omega)
    rw [SendPackage_reliable net hnet, h7, h4] at hfl
    have hfa := flushAll_single net p w1 "" c1 _ _ h3 hfl
    refine ⟨by rw [h1, h2], ?_, ?_⟩
    · unfold UDPManager.Send
      simp only [h1, hfa]
      rfl
    · unfold UDPManager.Send
      simp only [h1, hfa]
      rw [← h2]
      rfl
  · intro s hs hfull
    subst hs
    obtain ⟨g, hg, hgs⟩ := hgen s (List.mem_cons_self _ _)
    obtain ⟨addr, Buf, bs⟩ := c
    simp only at hempty hfull ⊢
    subst hempty
    have hfl : (bigEndian32 s.Typ ++ payload s).length = Buf.length := by
      rw [List.length_append, bigEndian32_length, hfull]
    have hsend := Send_fits net addr Buf (bigEndian32 s.Typ ++ payload s) 0 w.wire (by omega)
    have hstore : (List.take 0 Buf ++ ((bigEndian32 s.Typ ++ payload s)
        ++ Buf.drop (0 + (bigEndian32 s.Typ ++ payload s).length)))
        = bigEndian32 s.Typ ++ payload s := by
      rw [List.drop_of_length_le (by omega)]
      simp
    rw [if_pos (by omega), hstore, Nat.zero_add,
      Flush_sends net _ w.wire (bigEndian32 s.Typ ++ payload s).length rfl (by omega) (le_refl _),
      SendPackage_reliable net hnet, List.take_length] at hsend
    have hsf := sendFrame_single net (bigEndian32 s.Typ ++ payload s) p w ""
      ⟨addr, Buf, ((0 : Nat) : Int)⟩ _ _ hp hsend
    have hss : sendStatuses net m.Generators [p] [s] w ""
        = (⟨w.heap.set p ⟨addr, bigEndian32 s.Typ ++ payload s, 0⟩,
            w.wire ++ [(addr, bigEndian32 s.Typ ++ payload s)]⟩, "", .ok ()) := by
      simp only [sendStatuses, hg, hgs, frame_eq, hsf]
    have hidle := Flush_idle net ⟨addr, bigEndian32 s.Typ ++ payload s, 0⟩
      (w.wire ++ [(addr, bigEndian32 s.Typ ++ payload s)]) (le_refl _)
    have hfa := flushAll_single net p
      ⟨w.heap.set p ⟨addr, bigEndian32 s.Typ ++ payload s, 0⟩,
        w.wire ++ [(addr, bigEndian32 s.Typ ++ payload s)]⟩ ""
      ⟨addr, bigEndian32 s.Typ ++ payload s, 0⟩ _ _ (getElem?_set_here w.heap p _ _ hp) hidle
    refine ⟨by rw [hss], ?_, ?_⟩
    · unfold UDPManager.Send
      simp only [hss, hfa]
      rfl
    · unfold UDPManager.Send
      simp only [hss, hfa]
      rfl

/-- Witness of C8: the two sample statuses (12-byte frames) sent to an empty peer of
capacity 30 give the one 24-byte packet of both frames in order; the first status alone,
sent to a peer of capacity 12, is transmitted by the status loop. -/
theorem C8_Send_coalesces_statuses_witness :
    framesOf samplePayload [statusA, statusB] = frameA ++ frameB ∧
    (UDPManager.Send Net.reliable sampleManager ⟨[samplePeer 30], []⟩ [0]
        [statusA, statusB]).1.wire
      = [] ++ [((samplePeer 30).Client, framesOf samplePayload [statusA, statusB])] ∧
    (sendStatuses Net.reliable sampleManager.Generators [0] [statusA]
        ⟨[samplePeer 12], []⟩ "").1.wire
      = [] ++ [((samplePeer 12).Client, bigEndian32 statusA.Typ ++ samplePayload statusA)] :=
  ⟨by decide,
    ((C8_Send_coalesces_statuses Net.reliable (fun _ _ _ => rfl) sampleManager
      ⟨[samplePeer 30], []⟩ 0 (samplePeer 30) samplePayload [statusA, statusB] rfl rfl
      (by
        intro s hs
        simp only [List.mem_cons, List.mem_singleton, List.not_mem_nil, or_false] at hs
        rcases hs with rfl | rfl <;> exact ⟨MoveStatusGenerator.Generate, rfl, by decide⟩)).1
      (by simp) (by decide)).2.2,
    ((C8_Send_coalesces_statuses Net.reliable (fun _ _ _ => rfl) sampleManager
      ⟨[samplePeer 12], []⟩ 0 (samplePeer 12) samplePayload [statusA] rfl rfl
      (by
        intro s hs
        simp only [List.mem_cons, List.mem_singleton, List.not_mem_nil, or_false] at hs
        subst hs
        exact ⟨MoveStatusGenerator.Generate, rfl, by decide⟩)).2 statusA rfl (by decide)).1⟩

theorem sendStatuses_filter {Obj : Type} (net : Net) (gens : Uint32 → Option (StatusGenerator Obj))
    (clients : List Nat) (status : List (Status Obj)) :
    ∀ (w : World) (errInfo : String),
      sendStatuses net gens clients status w errInfo =
        sendStatuses net gens clients (status.filter (fun s => (gens s.Typ).isSome)) w errInfo := by
  induction status with
  | nil => intro w errInfo; rfl
  | cons s rest ih =>
    intro w errInfo
    cases hg : gens s.Typ with
    | none =>
      rw [List.filter_cons_of_neg (by simp [hg])]
      rw [← ih]
      simp only [sendStatuses, hg]
    | some g =>
      rw [List.filter_cons_of_pos (by simp [hg])]
      simp only [sendStatuses, hg]
      cases g s.Object with
      | err e => exact ih _ _
      | panic => rfl
      | ok d =>
        simp only
        cases frame s.Typ d with
        | ok f =>
          simp only
          rcases sendFrame net f clients w errInfo with ⟨w1, e1, r1⟩
          cases r1 with
          | ok u => exact ih _ _
          | err e => rfl
          | panic => rfl
        | err e => rfl
        | panic => rfl

/-- C10: `UDPManager.Send` on a status list gives the same world (peers and datagrams) and
the same result as on the list without the statuses whose tag has no generator. -/
theorem C10_Send_ignores_unregistered {Obj : Type} (net : Net) (m : UDPManager Obj) (w : World)
    (clients : List Nat) (status : List (Status Obj)) :
    m.Send net w clients status =
      m.Send net w clients (status.filter (fun s => (m.Generators s.Typ).isSome)) := by
  unfold UDPManager.Send
  rw [← sendStatuses_filter]

/-! ## The writer: when one doubling suffices -/

theorem WriteBytes_grows (D data : List Byte) (k : Nat) (hk : k ≤ D.length)
    (hx : D.length < k + data.length) :
    NetworkWriter.WriteBytes ⟨D, (k : Int)⟩ data =
      (⟨D.take k ++ copyInto (List.replicate (D.length * 2 - k) 0) data,
        (k : Int) + (data.length : Int)⟩, .ok ()) := by
  have hx1 : (D.length : Int) - (k : Int) < (data.length : Int) := by omega
  have htk : (D.take k).length = k := by rw [List.length_take]; omega
  have hs : sliceOf (D.take k ++ List.replicate (D.length * 2 - k) 0) (k : Int)
      ((D.take k ++ List.replicate (D.length * 2 - k) 0).length : Int)
      = some ((D.take k ++ List.replicate (D.length * 2 - k) 0).drop k) :=
    sliceOf_back _ k (by rw [List.length_append, htk]; omega)
  have hd : (D.take k ++ List.replicate (D.length * 2 - k) 0).drop k
      = List.replicate (D.length * 2 - k) 0 := by
    rw [List.drop_append_of_le_length (by omega), List.drop_of_length_le (by omega),
      List.nil_append]
  unfold NetworkWriter.WriteBytes
  simp only [if_pos hx1, extend_ok D k hk, hs, Int.toNat_ofNat, hd]
  rw [take_append_self _ _ k htk]

/-- C20: on a writer with `0 ≤ Len ≤ len(Data)`, `WriteBytes(data)` leaves
`Len ≤ len(Data)` and a `Buffer()` equal to the old `Buffer()` followed by `data` exactly
when `Len + len(data) ≤ max(len(Data), 2 * len(Data))` held before the call; in particular
it does so whenever `Len + len(data) ≤ len(Data)`. -/
theorem C20_WriteBytes_exact_condition (w : NetworkWriter) (data : List Byte)
    (h0 : 0 ≤ w.Len) (h1 : w.Len ≤ (w.Data.length : Int)) :
    (((w.WriteBytes data).1.Len ≤ ((w.WriteBytes data).1.Data.length : Int) ∧
        ∃ old, w.Buffer = .ok old ∧ (w.WriteBytes data).1.Buffer = .ok (old ++ data))
      ↔ w.Len + (data.length : Int) ≤ max (w.Data.length : Int) (2 * (w.Data.length : Int))) ∧
    (w.Len + (data.length : Int) ≤ (w.Data.length : Int) →
      (w.WriteBytes data).1.Len ≤ ((w.WriteBytes data).1.Data.length : Int) ∧
        ∃ old, w.Buffer = .ok old ∧ (w.WriteBytes data).1.Buffer = .ok (old ++ data)) := by
  obtain ⟨D, L⟩ := w
  simp only at h0 h1 ⊢
  obtain ⟨k, rfl⟩ := Int.eq_ofNat_of_zero_le h0
  have hk : k ≤ D.length := by omega
  have hB : NetworkWriter.Buffer ⟨D, (k : Int)⟩ = .ok (D.take k) := Buffer_of_len _ k rfl hk
  have htk : (D.take k).length = k := by rw [List.length_take]; omega
  have hfits : k + data.length ≤ D.length →
      (NetworkWriter.WriteBytes ⟨D, (k : Int)⟩ data).1.Len
          ≤ (((NetworkWriter.WriteBytes ⟨D, (k : Int)⟩ data).1.Data.length : Nat) : Int) ∧
        ∃ old, NetworkWriter.Buffer ⟨D, (k : Int)⟩ = .ok old ∧
          (NetworkWriter.WriteBytes ⟨D, (k : Int)⟩ data).1.Buffer = .ok (old ++ data) := by
    intro hfit
    rw [WriteBytes_fits ⟨D, (k : Int)⟩ data k rfl hfit]
    have hl : (D.take k ++ (data ++ D.drop (k + data.length))).length = D.length := by
      simp only [List.length_append, List.length_take, List.length_drop]
      omega
    refine ⟨by simp only [hl]; omega, D.take k, hB, ?_⟩
    rw [Buffer_of_len _ (k + data.length) rfl (by rw [hl]; exact hfit),
      take_store (D.take k) data _ k htk]
  refine ⟨?_, fun h => hfits (by omega)⟩
  by_cases hfit : k + data.length ≤ D.length
  · exact ⟨fun _ => by omega, fun _ => hfits hfit⟩
  · have hg := WriteBytes_grows D data k hk (by omega)
    have hl : (D.take k ++ copyInto (List.replicate (D.length * 2 - k) 0) data).length
        = D.length * 2 := by
      rw [List.length_append, htk, copyInto_length, List.length_replicate]
      omega
    rw [hg]
    simp only [hl]
    constructor
    · rintro ⟨hle, -⟩
      omega
    · intro hcond
      have hle : k + data.length ≤ D.length * 2 := by omega
      refine ⟨by omega, D.take k, hB, ?_⟩
      have hcast : (k : Int) + (data.length : Int) = ((k + data.length : Nat) : Int) := by omega
      rw [copyInto_fits _ _ (by rw [List.length_replicate]; omega),
        Buffer_of_len _ (k + data.length) hcast
          (by simp only [List.length_append, List.length_take, List.length_drop,
                List.length_replicate]; omega),
        take_store (D.take k) data _ k htk]

/-- Witness of C20: into a store of length 2 holding one byte, three bytes are appended
correctly after the doubling (`1 + 3 ≤ 4`), four bytes are not (`1 + 4 > 4`). -/
theorem C20_WriteBytes_exact_condition_witness :
    (NetworkWriter.WriteBytes ⟨[7, 0], 1⟩ [1, 2, 3]).1.Buffer = .ok [7, 1, 2, 3] ∧
    (NetworkWriter.WriteBytes ⟨[7, 0], 1⟩ [1, 2, 3, 4]).1 = ⟨[7, 1, 2, 3], 5⟩ ∧
    ((NetworkWriter.WriteBytes ⟨[7, 0], 1⟩ [1, 2, 3]).1.Len
        ≤ ((NetworkWriter.WriteBytes ⟨[7, 0], 1⟩ [1, 2, 3]).1.Data.length : Int) ∧
      ∃ old, NetworkWriter.Buffer ⟨[7, 0], 1⟩ = .ok old ∧
        (NetworkWriter.WriteBytes ⟨[7, 0], 1⟩ [1, 2, 3]).1.Buffer = .ok (old ++ [1, 2, 3])) ∧
    ¬ ((NetworkWriter.WriteBytes ⟨[7, 0], 1⟩ [1, 2, 3, 4]).1.Len
        ≤ ((NetworkWriter.WriteBytes ⟨[7, 0], 1⟩ [1, 2, 3, 4]).1.Data.length : Int) ∧
      ∃ old, NetworkWriter.Buffer ⟨[7, 0], 1⟩ = .ok old ∧
        (NetworkWriter.WriteBytes ⟨[7, 0], 1⟩ [1, 2, 3, 4]).1.Buffer
          = .ok (old ++ [1, 2, 3, 4])) :=
  ⟨by decide, by decide,
    (C20_WriteBytes_exact_condition ⟨[7, 0], 1⟩ [1, 2, 3] (by decide) (by decide)).1.2
      (by decide),
    fun h => absurd
      ((C20_WriteBytes_exact_condition ⟨[7, 0], 1⟩ [1, 2, 3, 4] (by decide) (by decide)).1.1 h)
      (by decide)⟩

/-- C17 (failing input): on the reader built by `NewNetworkReader` over one byte,
`ReadBytes(-1)` passes the length test, moves the cursor to -1 and panics on the slice
expression; the cursor is then below 0. -/
theorem C17_ReadBytes_negative_count_moves_cursor_below_zero :
    NetworkReader.ReadBytes (NewNetworkReader [1]) (-1) = (⟨[1], -1⟩, .panic) ∧
    ¬ (0 ≤ (NetworkReader.ReadBytes (NewNetworkReader [1]) (-1)).1.Pos) := by
  decide

/-! ## The parse loop of Run -/

theorem combine_bigEndian32 (v : Uint32) :
    toUint32 ((toByte (v.val / 16777216)).val <<< 24)
      + toUint32 ((toByte (v.val / 65536)).val <<< 16)
      + toUint32 ((toByte (v.val / 256)).val <<< 8) + toUint32 (toByte v.val).val = v := by
  have e := toUint32_bytes v
  simp only [Nat.shiftRight_eq_div_pow, Nat.pow_zero, Nat.div_one] at e
  have e24 : (2 : Nat) ^ 24 = 16777216 := by norm_num
  have e16 : (2 : Nat) ^ 16 = 65536 := by norm_num
  have e8 : (2 : Nat) ^ 8 = 256 := by norm_num
  rw [e24, e16, e8] at e
  exact e

theorem drop_append_self (a b : List Byte) (k : Nat) (h : a.length = k) :
    (a ++ b).drop k = b := by
  subst h
  simp

theorem ReadUint32_at (D pre rest : List Byte) (t : Uint32)
    (hD : D = pre ++ (bigEndian32 t ++ rest)) (hlen : (D.length : Int) ≤ maxInt) :
    NetworkReader.ReadUint32 ⟨D, (pre.length : Int)⟩
      = (⟨D, (pre.length : Int) + 4⟩, .ok t) := by
  have hl : D.length = pre.length + (4 + rest.length) := by
    rw [hD, List.length_append, List.length_append, bigEndian32_length]
  have hrb := ReadBytes_ok ⟨D, (pre.length : Int)⟩ 4 hlen (by simp only; omega)
    (by simp only; omega) (by omega) (by simp only; omega)
  have htake : (D.drop pre.length).take 4 = bigEndian32 t := by
    rw [hD, drop_append_self pre _ _ rfl]
    exact take_append_self _ _ 4 (bigEndian32_length t)
  simp only [Int.toNat_ofNat] at hrb
  have e4 : (4 : Int).toNat = 4 := rfl
  rw [e4, htake] at hrb
  have h := ReadUint32_of_ReadBytes _ _ (toByte (t.val / 16777216)) (toByte (t.val / 65536))
    (toByte (t.val / 256)) (toByte t.val) hrb
  rw [combine_bigEndian32] at h
  exact h

theorem Buffer_at (D pre rest : List Byte) (k : Int) (hD : D = pre ++ rest)
    (hk : k = (pre.length : Int)) : NetworkReader.Buffer ⟨D, k⟩ = .ok rest := by
  subst hk
  unfold NetworkReader.Buffer
  simp only
  rw [sliceOf_back D pre.length (by rw [hD, List.length_append]; omega), hD,
    drop_append_self pre rest _ rfl]

theorem Seek_forward (D : List Byte) (k d : Int) (hlen : (D.length : Int) ≤ maxInt)
    (hk : 0 ≤ k) (hd : 0 ≤ d) (hfit : k + d ≤ (D.length : Int)) :
    NetworkReader.Seek ⟨D, k⟩ d = ⟨D, k + d⟩ := by
  have h := Seek_of_representable ⟨D, k⟩ d (by simp only; unfold minInt; omega)
    (by simp only; omega)
  simp only at h
  have hc : clamp (k + d) D.length = k + d := by
    unfold clamp
    omega
  rw [hc] at h
  cases hs : NetworkReader.Seek ⟨D, k⟩ d with
  | mk D1 k1 =>
    rw [hs] at h
    simp only at h
    rw [h.1, h.2]

theorem parseLoop_done {Obj : Type} (tr : Uint32 → Option (OperationTranslator Obj)) (p : Nat)
    (fuel : Nat) (r : NetworkReader) (log : List (Callback Obj)) (h : r.Length ≤ 0) :
    parseLoop tr p fuel r log = some (r, log, .ok ()) := by
  cases fuel with
  | zero => rw [parseLoop, if_neg (by omega)]
  | succ n => rw [parseLoop, if_neg (by omega)]

theorem parseLoop_next {Obj : Type} (tr : Uint32 → Option (OperationTranslator Obj)) (p : Nat)
    (fuel : Nat) (r r1 : NetworkReader) (log : List (Callback Obj)) (t : Uint32)
    (f : OperationTranslator Obj) (b : List Byte) (count : Int) (obj : Obj)
    (hL : r.Length > 0) (hR : r.ReadUint32 = (r1, .ok t)) (ht : tr t = some f)
    (hB : r1.Buffer = .ok b) (hf : f b = .ok (count, obj)) :
    parseLoop tr p (fuel + 1) r log
      = parseLoop tr p fuel (r1.Seek count) (log ++ [.recvOperation p t obj]) := by
  rw [parseLoop, if_pos hL]
  simp only [hR, ht, hB, hf]

theorem parseLoop_unknown {Obj : Type} (tr : Uint32 → Option (OperationTranslator Obj))
    (p : Nat) (fuel : Nat) (r r1 : NetworkReader) (log : List (Callback Obj)) (t : Uint32)
    (hL : r.Length > 0) (hR : r.ReadUint32 = (r1, .ok t)) (ht : tr t = none) :
    parseLoop tr p (fuel + 1) r log
      = some (r1, log ++ [.error (some p) (some noTranslator)], .ok ()) := by
  rw [parseLoop, if_pos hL]
  simp only [hR, ht]

theorem parseLoop_rejected {Obj : Type} (tr : Uint32 → Option (OperationTranslator Obj))
    (p : Nat) (fuel : Nat) (r r1 : NetworkReader) (log : List (Callback Obj)) (t : Uint32)
    (f : OperationTranslator Obj) (b : List Byte) (e : String)
    (hL : r.Length > 0) (hR : r.ReadUint32 = (r1, .ok t)) (ht : tr t = some f)
    (hB : r1.Buffer = .ok b) (hf : f b = .err e) :
    parseLoop tr p (fuel + 1) r log
      = some (r1, log ++ [.error (some p) (some e)], .ok ()) := by
  rw [parseLoop, if_pos hL]
  simp only [hR, ht, hB, hf]

theorem parseLoop_short {Obj : Type} (tr : Uint32 → Option (OperationTranslator Obj))
    (p : Nat) (fuel : Nat) (r r1 : NetworkReader) (log : List (Callback Obj)) (e : String)
    (hL : r.Length > 0) (hR : r.ReadUint32 = (r1, .err e)) :
    parseLoop tr p (fuel + 1) r log = some (r1, log ++ [.error (some p) none], .ok ()) := by
  rw [parseLoop, if_pos hL]
  simp only [hR]

theorem encodeOps_cons {Obj : Type} (o : OpRecord Obj) (rest : List (OpRecord Obj)) :
    encodeOps (o :: rest) = (bigEndian32 o.tag ++ o.payload) ++ encodeOps rest := rfl

/-- The parse loop over a run of valid records: one iteration and one `RecvOperation` per
record, the cursor ending behind the last of them. -/
theorem parseLoop_valid_ops {Obj : Type} (tr : Uint32 → Option (OperationTranslator Obj))
    (p : Nat) (ops : List (OpRecord Obj)) :
    ∀ (pre tl D : List Byte) (log : List (Callback Obj)) (n : Nat),
      D = pre ++ (encodeOps ops ++ tl) → (D.length : Int) ≤ maxInt →
      (∀ o ∈ ops, validOp tr o) →
      parseLoop tr p (ops.length + n) ⟨D, (pre.length : Int)⟩ log
        = parseLoop tr p n ⟨D, ((pre ++ encodeOps ops).length : Int)⟩
            (log ++ opCallbacks p ops) := by
  induction ops with
  | nil =>
    intro pre tl D log n _ _ _
    simp [encodeOps, opCallbacks]
  | cons o rest ih =>
    intro pre tl D log n hD hlen hval
    obtain ⟨f, hf, hfv⟩ := hval o (List.mem_cons_self _ _)
    have hD1 : D = pre ++ (bigEndian32 o.tag ++ (o.payload ++ (encodeOps rest ++ tl))) := by
      rw [hD, encodeOps_cons]
      simp only [List.append_assoc]
    have hD2 : D = (pre ++ bigEndian32 o.tag) ++ (o.payload ++ (encodeOps rest ++ tl)) := by
      rw [hD1]
      simp only [List.append_assoc]
    have hD3 : D = (pre ++ (bigEndian32 o.tag ++ o.payload)) ++ (encodeOps rest ++ tl) := by
      rw [hD1]
      simp only [List.append_assoc]
    have hl : D.length
        = pre.length + (4 + (o.payload.length + (encodeOps rest ++ tl).length)) := by
      rw [hD1]
      simp only [List.length_append, bigEndian32_length]
    have hL : NetworkReader.Length ⟨D, (pre.length : Int)⟩ > 0 := by
      rw [Length_of_range _ hlen (by simp only; omega) (by simp only; omega)]
      simp only
      omega
    have hR := ReadUint32_at D pre _ o.tag hD1 hlen
    have hB := Buffer_at D (pre ++ bigEndian32 o.tag) _ ((pre.length : Int) + 4) hD2
      (by rw [List.length_append, bigEndian32_length]; omega)
    have hsuf : (((o.payload ++ (encodeOps rest ++ tl)).length : Nat) : Int) ≤ maxInt := by
      rw [List.length_append]
      omega
    have hstep := parseLoop_next tr p (rest.length + n) _ _ log o.tag f _ _ _ hL hR hf hB
      (hfv _ hsuf)
    have hseek := Seek_forward D ((pre.length : Int) + 4) (o.payload.length : Int) hlen
      (by omega) (by omega) (by omega)
    have hpos : (pre.length : Int) + 4 + (o.payload.length : Int)
        = ((pre ++ (bigEndian32 o.tag ++ o.payload)).length : Int) := by
      simp only [List.length_append, bigEndian32_length]
      omega
    rw [hseek, hpos] at hstep
    have hfuel : (o :: rest).length + n = rest.length + n + 1 := by
      simp only [List.length_cons]
      omega
    rw [hfuel, hstep, ih (pre ++ (bigEndian32 o.tag ++ o.payload)) tl D _ n hD3 hlen
      (fun x hx => hval x (List.mem_cons_of_mem _ hx))]
    simp only [opCallbacks, List.map_cons, List.append_assoc, List.singleton_append,
      encodeOps_cons]

/-- For records that are valid for the registry, the parse of the datagram made of
their frames `[big-endian tag][payload]` ends (with as many iterations as records), invokes
`RecvOperation` once per record, in order, with the record's tag and value, and invokes
nothing else, in particular never `Error`. -/
theorem parseLoop_valid_datagram {Obj : Type} (tr : Uint32 → Option (OperationTranslator Obj))
    (p : Nat) (ops : List (OpRecord Obj)) (log : List (Callback Obj)) (fuel : Nat)
    (hval : ∀ o ∈ ops, validOp tr o) (hlen : ((encodeOps ops).length : Int) ≤ maxInt)
    (hfuel : ops.length ≤ fuel) :
    parseLoop tr p fuel (NewNetworkReader (encodeOps ops)) log
      = some (⟨encodeOps ops, ((encodeOps ops).length : Int)⟩, log ++ opCallbacks p ops,
          .ok ()) := by
  obtain ⟨n, rfl⟩ := Nat.exists_eq_add_of_le hfuel
  have h := parseLoop_valid_ops tr p ops [] [] (encodeOps ops) log n (by simp) hlen hval
  simp only [List.length_nil, Nat.cast_zero, List.nil_append] at h
  unfold NewNetworkReader
  rw [h]
  exact parseLoop_done tr p n _ _ (by rw [Length_at_end _ hlen])

theorem readDirection_of_reads (r r1 r2 : NetworkReader) (x y : GoFloat32)
    (h1 : r.ReadFloat32 = (r1, .ok x)) (h2 : r1.ReadFloat32 = (r2, .ok y)) :
    MoveOperationTranslator.readDirection r = .ok (r2.Pos, .direction ⟨x, y⟩) := by
  unfold MoveOperationTranslator.readDirection
  simp only [h1, h2, floatOrZero]

theorem MoveTranslate_two_floats (a b : Uint32) (suffix : List Byte)
    (hlen : (((bigEndian32 a ++ (bigEndian32 b ++ suffix)).length : Nat) : Int) ≤ maxInt) :
    MoveOperationTranslator.Translate (bigEndian32 a ++ (bigEndian32 b ++ suffix))
      = .ok (8, .direction ⟨⟨a⟩, ⟨b⟩⟩) := by
  have h1 := ReadUint32_at (bigEndian32 a ++ (bigEndian32 b ++ suffix)) [] _ a rfl hlen
  have h2 := ReadUint32_at (bigEndian32 a ++ (bigEndian32 b ++ suffix)) (bigEndian32 a) _ b rfl
    hlen
  have e1 : ((([] : List Byte).length : Nat) : Int) = 0 := by simp
  have e2 : (0 : Int) + 4 = 4 := by norm_num
  have e3 : (((bigEndian32 a).length : Nat) : Int) = 4 := by rw [bigEndian32_length]; rfl
  have e4 : (4 : Int) + 4 = 8 := by norm_num
  rw [e1, e2] at h1
  rw [e3, e4] at h2
  unfold MoveOperationTranslator.Translate NewNetworkReader
  exact readDirection_of_reads _ _ _ _ _ (ReadFloat32_of_ReadUint32 _ _ _ h1)
    (ReadFloat32_of_ReadUint32 _ _ _ h2)

theorem moveRecord_valid (n : Nat) : validOp (mainManager n).Translators moveRecord := by
  refine ⟨MoveOperationTranslator.Translate, rfl, ?_⟩
  intro suffix hlen
  have hp : moveRecord.payload = bigEndian32 1073741824 ++ bigEndian32 1077936128 := by decide
  rw [hp, List.append_assoc] at hlen ⊢
  exact MoveTranslate_two_floats _ _ suffix hlen

theorem ReadUint32_short (r : NetworkReader) (h : r.Length < 4) :
    r.ReadUint32 = (r, .err NetworkReader.insufficient) := by
  unfold NetworkReader.ReadUint32
  rw [ReadBytes_short r 4 h]

/-- When `k` valid records are followed by a record whose tag has no translator, or
whose translator returns an error on the bytes behind the tag, and by any further bytes,
the parse ends after `k + 1` iterations with exactly the `k` `RecvOperation` calls in order
followed by one `Error` call; the cursor stays right behind the failing tag. -/
theorem parseLoop_failing_record {Obj : Type}
    (tr : Uint32 → Option (OperationTranslator Obj)) (p : Nat) (ops : List (OpRecord Obj))
    (t : Uint32) (rest : List Byte) (e : String) (log : List (Callback Obj)) (fuel : Nat)
    (hval : ∀ o ∈ ops, validOp tr o)
    (hlen : (((encodeOps ops ++ (bigEndian32 t ++ rest)).length : Nat) : Int) ≤ maxInt)
    (hfail : (tr t = none ∧ e = noTranslator) ∨ ∃ f, tr t = some f ∧ f rest = .err e)
    (hfuel : ops.length + 1 ≤ fuel) :
    parseLoop tr p fuel (NewNetworkReader (encodeOps ops ++ (bigEndian32 t ++ rest))) log
      = some (⟨encodeOps ops ++ (bigEndian32 t ++ rest), ((encodeOps ops).length : Int) + 4⟩,
          log ++ opCallbacks p ops ++ [.error (some p) (some e)], .ok ()) := by
  obtain ⟨n, rfl⟩ := Nat.exists_eq_add_of_le hfuel
  have hfu : ops.length + 1 + n = ops.length + (n + 1) := by omega
  have h := parseLoop_valid_ops tr p ops [] (bigEndian32 t ++ rest)
    (encodeOps ops ++ (bigEndian32 t ++ rest)) log (n + 1) (by simp) hlen hval
  simp only [List.length_nil, Nat.cast_zero, List.nil_append] at h
  unfold NewNetworkReader
  rw [hfu, h]
  have hl : (encodeOps ops ++ (bigEndian32 t ++ rest)).length
      = (encodeOps ops).length + (4 + rest.length) := by
    simp only [List.length_append, bigEndian32_length]
  have hL : NetworkReader.Length
      ⟨encodeOps ops ++ (bigEndian32 t ++ rest), ((encodeOps ops).length : Int)⟩ > 0 := by
    rw [Length_of_range _ hlen (by simp only; omega) (by simp only; omega)]
    simp only
    omega
  have hR := ReadUint32_at _ (encodeOps ops) rest t rfl hlen
  rcases hfail with ⟨hnone, he⟩ | ⟨f, hf, hfe⟩
  · rw [parseLoop_unknown tr p n _ _ _ t hL hR hnone, he]
  · have hB := Buffer_at (encodeOps ops ++ (bigEndian32 t ++ rest))
      (encodeOps ops ++ bigEndian32 t) rest (((encodeOps ops).length : Int) + 4)
      (by simp only [List.append_assoc])
      (by rw [List.length_append, bigEndian32_length]; omega)
    rw [parseLoop_rejected tr p n _ _ _ t f rest e hL hR hf hB hfe]

/-- After valid records, a tail of one to three bytes: `ReadUint32` returns the
insufficient-data error, and the parse ends with one `Error` call that carries a nil error. -/
theorem parseLoop_short_tail {Obj : Type} (tr : Uint32 → Option (OperationTranslator Obj))
    (p : Nat) (ops : List (OpRecord Obj)) (tl : List Byte) (log : List (Callback Obj))
    (fuel : Nat) (hval : ∀ o ∈ ops, validOp tr o)
    (hlen : (((encodeOps ops ++ tl).length : Nat) : Int) ≤ maxInt)
    (h1 : 1 ≤ tl.length) (h3 : tl.length ≤ 3) (hfuel : ops.length + 1 ≤ fuel) :
    (NetworkReader.ReadUint32 ⟨encodeOps ops ++ tl, ((encodeOps ops).length : Int)⟩).2
        = .err NetworkReader.insufficient ∧
    parseLoop tr p fuel (NewNetworkReader (encodeOps ops ++ tl)) log
      = some (⟨encodeOps ops ++ tl, ((encodeOps ops).length : Int)⟩,
          log ++ opCallbacks p ops ++ [.error (some p) none], .ok ()) := by
  obtain ⟨n, rfl⟩ := Nat.exists_eq_add_of_le hfuel
  have hfu : ops.length + 1 + n = ops.length + (n + 1) := by omega
  have h := parseLoop_valid_ops tr p ops [] tl (encodeOps ops ++ tl) log (n + 1) (by simp)
    hlen hval
  simp only [List.length_nil, Nat.cast_zero, List.nil_append] at h
  have hl : (encodeOps ops ++ tl).length = (encodeOps ops).length + tl.length := by
    simp only [List.length_append]
  have hLen : NetworkReader.Length ⟨encodeOps ops ++ tl, ((encodeOps ops).length : Int)⟩
      = (tl.length : Int) := by
    rw [Length_of_range _ hlen (by simp only; omega) (by simp only; omega)]
    simp only
    omega
  have hR := ReadUint32_short ⟨encodeOps ops ++ tl, ((encodeOps ops).length : Int)⟩
    (by rw [hLen]; omega)
  refine ⟨by rw [hR], ?_⟩
  unfold NewNetworkReader
  rw [hfu, h, parseLoop_short tr p n _ _ _ _ (by rw [hLen]; omega) hR]

/-- C15 (failing input): for the one-byte datagram `00`, `ReadUint32` returns the non-nil
insufficient-data error, and the parse invokes `Error` once with a nil error. -/
theorem C15_Error_receives_nil_error :
    (NetworkReader.ReadUint32 (NewNetworkReader [0])).2 = .err NetworkReader.insufficient ∧
    parseLoop (mainManager 16).Translators 0 1 (NewNetworkReader [0]) []
      = some (⟨[0], 0⟩, [.error (some 0) none], .ok ()) := by
  decide

theorem parseLoop_out_of_fuel {Obj : Type} (tr : Uint32 → Option (OperationTranslator Obj))
    (p : Nat) (r : NetworkReader) (log : List (Callback Obj)) (h : r.Length > 0) :
    parseLoop tr p 0 r log = none := by
  rw [parseLoop, if_pos h]

/-- C19 (failing input): with a translator that reports `math.MaxInt64` consumed bytes (a
count `≥ 0`) for the 4-byte datagram `00000000`, an iteration reads the tag, `Seek` wraps and
clamps the cursor back to 0, and the parse loop does not finish for any number of
iterations, although `ceil(4/4) = 1`. -/
theorem C19_parse_loop_never_finishes :
    (0 : Int) ≤ maxInt ∧
    NetworkReader.Seek ⟨[0, 0, 0, 0], 4⟩ maxInt = ⟨[0, 0, 0, 0], 0⟩ ∧
    ∀ (fuel : Nat) (log : List (Callback Value)),
      parseLoop (fun _ => some greedyTranslator) 0 fuel (NewNetworkReader [0, 0, 0, 0]) log
        = none := by
  have hseek : NetworkReader.Seek ⟨[0, 0, 0, 0], 4⟩ maxInt = ⟨[0, 0, 0, 0], 0⟩ := by decide
  have hL : NetworkReader.Length (NewNetworkReader [0, 0, 0, 0]) > 0 := by decide
  have hR : NetworkReader.ReadUint32 (NewNetworkReader [0, 0, 0, 0])
      = (⟨[0, 0, 0, 0], 4⟩, .ok 0) := by decide
  have hB : NetworkReader.Buffer ⟨[0, 0, 0, 0], 4⟩ = .ok [] := by decide
  refine ⟨by decide, hseek, ?_⟩
  intro fuel
  induction fuel with
  | zero => intro log; exact parseLoop_out_of_fuel _ 0 _ log hL
  | succ n ih =>
    intro log
    rw [parseLoop_next (fun _ => some greedyTranslator) 0 n _ _ log 0 greedyTranslator []
      maxInt Value.nil hL hR rfl hB rfl, hseek]
    exact ih _

/-! ## The dispatch loop of Run -/

/-- The callbacks of a parse are appended to the callbacks so far and do not depend on
them. -/
theorem parseLoop_log {Obj : Type} (tr : Uint32 → Option (OperationTranslator Obj)) (p : Nat) :
    ∀ (fuel : Nat) (r : NetworkReader) (log : List (Callback Obj)),
      parseLoop tr p fuel r log
        = (parseLoop tr p fuel r []).map (fun y => (y.1, log ++ y.2.1, y.2.2)) := by
  intro fuel
  induction fuel with
  | zero =>
    intro r log
    rw [parseLoop, parseLoop]
    split <;> simp
  | succ n ih =>
    intro r log
    rw [parseLoop, parseLoop]
    split
    · rcases r.ReadUint32 with ⟨r1, res⟩
      cases res with
      | err e => simp
      | panic => simp
      | ok t =>
        simp only
        cases tr t with
        | none => simp
        | some f =>
          simp only
          cases r1.Buffer with
          | err e => simp
          | panic => simp
          | ok b =>
            simp only
            cases f b with
            | err e => simp
            | panic => simp
            | ok v =>
              obtain ⟨count, obj⟩ := v
              simp only
              rw [ih (r1.Seek count) (log ++ [Callback.recvOperation p t obj]),
                ih (r1.Seek count) ([] ++ [Callback.recvOperation p t obj]), Option.map_map]
              congr 1
              funext y
              simp
    · simp

theorem resolve_unseen {Obj : Type} (connect : UDPManager Obj → UDPClient → Bool)
    (m : UDPManager Obj) (w : World) (log : List (Callback Obj)) (addr : String)
    (h : m.ClientsMap addr = none) :
    UDPManager.resolve connect m w log addr =
      ({ m with
          Clients := m.Clients ++ [w.heap.length]
          ClientsMap := fun a => if a = addr then some (m.Clients.length : Int)
            else m.ClientsMap a },
        { w with heap := w.heap ++ [⟨addr, List.replicate m.Buffer.length 0, 0⟩] },
        log ++ [.connect w.heap.length
          (connect { m with
              Clients := m.Clients ++ [w.heap.length]
              ClientsMap := fun a => if a = addr then some (m.Clients.length : Int)
                else m.ClientsMap a }
            ⟨addr, List.replicate m.Buffer.length 0, 0⟩)],
        .ok w.heap.length) := by
  have hnew : NewUDPClient addr (m.Buffer.length : Int)
      = .ok ⟨addr, List.replicate m.Buffer.length 0, 0⟩ := by
    unfold NewUDPClient makeBytes
    rw [if_neg (by omega)]
    simp
  unfold UDPManager.resolve
  simp only [h, hnew]

theorem resolve_seen {Obj : Type} (connect : UDPManager Obj → UDPClient → Bool)
    (m : UDPManager Obj) (w : World) (log : List (Callback Obj)) (addr : String) (i p : Nat)
    (h : m.ClientsMap addr = some (i : Int)) (hp : m.Clients[i]? = some p) :
    UDPManager.resolve connect m w log addr = (m, w, log, .ok p) := by
  unfold UDPManager.resolve
  simp only [h, Int.toNat_ofNat, hp]
  rw [if_pos (by omega)]

/-- C16: for a datagram from an address that is not registered, the iteration of Run with
a sink whose `Connect` answers one way and with a sink whose `Connect` answers the other way
end with the same manager (registry included), the same peers and the same outcome, and
invoke the same `RecvOperation` and `Error` callbacks in the same order. -/
theorem C16_Connect_result_is_not_used {Obj : Type}
    (c1 c2 : UDPManager Obj → UDPClient → Bool) (fuel : Nat) (m : UDPManager Obj) (w : World)
    (log : List (Callback Obj)) (addr : String) (data : List Byte)
    (hnew : m.ClientsMap addr = none) :
    (UDPManager.step c1 fuel m w log (.datagram addr data)).map
        (fun y => (y.1, y.2.1, y.2.2.2))
      = (UDPManager.step c2 fuel m w log (.datagram addr data)).map
        (fun y => (y.1, y.2.1, y.2.2.2)) ∧
    (UDPManager.step c1 fuel m w log (.datagram addr data)).map
        (fun y => y.2.2.1.filter (fun cb => !cb.isConnect))
      = (UDPManager.step c2 fuel m w log (.datagram addr data)).map
        (fun y => y.2.2.1.filter (fun cb => !cb.isConnect)) := by
  have h0 : (⟨copyInto m.Buffer data, m.ClientsMap, m.Clients, m.Translators,
      m.Generators⟩ : UDPManager Obj).ClientsMap addr = none := hnew
  unfold UDPManager.step
  simp only
  rw [resolve_unseen c1 _ w log addr h0, resolve_unseen c2 _ w log addr h0]
  simp only
  cases (w.heap ++ [(⟨addr, List.replicate (copyInto m.Buffer data).length 0, 0⟩ : UDPClient)])[
      w.heap.length]? with
  | none => simp [Callback.isConnect, Callback.connectPtr]
  | some cl =>
    simp only
    cases sliceOf (copyInto m.Buffer data) 0 ((min data.length m.Buffer.length : Nat) : Int) with
    | none => simp [Callback.isConnect, Callback.connectPtr]
    | some buf =>
      simp only
      rw [parseLoop_log _ _ fuel (NewNetworkReader buf)
          (log ++ [Callback.connect w.heap.length (c1 _ _)]),
        parseLoop_log _ _ fuel (NewNetworkReader buf)
          (log ++ [Callback.connect w.heap.length (c2 _ _)])]
      cases parseLoop (fun t => m.Translators t) w.heap.length fuel (NewNetworkReader buf) [] with
      | none => simp
      | some y => simp [Callback.isConnect, Callback.connectPtr]

/-- Witness of C16: the datagram `00000001 40000000 40400000` from the new address `a`;
the two runs record `Connect` with `true` and with `false` and then the same operation. -/
theorem C16_Connect_result_is_not_used_witness :
    (mainManager 16).ClientsMap "a" = none ∧
    (UDPManager.step (fun _ _ => true) 2 (mainManager 16) ⟨[], []⟩ []
        (.datagram "a" frameA)).map (fun y => y.2.2.1)
      = some [.connect 0 true, .recvOperation 0 1 (.direction ⟨⟨1073741824⟩, ⟨1077936128⟩⟩)] ∧
    (UDPManager.step (fun _ _ => false) 2 (mainManager 16) ⟨[], []⟩ []
        (.datagram "a" frameA)).map (fun y => y.2.2.1)
      = some [.connect 0 false, .recvOperation 0 1 (.direction ⟨⟨1073741824⟩, ⟨1077936128⟩⟩)] ∧
    (UDPManager.step (fun _ _ => true) 2 (mainManager 16) ⟨[], []⟩ []
        (.datagram "a" frameA)).map (fun y => y.2.2.1.filter (fun cb => !cb.isConnect))
      = (UDPManager.step (fun _ _ => false) 2 (mainManager 16) ⟨[], []⟩ []
        (.datagram "a" frameA)).map (fun y => y.2.2.1.filter (fun cb => !cb.isConnect)) :=
  ⟨rfl, by decide, by decide,
    (C16_Connect_result_is_not_used (fun _ _ => true) (fun _ _ => false) 2 (mainManager 16)
      ⟨[], []⟩ [] "a" frameA rfl).2⟩

/-- The callbacks of a parse for the peer `p` are `RecvOperation` and `Error` calls for
`p`. -/
theorem parseLoop_events {Obj : Type} (tr : Uint32 → Option (OperationTranslator Obj))
    (p : Nat) :
    ∀ (fuel : Nat) (r : NetworkReader) (y : NetworkReader × List (Callback Obj) × Ret Unit),
      parseLoop tr p fuel r [] = some y →
      ∀ ev ∈ y.2.1, (∃ t o, ev = Callback.recvOperation p t o) ∨
        (∃ e, ev = Callback.error (some p) e) := by
  intro fuel
  induction fuel with
  | zero =>
    intro r y h ev hev
    rw [parseLoop] at h
    split at h
    · cases h
    · injection h with h
      rw [← h] at hev
      cases hev
  | succ n ih =>
    intro r y h ev hev
    rw [parseLoop] at h
    split at h
    · rcases hR : r.ReadUint32 with ⟨r1, res⟩
      rw [hR] at h
      cases res with
      | err e =>
        simp only at h
        injection h with h
        rw [← h] at hev
        simp only [List.nil_append, List.mem_singleton] at hev
        exact Or.inr ⟨none, hev⟩
      | panic =>
        simp only at h
        injection h with h
        rw [← h] at hev
        cases hev
      | ok t =>
        simp only at h
        cases ht : tr t with
        | none =>
          rw [ht] at h
          simp only at h
          injection h with h
          rw [← h] at hev
          simp only [List.nil_append, List.mem_singleton] at hev
          exact Or.inr ⟨_, hev⟩
        | some f =>
          rw [ht] at h
          simp only at h
          cases hB : r1.Buffer with
          | err e =>
            rw [hB] at h
            simp only at h
            injection h with h
            rw [← h] at hev
            cases hev
          | panic =>
            rw [hB] at h
            simp only at h
            injection h with h
            rw [← h] at hev
            cases hev
          | ok b =>
            rw [hB] at h
            simp only at h
            cases hf : f b with
            | err e =>
              rw [hf] at h
              simp only at h
              injection h with h
              rw [← h] at hev
              simp only [List.nil_append, List.mem_singleton] at hev
              exact Or.inr ⟨_, hev⟩
            | panic =>
              rw [hf] at h
              simp only at h
              injection h with h
              rw [← h] at hev
              cases hev
            | ok v =>
              obtain ⟨count, obj⟩ := v
              rw [hf] at h
              simp only at h
              rw [parseLoop_log] at h
              cases hrec : parseLoop tr p n (r1.Seek count) [] with
              | none =>
                rw [hrec] at h
                cases h
              | some y1 =>
                rw [hrec] at h
                simp only [Option.map_some', List.nil_append, List.singleton_append] at h
                injection h with h
                rw [← h] at hev
                simp only [List.mem_cons] at hev
                rcases hev with hev | hev
                · exact Or.inl ⟨t, obj, hev⟩
                · exact ih _ _ hrec ev hev
    · injection h with h
      rw [← h] at hev
      cases hev

theorem parseLoop_appends {Obj : Type} (tr : Uint32 → Option (OperationTranslator Obj))
    (p : Nat) (fuel : Nat) (r r1 : NetworkReader) (log log1 : List (Callback Obj))
    (res : Ret Unit) (h : parseLoop tr p fuel r log = some (r1, log1, res)) :
    ∃ evs, log1 = log ++ evs ∧
      (∀ ev ∈ evs, (∃ t o, ev = Callback.recvOperation p t o) ∨
        (∃ e, ev = Callback.error (some p) e)) := by
  rw [parseLoop_log] at h
  cases hrec : parseLoop tr p fuel r [] with
  | none =>
    rw [hrec] at h
    cases h
  | some y =>
    rw [hrec] at h
    simp only [Option.map_some'] at h
    injection h with h
    have hl : log ++ y.2.1 = log1 := congrArg (fun z => z.2.1) h
    exact ⟨y.2.1, hl.symm, parseLoop_events tr p fuel r y hrec⟩

theorem ordered_append {Obj : Type} (log evs : List (Callback Obj))
    (h : ∀ (pre post : List (Callback Obj)) (p : Nat) (t : Uint32) (o : Obj),
      log = pre ++ Callback.recvOperation p t o :: post → ∃ b, Callback.connect p b ∈ pre)
    (hev : ∀ (q : Nat) (t : Uint32) (o : Obj), Callback.recvOperation q t o ∈ evs →
      ∃ b, Callback.connect q b ∈ log) :
    ∀ (pre post : List (Callback Obj)) (p : Nat) (t : Uint32) (o : Obj),
      log ++ evs = pre ++ Callback.recvOperation p t o :: post →
      ∃ b, Callback.connect p b ∈ pre := by
  intro pre post p t o heq
  rcases List.append_eq_append_iff.mp heq with ⟨a1, hpre, hevs⟩ | ⟨c1, hlog, hrest⟩
  · obtain ⟨b, hb⟩ := hev p t o (by rw [hevs]; simp)
    exact ⟨b, by rw [hpre]; exact List.mem_append_left _ hb⟩
  · cases c1 with
    | nil =>
      simp only [List.nil_append] at hrest
      obtain ⟨b, hb⟩ := hev p t o (by rw [← hrest]; simp)
      exact ⟨b, by rw [hlog, List.append_nil] at hb; exact hb⟩
    | cons x c2 =>
      simp only [List.cons_append] at hrest
      injection hrest with hx hc
      rw [← hx] at hlog
      exact h pre c2 p t o hlog

theorem connect_of_registered {Obj : Type} (log : List (Callback Obj)) (clients : List Nat)
    (p : Nat) (hc : log.filterMap Callback.connectPtr = clients) (hp : p ∈ clients) :
    ∃ b, Callback.connect p b ∈ log := by
  rw [← hc, List.mem_filterMap] at hp
  obtain ⟨cb, hcb, hptr⟩ := hp
  cases cb with
  | connect q b =>
    simp only [Callback.connectPtr] at hptr
    injection hptr with hq
    exact ⟨b, by rw [← hq]; exact hcb⟩
  | recvOperation q t o => simp [Callback.connectPtr] at hptr
  | error q e => simp [Callback.connectPtr] at hptr

theorem filterMap_connectPtr_events {Obj : Type} (p : Nat) (evs : List (Callback Obj))
    (h : ∀ ev ∈ evs, (∃ t o, ev = Callback.recvOperation p t o) ∨
      (∃ e, ev = Callback.error (some p) e)) :
    evs.filterMap Callback.connectPtr = [] := by
  induction evs with
  | nil => rfl
  | cons ev rest ih =>
    have hrest := ih (fun x hx => h x (List.mem_cons_of_mem _ hx))
    rcases h ev (List.mem_cons_self _ _) with ⟨t, o, he⟩ | ⟨e, he⟩
    · rw [he, List.filterMap_cons]
      simp only [Callback.connectPtr]
      exact hrest
    · rw [he, List.filterMap_cons]
      simp only [Callback.connectPtr]
      exact hrest

theorem Registered_buffer {Obj : Type} (N : Nat) (m : UDPManager Obj) (w : World)
    (log : List (Callback Obj)) (seen : List String) (data : List Byte)
    (h : Registered N m w log seen) :
    Registered N { m with Buffer := copyInto m.Buffer data } w log seen :=
  { nodup := h.nodup
    size := h.size
    capacity := by simp only [copyInto_length]; exact h.capacity
    index := h.index
    peer := h.peer
    distinct := h.distinct
    connects := h.connects
    ordered := h.ordered }

theorem Registered_events {Obj : Type} (N : Nat) (m : UDPManager Obj) (w : World)
    (log evs : List (Callback Obj)) (seen : List String) (p : Nat)
    (h : Registered N m w log seen) (hp : p ∈ m.Clients)
    (hev : ∀ ev ∈ evs, (∃ t o, ev = Callback.recvOperation p t o) ∨
      (∃ e, ev = Callback.error (some p) e)) :
    Registered N m w (log ++ evs) seen :=
  { nodup := h.nodup
    size := h.size
    capacity := h.capacity
    index := h.index
    peer := h.peer
    distinct := h.distinct
    connects := by
      rw [List.filterMap_append, filterMap_connectPtr_events p evs hev, List.append_nil]
      exact h.connects
    ordered := by
      apply ordered_append log evs h.ordered
      intro q t o hq
      rcases hev _ hq with ⟨t1, o1, he⟩ | ⟨e, he⟩
      · injection he with hqp
        rw [hqp]
        exact connect_of_registered log m.Clients p h.connects hp
      · cases he }

theorem Registered_failure {Obj : Type} (N : Nat) (m : UDPManager Obj) (w : World)
    (log : List (Callback Obj)) (seen : List String) (msg : String)
    (h : Registered N m w log seen) :
    Registered N m w (log ++ [Callback.error none (some msg)]) seen :=
  { nodup := h.nodup
    size := h.size
    capacity := h.capacity
    index := h.index
    peer := h.peer
    distinct := h.distinct
    connects := by
      rw [List.filterMap_append]
      simp only [List.filterMap_cons, Callback.connectPtr, List.filterMap_nil, List.append_nil]
      exact h.connects
    ordered := by
      apply ordered_append log _ h.ordered
      intro q t o hq
      simp only [List.mem_singleton] at hq
      cases hq }

theorem lt_length_of_getElem? (heap : List UDPClient) (p : Nat) (c : UDPClient)
    (h : heap[p]? = some c) : p < heap.length := by
  by_contra hge
  rw [List.getElem?_eq_none (by omega)] at h
  cases h

theorem NewUDPClient_nat (a : String) (N : Nat) :
    NewUDPClient a (N : Int) = .ok ⟨a, List.replicate N 0, 0⟩ := by
  unfold NewUDPClient makeBytes
  rw [if_neg (by omega)]
  simp

theorem Registered_pointer_valid {Obj : Type} (N : Nat) (m : UDPManager Obj) (w : World)
    (log : List (Callback Obj)) (seen : List String) (h : Registered N m w log seen)
    (p : Nat) (hp : p ∈ m.Clients) : p < w.heap.length := by
  obtain ⟨i, hi⟩ := List.mem_iff_getElem?.mp hp
  have hil : i < m.Clients.length := by
    by_contra hge
    rw [List.getElem?_eq_none (by omega)] at hi
    cases hi
  rw [h.size] at hil
  obtain ⟨q, c, hq, -, hheap⟩ := h.peer i (seen[i]) (List.getElem?_eq_getElem hil)
  rw [hi] at hq
  injection hq with hq
  rw [hq]
  exact lt_length_of_getElem? _ _ _ hheap

theorem Registered_new {Obj : Type} (N : Nat) (m : UDPManager Obj) (w : World)
    (log : List (Callback Obj)) (seen : List String) (a : String) (b : Bool)
    (h : Registered N m w log seen) (ha : a ∉ seen) :
    Registered N
      { m with
        Clients := m.Clients ++ [w.heap.length]
        ClientsMap := fun x => if x = a then some (m.Clients.length : Int) else m.ClientsMap x }
      { w with heap := w.heap ++ [⟨a, List.replicate m.Buffer.length 0, 0⟩] }
      (log ++ [Callback.connect w.heap.length b]) (seen ++ [a]) :=
  { nodup := by
      rw [List.nodup_append]
      refine ⟨h.nodup, List.nodup_singleton a, ?_⟩
      intro x hx hx1
      rw [List.mem_singleton] at hx1
      exact ha (hx1 ▸ hx)
    size := by simp only [List.length_append, List.length_singleton, h.size]
    capacity := h.capacity
    index := by
      intro x
      simp only
      by_cases hxa : x = a
      · subst hxa
        rw [if_pos rfl, if_pos (by simp), List.indexOf_append_of_not_mem ha,
          List.indexOf_cons_self, h.size]
        rfl
      · rw [if_neg hxa, h.index x]
        by_cases hx : x ∈ seen
        · rw [if_pos hx, if_pos (List.mem_append_left _ hx), List.indexOf_append_of_mem hx]
        · rw [if_neg hx, if_neg (by simp [hx, hxa])]
    peer := by
      intro i x hx
      simp only
      by_cases hi : i < seen.length
      · rw [List.getElem?_append_left hi] at hx
        obtain ⟨p, c, hp, hc, hheap⟩ := h.peer i x hx
        refine ⟨p, c, ?_, hc, ?_⟩
        · rw [List.getElem?_append_left (by rw [h.size]; exact hi)]
          exact hp
        · rw [List.getElem?_append_left (lt_length_of_getElem? _ _ _ hheap)]
          exact hheap
      · have hge : seen.length ≤ i := by omega
        rw [List.getElem?_append_right hge] at hx
        have hi0 : i - seen.length = 0 := by
          by_contra hne
          rw [List.getElem?_eq_none (by simp only [List.length_singleton]; omega)] at hx
          cases hx
        rw [hi0] at hx
        simp only [List.getElem?_cons_zero] at hx
        injection hx with hx
        have hie : i = m.Clients.length := by rw [h.size]; omega
        refine ⟨w.heap.length, ⟨a, List.replicate m.Buffer.length 0, 0⟩, ?_, ?_, ?_⟩
        · rw [hie, List.getElem?_append_right (le_refl _)]
          simp
        · rw [← hx, ← h.capacity]
          exact NewUDPClient_nat a m.Buffer.length
        · rw [List.getElem?_append_right (le_refl _)]
          simp
    distinct := by
      simp only
      rw [List.nodup_append]
      refine ⟨h.distinct, List.nodup_singleton _, ?_⟩
      intro x hx hx1
      rw [List.mem_singleton] at hx1
      have := Registered_pointer_valid N m w log seen h x hx
      omega
    connects := by
      rw [List.filterMap_append]
      simp only [List.filterMap_cons, Callback.connectPtr, List.filterMap_nil]
      rw [h.connects]
    ordered := by
      apply ordered_append log _ h.ordered
      intro q t o hq
      simp only [List.mem_singleton] at hq
      cases hq }

theorem step_of_resolve {Obj : Type} (connect : UDPManager Obj → UDPClient → Bool)
    (fuel : Nat) (m m1 : UDPManager Obj) (w w1 : World) (log log1 : List (Callback Obj))
    (addr : String) (data : List Byte) (p : Nat) (cl : UDPClient)
    (hres : UDPManager.resolve connect { m with Buffer := copyInto m.Buffer data } w log addr
      = (m1, w1, log1, .ok p))
    (hheap : w1.heap[p]? = some cl) :
    UDPManager.step connect fuel m w log (.datagram addr data) =
      match sliceOf m1.Buffer 0 ((min data.length m.Buffer.length : Nat) : Int) with
      | none => some (m1, w1, log1, .panic)
      | some buf =>
        match parseLoop m1.Translators p fuel (NewNetworkReader buf) log1 with
        | none => none
        | some (_, log2, r) => some (m1, w1, log2, r) := by
  unfold UDPManager.step
  simp only [hres, hheap]

theorem parse_Registered {Obj : Type} (N : Nat) (fuel : Nat) (m1 m2 : UDPManager Obj)
    (w1 w2 : World) (log1 log2 : List (Callback Obj)) (seen : List String) (p : Nat)
    (c : Int) (r : Ret Unit) (h : Registered N m1 w1 log1 seen) (hp : p ∈ m1.Clients)
    (hs : (match sliceOf m1.Buffer 0 c with
      | none => some (m1, w1, log1, Ret.panic)
      | some buf =>
        match parseLoop m1.Translators p fuel (NewNetworkReader buf) log1 with
        | none => none
        | some (_, log3, r3) => some (m1, w1, log3, r3)) = some (m2, w2, log2, r)) :
    Registered N m2 w2 log2 seen := by
  cases hsl : sliceOf m1.Buffer 0 c with
  | none =>
    rw [hsl] at hs
    simp only at hs
    injection hs with hs
    injection hs with hm hs
    injection hs with hw hs
    injection hs with hl hr
    rw [← hm, ← hw, ← hl]
    exact h
  | some buf =>
    rw [hsl] at hs
    simp only at hs
    cases hpl : parseLoop m1.Translators p fuel (NewNetworkReader buf) log1 with
    | none =>
      rw [hpl] at hs
      cases hs
    | some y =>
      obtain ⟨r3, log3, res3⟩ := y
      rw [hpl] at hs
      simp only at hs
      injection hs with hs
      injection hs with hm hs
      injection hs with hw hs
      injection hs with hl hr
      obtain ⟨evs, hevs, hev⟩ := parseLoop_appends _ p fuel _ r3 log1 log3 res3 hpl
      rw [← hm, ← hw, ← hl, hevs]
      exact Registered_events N m1 w1 log1 evs seen p h hp hev

/-- One iteration of Run keeps the registry invariant and notes the source address. -/
theorem step_Registered {Obj : Type} (connect : UDPManager Obj → UDPClient → Bool)
    (fuel N : Nat) (m m2 : UDPManager Obj) (w w2 : World) (log log2 : List (Callback Obj))
    (seen : List String) (addr : String) (data : List Byte) (r : Ret Unit)
    (h : Registered N m w log seen)
    (hs : UDPManager.step connect fuel m w log (.datagram addr data) = some (m2, w2, log2, r)) :
    Registered N m2 w2 log2 (noteAddr seen addr) := by
  have h0 := Registered_buffer N m w log seen data h
  by_cases ha : addr ∈ seen
  · have hseen : noteAddr seen addr = seen := by
      unfold noteAddr
      rw [if_pos ha]
    have hidx : seen.indexOf addr < seen.length := List.indexOf_lt_length.mpr ha
    have hget : seen[seen.indexOf addr]? = some addr := by
      rw [List.getElem?_eq_getElem hidx]
      exact congrArg some (List.getElem_indexOf hidx)
    obtain ⟨p, c, hp, -, hheap⟩ := h0.peer _ addr hget
    have hmap := h0.index addr
    rw [if_pos ha] at hmap
    have hres := resolve_seen connect _ w log addr _ p hmap hp
    rw [step_of_resolve connect fuel m _ w w log log addr data p c hres hheap] at hs
    rw [hseen]
    exact parse_Registered N fuel _ m2 w w2 log log2 seen p _ r h0
      (List.mem_iff_getElem?.mpr ⟨_, hp⟩) hs
  · have hseen : noteAddr seen addr = seen ++ [addr] := by
      unfold noteAddr
      rw [if_neg ha]
    have hmap := h0.index addr
    rw [if_neg ha] at hmap
    have hres := resolve_unseen connect _ w log addr hmap
    have hheap : (w.heap ++ [(⟨addr, List.replicate (copyInto m.Buffer data).length 0, 0⟩ :
        UDPClient)])[w.heap.length]? = some ⟨addr, List.replicate (copyInto m.Buffer data).length 0, 0⟩ :=
      List.getElem?_concat_length _ _
    rw [step_of_resolve connect fuel m _ w _ log _ addr data w.heap.length _ hres hheap] at hs
    rw [hseen]
    exact parse_Registered N fuel _ m2 _ w2 _ log2 (seen ++ [addr]) w.heap.length _ r
      (Registered_new N _ w log seen addr _ h0 ha) (by simp) hs

/-- The loop of Run keeps the registry invariant; when it processes all its input, the
addresses noted are the distinct source addresses in order of first appearance. -/
theorem Run_Registered {Obj : Type} (connect : UDPManager Obj → UDPClient → Bool)
    (fuel N : Nat) (inputs : List Recv) :
    ∀ (m m2 : UDPManager Obj) (w w2 : World) (log log2 : List (Callback Obj))
      (seen : List String),
      Registered N m w log seen →
      UDPManager.Run connect fuel inputs m w log = some (m2, w2, log2, .ok ()) →
      Registered N m2 w2 log2 (addrsOf inputs seen) := by
  induction inputs with
  | nil =>
    intro m m2 w w2 log log2 seen h hrun
    simp only [UDPManager.Run] at hrun
    injection hrun with hrun
    injection hrun with hm hrun
    injection hrun with hw hrun
    injection hrun with hl hr
    rw [← hm, ← hw, ← hl]
    exact h
  | cons rv rest ih =>
    intro m m2 w w2 log log2 seen h hrun
    simp only [UDPManager.Run] at hrun
    cases hst : UDPManager.step connect fuel m w log rv with
    | none =>
      rw [hst] at hrun
      cases hrun
    | some y =>
      obtain ⟨m1, w1, log1, r1⟩ := y
      rw [hst] at hrun
      cases r1 with
      | err e =>
        simp only at hrun
        injection hrun with hrun
        injection hrun with hm hrun
        injection hrun with hw hrun
        injection hrun with hl hr
        cases hr
      | panic =>
        simp only at hrun
        injection hrun with hrun
        injection hrun with hm hrun
        injection hrun with hw hrun
        injection hrun with hl hr
        cases hr
      | ok u =>
        simp only at hrun
        cases rv with
        | failure msg =>
          simp only [UDPManager.step] at hst
          injection hst with hst
          injection hst with hm hst
          injection hst with hw hst
          injection hst with hl hr
          rw [← hm, ← hw, ← hl] at hrun
          exact ih _ _ _ _ _ _ seen (Registered_failure N m w log seen msg h) hrun
        | datagram addr data =>
          exact ih _ _ _ _ _ _ (noteAddr seen addr)
            (step_Registered connect fuel N m m1 w w1 log log1 seen addr data _ h hst) hrun

/-- C18: when the loop of Run, started on a manager without registered peers, has processed
a finite sequence of results of `ReadFromUDP`, the registry invariant holds for the distinct
source addresses in order of first appearance: `ClientsMap` is defined exactly on them and
maps the `i`-th to `i`, below `len(Clients)`; `Clients[i]` is the peer `NewUDPClient` made
for the `i`-th address with the size of the receive buffer; `Connect` was invoked once per
registered peer, in that order; every `RecvOperation` for a peer comes after its `Connect`. -/
theorem C18_peer_registry_invariant {Obj : Type}
    (connect : UDPManager Obj → UDPClient → Bool) (fuel : Nat) (inputs : List Recv)
    (m m2 : UDPManager Obj) (w w2 : World) (log2 : List (Callback Obj))
    (hfresh : m.Clients = [] ∧ ∀ a, m.ClientsMap a = none)
    (hrun : UDPManager.Run connect fuel inputs m w [] = some (m2, w2, log2, .ok ())) :
    Registered m.Buffer.length m2 w2 log2 (addrsOf inputs []) := by
  have h0 : Registered m.Buffer.length m w ([] : List (Callback Obj)) [] :=
    { nodup := List.nodup_nil
      size := by rw [hfresh.1]; rfl
      capacity := rfl
      index := by
        intro a
        rw [hfresh.2 a]
        simp
      peer := by
        intro i a hi
        simp at hi
      distinct := by rw [hfresh.1]; exact List.nodup_nil
      connects := by rw [hfresh.1]; rfl
      ordered := by
        intro pre post p t o hlog
        have hlen := congrArg List.length hlog
        simp only [List.length_nil, List.length_append, List.length_cons] at hlen
        omega }
  exact Run_Registered connect fuel m.Buffer.length inputs m m2 w w2 [] log2 [] h0 hrun

/-- Witness of C18: with the manager of `main` and a buffer of 16 bytes, a datagram from
`a`, an empty datagram from `b`, a read error and a second datagram from `a`. -/
theorem C18_peer_registry_invariant_witness :
    addrsOf [.datagram "a" [0, 0, 0, 0, 1, 2, 3, 4], .datagram "b" [], .failure "x",
      .datagram "a" frameA] [] = ["a", "b"] ∧
    ∃ (m2 : UDPManager Value) (w2 : World) (log2 : List (Callback Value)),
      UDPManager.Run (fun _ _ => true) 5
        [.datagram "a" [0, 0, 0, 0, 1, 2, 3, 4], .datagram "b" [], .failure "x",
          .datagram "a" frameA] (mainManager 16) ⟨[], []⟩ [] = some (m2, w2, log2, .ok ()) ∧
      m2.Clients = [0, 1] ∧
      w2.heap = [⟨"a", List.replicate 16 0, 0⟩, ⟨"b", List.replicate 16 0, 0⟩] ∧
      log2 = [.connect 0 true, .recvOperation 0 0 (.uint32 16909060), .connect 1 true,
        .error none (some "x"),
        .recvOperation 0 1 (.direction ⟨⟨1073741824⟩, ⟨1077936128⟩⟩)] ∧
      Registered (mainManager 16).Buffer.length m2 w2 log2
        (addrsOf [.datagram "a" [0, 0, 0, 0, 1, 2, 3, 4], .datagram "b" [], .failure "x",
          .datagram "a" frameA] []) :=
  ⟨by decide, _, _, _, rfl, rfl, rfl, rfl,
    C18_peer_registry_invariant (fun _ _ => true) 5
      [.datagram "a" [0, 0, 0, 0, 1, 2, 3, 4], .datagram "b" [], .failure "x",
        .datagram "a" frameA] (mainManager 16) _ ⟨[], []⟩ _ _ ⟨rfl, fun _ => rfl⟩ rfl⟩

/-! ## One datagram through an iteration of Run -/

theorem Registered_fresh {Obj : Type} (m : UDPManager Obj) (w : World)
    (hfresh : m.Clients = [] ∧ ∀ a, m.ClientsMap a = none) :
    Registered m.Buffer.length m w ([] : List (Callback Obj)) [] :=
  { nodup := List.nodup_nil
    size := by rw [hfresh.1]; rfl
    capacity := rfl
    index := by
      intro a
      rw [hfresh.2 a]
      simp
    peer := by
      intro i a hi
      simp at hi
    distinct := by rw [hfresh.1]; exact List.nodup_nil
    connects := by rw [hfresh.1]; rfl
    ordered := by
      intro pre post p t o hlog
      have hlen := congrArg List.length hlog
      simp only [List.length_nil, List.length_append, List.length_cons] at hlen
      omega }

/-- A datagram no longer than the receive buffer is parsed whole: `Buffer[:c]` after the
copy is the datagram. -/
theorem slice_received (B data : List Byte) (hfit : data.length ≤ B.length) :
    sliceOf (copyInto B data) 0 ((min data.length B.length : Nat) : Int) = some data := by
  rw [Nat.min_eq_left hfit, sliceOf_front _ _ (by rw [copyInto_length]; exact hfit),
    copyInto_fits _ _ hfit, take_append_self _ _ _ rfl]

/-- An iteration of Run on a datagram no longer than the receive buffer, in a state that
satisfies the registry invariant: the peer of the source address is found or made (and then
announced by `Connect`), and the whole datagram is parsed for it. -/
theorem step_fitting {Obj : Type} (connect : UDPManager Obj → UDPClient → Bool)
    (fuel N : Nat) (m : UDPManager Obj) (w : World) (log : List (Callback Obj))
    (seen : List String) (addr : String) (data : List Byte)
    (h : Registered N m w log seen) (hfit : data.length ≤ m.Buffer.length) :
    ∃ (m1 : UDPManager Obj) (w1 : World) (p : Nat) (conn : List (Callback Obj))
      (cl : UDPClient),
      (conn = [] ∨ ∃ b, conn = [Callback.connect p b]) ∧
      w1.heap[p]? = some cl ∧ cl.Client = addr ∧
      UDPManager.step connect fuel m w log (.datagram addr data) =
        match parseLoop m.Translators p fuel (NewNetworkReader data) (log ++ conn) with
        | none => none
        | some (_, log2, r) => some (m1, w1, log2, r) := by
  have h0 := Registered_buffer N m w log seen data h
  have hslice := slice_received m.Buffer data hfit
  by_cases ha : addr ∈ seen
  · have hidx : seen.indexOf addr < seen.length := List.indexOf_lt_length.mpr ha
    have hget : seen[seen.indexOf addr]? = some addr := by
      rw [List.getElem?_eq_getElem hidx]
      exact congrArg some (List.getElem_indexOf hidx)
    obtain ⟨p, c, hp, hc, hheap⟩ := h0.peer _ addr hget
    have hmap := h0.index addr
    rw [if_pos ha] at hmap
    have hres := resolve_seen connect _ w log addr _ p hmap hp
    refine ⟨{ m with Buffer := copyInto m.Buffer data }, w, p, [], c, Or.inl rfl, hheap, ?_, ?_⟩
    · rw [NewUDPClient_nat] at hc
      injection hc with hc
      rw [← hc]
    · rw [step_of_resolve connect fuel m _ w w log log addr data p c hres hheap]
      simp only [hslice, List.append_nil]
  · have hmap := h0.index addr
    rw [if_neg ha] at hmap
    have hres := resolve_unseen connect _ w log addr hmap
    have hheap : (w.heap ++ [(⟨addr, List.replicate (copyInto m.Buffer data).length 0, 0⟩ :
        UDPClient)])[w.heap.length]?
          = some ⟨addr, List.replicate (copyInto m.Buffer data).length 0, 0⟩ :=
      List.getElem?_concat_length _ _
    refine ⟨⟨copyInto m.Buffer data,
        fun a => if a = addr then some (m.Clients.length : Int) else m.ClientsMap a,
        m.Clients ++ [w.heap.length], m.Translators, m.Generators⟩,
      ⟨w.heap ++ [⟨addr, List.replicate (copyInto m.Buffer data).length 0, 0⟩], w.wire⟩,
      w.heap.length,
      [Callback.connect w.heap.length (connect ⟨copyInto m.Buffer data,
        fun a => if a = addr then some (m.Clients.length : Int) else m.ClientsMap a,
        m.Clients ++ [w.heap.length], m.Translators, m.Generators⟩
        ⟨addr, List.replicate (copyInto m.Buffer data).length 0, 0⟩)],
      ⟨addr, List.replicate (copyInto m.Buffer data).length 0, 0⟩,
      Or.inr ⟨_, rfl⟩, hheap, rfl, ?_⟩
    rw [step_of_resolve connect fuel m _ w _ log _ addr data w.heap.length _ hres hheap]
    simp only [hslice]

/-- C13 (as amended): in a state of Run that satisfies the registry invariant, for records
that are valid for the registry and whose datagram, the concatenation of their frames
`[big-endian tag][payload]`, is no longer than the receive buffer, the iteration of Run for
that datagram ends normally and invokes, after the `Connect` of a new peer if the source
address is new, `RecvOperation` once per record, in order, for the peer of the source
address with the record's tag and value, and nothing else, in particular never `Error`. -/
theorem C13_Run_dispatches_valid_records {Obj : Type}
    (connect : UDPManager Obj → UDPClient → Bool) (fuel N : Nat) (m : UDPManager Obj)
    (w : World) (log : List (Callback Obj)) (seen : List String) (addr : String)
    (ops : List (OpRecord Obj))
    (hreg : Registered N m w log seen)
    (hval : ∀ o ∈ ops, validOp m.Translators o)
    (hfit : (encodeOps ops).length ≤ m.Buffer.length)
    (hlen : ((encodeOps ops).length : Int) ≤ maxInt)
    (hfuel : ops.length ≤ fuel) :
    ∃ (m1 : UDPManager Obj) (w1 : World) (p : Nat) (conn : List (Callback Obj))
      (cl : UDPClient),
      (conn = [] ∨ ∃ b, conn = [Callback.connect p b]) ∧
      w1.heap[p]? = some cl ∧ cl.Client = addr ∧
      UDPManager.step connect fuel m w log (.datagram addr (encodeOps ops))
        = some (m1, w1, log ++ conn ++ opCallbacks p ops, .ok ()) := by
  obtain ⟨m1, w1, p, conn, cl, hconn, hheap, hcl, hstep⟩ :=
    step_fitting connect fuel N m w log seen addr (encodeOps ops) hreg hfit
  refine ⟨m1, w1, p, conn, cl, hconn, hheap, hcl, ?_⟩
  rw [hstep, parseLoop_valid_datagram m.Translators p ops (log ++ conn) fuel hval hlen hfuel]

/-- C13 (counterexample): a receive buffer of 16 bytes and the 24-byte datagram of two valid
move records.  `ReadFromUDP` fills the buffer with the first 16 bytes, the second record
loses its payload, and the second operation carries the direction `(0, 0)` instead of
`(2.0, 3.0)`. -/
theorem C13_long_datagram_is_cut :
    (∀ o ∈ [moveRecord, moveRecord], validOp (mainManager 16).Translators o) ∧
    (encodeOps [moveRecord, moveRecord]).length = 24 ∧
    (mainManager 16).Buffer.length = 16 ∧
    opCallbacks 0 [moveRecord, moveRecord]
      = [.recvOperation 0 1 (.direction ⟨⟨1073741824⟩, ⟨1077936128⟩⟩),
         .recvOperation 0 1 (.direction ⟨⟨1073741824⟩, ⟨1077936128⟩⟩)] ∧
    (UDPManager.step (fun _ _ => true) 2 (mainManager 16) ⟨[], []⟩ []
        (.datagram "a" (encodeOps [moveRecord, moveRecord]))).map (fun y => (y.2.2.1, y.2.2.2))
      = some ([.connect 0 true,
          .recvOperation 0 1 (.direction ⟨⟨1073741824⟩, ⟨1077936128⟩⟩),
          .recvOperation 0 1 (.direction ⟨⟨0⟩, ⟨0⟩⟩)], .ok ()) := by
  refine ⟨?_, by decide, by decide, by decide, by decide⟩
  intro o ho
  have ho1 : o = moveRecord := by
    rcases List.mem_cons.mp ho with h | h
    · exact h
    · exact List.mem_singleton.mp h
  rw [ho1]
  exact moveRecord_valid 16

/-- Witness of C13: with the manager of `main` and a receive buffer of 16 bytes, the 12-byte
datagram `00000001 40000000 40400000` from the new address `a` gives the `Connect` of the
new peer and exactly one operation, tag 1 with the direction `(2.0, 3.0)`. -/
theorem C13_Run_dispatches_valid_records_witness :
    encodeOps [moveRecord] = frameA ∧
    (encodeOps [moveRecord]).length ≤ (mainManager 16).Buffer.length ∧
    (UDPManager.step (fun _ _ => true) 1 (mainManager 16) ⟨[], []⟩ []
        (.datagram "a" (encodeOps [moveRecord]))).map (fun y => (y.2.2.1, y.2.2.2))
      = some ([.connect 0 true,
          .recvOperation 0 1 (.direction ⟨⟨1073741824⟩, ⟨1077936128⟩⟩)], .ok ()) ∧
    ∃ (m1 : UDPManager Value) (w1 : World) (p : Nat) (conn : List (Callback Value))
      (cl : UDPClient),
      (conn = [] ∨ ∃ b, conn = [Callback.connect p b]) ∧
      w1.heap[p]? = some cl ∧ cl.Client = "a" ∧
      UDPManager.step (fun _ _ => true) 1 (mainManager 16) ⟨[], []⟩ []
          (.datagram "a" (encodeOps [moveRecord]))
        = some (m1, w1, [] ++ conn ++ opCallbacks p [moveRecord], .ok ()) :=
  ⟨by decide, by decide, by decide,
    C13_Run_dispatches_valid_records (fun _ _ => true) 1 16 (mainManager 16) ⟨[], []⟩ [] []
      "a" [moveRecord]
      (Registered_fresh (mainManager 16) ⟨[], []⟩ ⟨rfl, fun _ => rfl⟩)
      (fun o ho => by
        rw [List.mem_singleton] at ho
        rw [ho]
        exact moveRecord_valid 16)
      (by decide) (by decide) (by decide)⟩

/-- C14 (as amended): in a state of Run that satisfies the registry invariant, for a
datagram no longer than the receive buffer that consists of `k` valid records, a record
whose tag has no translator or whose translator returns an error on the bytes behind the
tag, and any further bytes, the iteration of Run ends normally and invokes, after the
`Connect` of a new peer if the source address is new, exactly the `k` `RecvOperation` calls
of the valid records, in order, followed by one `Error` call, and nothing after it. -/
theorem C14_Run_stops_at_failing_record {Obj : Type}
    (connect : UDPManager Obj → UDPClient → Bool) (fuel N : Nat) (m : UDPManager Obj)
    (w : World) (log : List (Callback Obj)) (seen : List String) (addr : String)
    (ops : List (OpRecord Obj)) (t : Uint32) (rest : List Byte) (e : String)
    (hreg : Registered N m w log seen)
    (hval : ∀ o ∈ ops, validOp m.Translators o)
    (hfit : (encodeOps ops ++ (bigEndian32 t ++ rest)).length ≤ m.Buffer.length)
    (hlen : (((encodeOps ops ++ (bigEndian32 t ++ rest)).length : Nat) : Int) ≤ maxInt)
    (hfail : (m.Translators t = none ∧ e = noTranslator) ∨
      ∃ f, m.Translators t = some f ∧ f rest = .err e)
    (hfuel : ops.length + 1 ≤ fuel) :
    ∃ (m1 : UDPManager Obj) (w1 : World) (p : Nat) (conn : List (Callback Obj))
      (cl : UDPClient),
      (conn = [] ∨ ∃ b, conn = [Callback.connect p b]) ∧
      w1.heap[p]? = some cl ∧ cl.Client = addr ∧
      UDPManager.step connect fuel m w log
          (.datagram addr (encodeOps ops ++ (bigEndian32 t ++ rest)))
        = some (m1, w1, log ++ conn ++ opCallbacks p ops ++ [.error (some p) (some e)],
            .ok ()) := by
  obtain ⟨m1, w1, p, conn, cl, hconn, hheap, hcl, hstep⟩ :=
    step_fitting connect fuel N m w log seen addr _ hreg hfit
  refine ⟨m1, w1, p, conn, cl, hconn, hheap, hcl, ?_⟩
  rw [hstep, parseLoop_failing_record m.Translators p ops t rest e (log ++ conn) fuel hval
    hlen hfail hfuel]

/-- C14 (counterexample): a receive buffer of 12 bytes and the 18-byte datagram of a valid
move record, the unknown tag 9 and two more bytes.  `ReadFromUDP` fills the buffer with the
first 12 bytes, the failing record is never seen, and `Error` is not invoked. -/
theorem C14_long_datagram_hides_failing_record :
    validOp (mainManager 12).Translators moveRecord ∧
    (mainManager 12).Translators 9 = none ∧
    (encodeOps [moveRecord] ++ (bigEndian32 9 ++ [1, 2])).length = 18 ∧
    (mainManager 12).Buffer.length = 12 ∧
    (UDPManager.step (fun _ _ => true) 2 (mainManager 12) ⟨[], []⟩ []
        (.datagram "a" (encodeOps [moveRecord] ++ (bigEndian32 9 ++ [1, 2])))).map
        (fun y => (y.2.2.1, y.2.2.2))
      = some ([.connect 0 true,
          .recvOperation 0 1 (.direction ⟨⟨1073741824⟩, ⟨1077936128⟩⟩)], .ok ()) :=
  ⟨moveRecord_valid 12, rfl, by decide, by decide, by decide⟩

/-- Witness of C14: with the manager of `main` and a receive buffer of 32 bytes, the valid
move record followed by the unknown tag 9 and two more bytes, from the new address `a`,
gives `Connect`, one `RecvOperation` and then one `Error`. -/
theorem C14_Run_stops_at_failing_record_witness :
    (encodeOps [moveRecord] ++ (bigEndian32 9 ++ [1, 2])).length
      ≤ (mainManager 32).Buffer.length ∧
    (UDPManager.step (fun _ _ => true) 2 (mainManager 32) ⟨[], []⟩ []
        (.datagram "a" (encodeOps [moveRecord] ++ (bigEndian32 9 ++ [1, 2])))).map
        (fun y => (y.2.2.1, y.2.2.2))
      = some ([.connect 0 true,
          .recvOperation 0 1 (.direction ⟨⟨1073741824⟩, ⟨1077936128⟩⟩),
          .error (some 0) (some noTranslator)], .ok ()) ∧
    ∃ (m1 : UDPManager Value) (w1 : World) (p : Nat) (conn : List (Callback Value))
      (cl : UDPClient),
      (conn = [] ∨ ∃ b, conn = [Callback.connect p b]) ∧
      w1.heap[p]? = some cl ∧ cl.Client = "a" ∧
      UDPManager.step (fun _ _ => true) 2 (mainManager 32) ⟨[], []⟩ []
          (.datagram "a" (encodeOps [moveRecord] ++ (bigEndian32 9 ++ [1, 2])))
        = some (m1, w1,
            [] ++ conn ++ opCallbacks p [moveRecord] ++ [.error (some p) (some noTranslator)],
            .ok ()) :=
  ⟨by decide, by decide,
    C14_Run_stops_at_failing_record (fun _ _ => true) 2 32 (mainManager 32) ⟨[], []⟩ [] []
      "a" [moveRecord] 9 [1, 2] noTranslator
      (Registered_fresh (mainManager 32) ⟨[], []⟩ ⟨rfl, fun _ => rfl⟩)
      (fun o ho => by
        rw [List.mem_singleton] at ho
        rw [ho]
        exact moveRecord_valid 32)
      (by decide) (by decide) (Or.inl ⟨rfl, rfl⟩) (by decide)⟩

/-! ## The errors of the manager's Send -/

theorem concatMsgs_append (a b : List String) :
    concatMsgs (a ++ b) = concatMsgs a ++ concatMsgs b := by
  induction a with
  | nil => simp [concatMsgs]
  | cons x rest ih =>
    show x ++ concatMsgs (rest ++ b) = (x ++ concatMsgs rest) ++ concatMsgs b
    rw [ih, String.append_assoc]

theorem sendFrame_traced (net : Net) (d : List Byte) (cs : List Nat) :
    ∀ (w : World) (errInfo : String),
      sendFrame net d cs w errInfo =
        ((sendFrameT net d cs w).1, errInfo ++ concatMsgs (sendFrameT net d cs w).2.1,
          (sendFrameT net d cs w).2.2) := by
  induction cs with
  | nil =>
    intro w errInfo
    simp [sendFrame, sendFrameT, concatMsgs]
  | cons c cs ih =>
    intro w errInfo
    simp only [sendFrame, sendFrameT]
    cases w.heap[c]? with
    | none => simp [concatMsgs]
    | some cl =>
      simp only
      rcases cl.Send net d w.wire with ⟨cl1, wire1, r⟩
      cases r with
      | ok u => exact ih _ _
      | err e =>
        simp only
        rw [ih]
        simp only [concatMsgs, String.append_assoc]
      | panic => simp [concatMsgs]

theorem flushAll_traced (net : Net) (cs : List Nat) :
    ∀ (w : World) (errInfo : String),
      flushAll net cs w errInfo =
        ((flushAllT net cs w).1, errInfo ++ concatMsgs (flushAllT net cs w).2.1,
          (flushAllT net cs w).2.2) := by
  induction cs with
  | nil =>
    intro w errInfo
    simp [flushAll, flushAllT, concatMsgs]
  | cons c cs ih =>
    intro w errInfo
    simp only [flushAll, flushAllT]
    cases w.heap[c]? with
    | none => simp [concatMsgs]
    | some cl =>
      simp only
      rcases cl.Flush net w.wire with ⟨cl1, wire1, r⟩
      cases r with
      | ok u => exact ih _ _
      | err e =>
        simp only
        rw [ih]
        simp only [concatMsgs, String.append_assoc]
      | panic => simp [concatMsgs]

theorem sendStatuses_traced {Obj : Type} (net : Net)
    (gens : Uint32 → Option (StatusGenerator Obj)) (clients : List Nat)
    (status : List (Status Obj)) :
    ∀ (w : World) (errInfo : String),
      sendStatuses net gens clients status w errInfo =
        ((sendStatusesT net gens clients status w).1,
          errInfo ++ concatMsgs (sendStatusesT net gens clients status w).2.1,
          (sendStatusesT net gens clients status w).2.2) := by
  induction status with
  | nil =>
    intro w errInfo
    simp [sendStatuses, sendStatusesT, concatMsgs]
  | cons s rest ih =>
    intro w errInfo
    simp only [sendStatuses, sendStatusesT]
    cases gens s.Typ with
    | none => exact ih _ _
    | some g =>
      simp only
      cases g s.Object with
      | err e =>
        simp only
        rw [ih]
        simp only [concatMsgs, String.append_assoc]
      | panic => simp [concatMsgs]
      | ok d =>
        simp only
        cases frame s.Typ d with
        | err e => simp [concatMsgs]
        | panic => simp [concatMsgs]
        | ok f =>
          simp only
          rw [sendFrame_traced]
          rcases sendFrameT net f clients w with ⟨w1, errs1, r1⟩
          cases r1 with
          | ok u =>
            simp only
            rw [ih]
            simp only [concatMsgs_append, String.append_assoc]
          | err e => rfl
          | panic => rfl

/-- C11 (as amended): when `UDPManager.Send` returns, it returns a non-nil error exactly
when the concatenation, in order of occurrence, of the messages of the errors returned by
the generators, the `UDPClient.Send` calls and the final `UDPClient.Flush` calls is not
empty, and the message of the returned error is that concatenation; it returns nil when
none of them failed. -/
theorem C11_Send_returns_concatenated_errors {Obj : Type} (net : Net) (m : UDPManager Obj)
    (w : World) (clients : List Nat) (status : List (Status Obj))
    (hret : (m.Send net w clients status).2 ≠ .panic) :
    (m.Send net w clients status).2 =
      (if concatMsgs (m.SendErrors net w clients status) ≠ "" then
        .err (concatMsgs (m.SendErrors net w clients status))
      else .ok ()) ∧
    (m.SendErrors net w clients status = [] → (m.Send net w clients status).2 = .ok ()) := by
  have key : (m.Send net w clients status).2 =
      (if concatMsgs (m.SendErrors net w clients status) ≠ "" then
        .err (concatMsgs (m.SendErrors net w clients status))
      else .ok ()) := by
    unfold UDPManager.Send at hret ⊢
    unfold UDPManager.SendErrors
    rw [sendStatuses_traced] at hret ⊢
    generalize sendStatusesT net m.Generators clients status w = T1 at hret ⊢
    obtain ⟨w1, errs1, r1⟩ := T1
    cases r1 with
    | err e => exact absurd rfl hret
    | panic => exact absurd rfl hret
    | ok u =>
      simp only at hret ⊢
      rw [flushAll_traced] at hret ⊢
      generalize flushAllT net clients w1 = T2 at hret ⊢
      obtain ⟨w2, errs2, r2⟩ := T2
      cases r2 with
      | err e => exact absurd rfl hret
      | panic => exact absurd rfl hret
      | ok u =>
        simp only [concatMsgs_append, String.empty_append]
        split <;> rfl
  refine ⟨key, fun hnone => ?_⟩
  rw [key, hnone]
  rfl

/-- C11 (counterexample): a generator that returns an error whose message is the empty
string; an error was returned during the call, and Send returns nil. -/
theorem C11_empty_error_message_is_lost :
    UDPManager.SendErrors Net.reliable echoManager ⟨[samplePeer 20], []⟩ [0] [⟨1, .err ""⟩]
      = [""] ∧
    (UDPManager.Send Net.reliable echoManager ⟨[samplePeer 20], []⟩ [0] [⟨1, .err ""⟩]).2
      = .ok () := by
  decide

/-- Witness of C11: a generator error `g`, then a status whose frame does not fit behind the
buffered one over a socket that fails: the returned message is `gxx`. -/
theorem C11_Send_returns_concatenated_errors_witness :
    UDPManager.SendErrors (failingFor ["a"]) echoManager ⟨[samplePeer 10], []⟩ [0]
        [⟨1, .ok [1, 2]⟩, ⟨1, .err "g"⟩, ⟨1, .ok [1, 2, 3]⟩, ⟨1, .ok [4]⟩] = ["g", "x", "x"] ∧
    (UDPManager.Send (failingFor ["a"]) echoManager ⟨[samplePeer 10], []⟩ [0]
        [⟨1, .ok [1, 2]⟩, ⟨1, .err "g"⟩, ⟨1, .ok [1, 2, 3]⟩, ⟨1, .ok [4]⟩]).2 =
      (if concatMsgs (UDPManager.SendErrors (failingFor ["a"]) echoManager
          ⟨[samplePeer 10], []⟩ [0]
          [⟨1, .ok [1, 2]⟩, ⟨1, .err "g"⟩, ⟨1, .ok [1, 2, 3]⟩, ⟨1, .ok [4]⟩]) ≠ "" then
        .err (concatMsgs (UDPManager.SendErrors (failingFor ["a"]) echoManager
          ⟨[samplePeer 10], []⟩ [0]
          [⟨1, .ok [1, 2]⟩, ⟨1, .err "g"⟩, ⟨1, .ok [1, 2, 3]⟩, ⟨1, .ok [4]⟩]))
      else .ok ()) :=
  ⟨by decide,
    (C11_Send_returns_concatenated_errors (failingFor ["a"]) echoManager
      ⟨[samplePeer 10], []⟩ [0]
      [⟨1, .ok [1, 2]⟩, ⟨1, .err "g"⟩, ⟨1, .ok [1, 2, 3]⟩, ⟨1, .ok [4]⟩] (by decide)).1⟩

/-! ## The view of one peer during the manager's Send -/

theorem packetsTo_append (a : String) (w v : List Packet) :
    packetsTo a (w ++ v) = packetsTo a w ++ packetsTo a v := by
  unfold packetsTo
  exact List.filter_append _ _

theorem packetsTo_other (a : String) (w : List Packet) (b : String) (d : List Byte)
    (h : b ≠ a) : packetsTo a (w ++ [(b, d)]) = packetsTo a w := by
  rw [packetsTo_append]
  have : packetsTo a [(b, d)] = [] := by
    unfold packetsTo
    simp [h]
  rw [this, List.append_nil]

theorem packetsTo_same (a : String) (w : List Packet) (d : List Byte) :
    packetsTo a (w ++ [(a, d)]) = packetsTo a w ++ [(a, d)] := by
  rw [packetsTo_append]
  have : packetsTo a [(a, d)] = [(a, d)] := by
    unfold packetsTo
    simp
  rw [this]

theorem loopClients_Send (net : Net) (d : List Byte) (cs : List Nat) :
    ∀ (w : World) (errInfo : String),
      sendFrame net d cs w errInfo
        = loopClients (fun c wire => c.Send net d wire) cs w errInfo := by
  induction cs with
  | nil => intro w errInfo; rfl
  | cons c cs ih =>
    intro w errInfo
    simp only [sendFrame, loopClients]
    cases w.heap[c]? with
    | none => rfl
    | some cl =>
      simp only
      rcases cl.Send net d w.wire with ⟨cl1, wire1, r⟩
      cases r with
      | ok u => exact ih _ _
      | err e => exact ih _ _
      | panic => rfl

theorem loopClients_Flush (net : Net) (cs : List Nat) :
    ∀ (w : World) (errInfo : String),
      flushAll net cs w errInfo = loopClients (fun c wire => c.Flush net wire) cs w errInfo := by
  induction cs with
  | nil => intro w errInfo; rfl
  | cons c cs ih =>
    intro w errInfo
    simp only [flushAll, loopClients]
    cases w.heap[c]? with
    | none => rfl
    | some cl =>
      simp only
      rcases cl.Flush net w.wire with ⟨cl1, wire1, r⟩
      cases r with
      | ok u => exact ih _ _
      | err e => exact ih _ _
      | panic => rfl

/-- A step of the loop over the peers that does not panic goes on with the updated world. -/
theorem loopClients_cons (op : UDPClient → List Packet → UDPClient × List Packet × Ret Unit)
    (c : Nat) (cs : List Nat) (w : World) (errInfo : String)
    (h : (loopClients op (c :: cs) w errInfo).2.2 ≠ .panic) :
    ∃ cl, w.heap[c]? = some cl ∧ (op cl w.wire).2.2 ≠ .panic ∧
      ∃ e1, loopClients op (c :: cs) w errInfo
        = loopClients op cs ⟨w.heap.set c (op cl w.wire).1, (op cl w.wire).2.1⟩ e1 := by
  simp only [loopClients] at h ⊢
  cases hc : w.heap[c]? with
  | none =>
    rw [hc] at h
    exact absurd rfl h
  | some cl =>
    rw [hc] at h
    simp only at h ⊢
    refine ⟨cl, rfl, ?_⟩
    rcases hop : op cl w.wire with ⟨cl1, wire1, r⟩
    rw [hop] at h
    cases r with
    | ok u => exact ⟨fun hp => (by cases hp), errInfo, rfl⟩
    | err e => exact ⟨fun hp => (by cases hp), errInfo ++ e, rfl⟩
    | panic => exact absurd rfl h

theorem getElem?_set_cases (heap : List UDPClient) (c i : Nat) (x y : UDPClient)
    (h : (heap.set c x)[i]? = some y) : (i = c ∧ y = x) ∨ (i ≠ c ∧ heap[i]? = some y) := by
  by_cases e : c = i
  · subst e
    rw [List.getElem?_set] at h
    rw [if_pos rfl] at h
    split at h
    · injection h with h
      exact Or.inl ⟨rfl, h.symm⟩
    · cases h
  · rw [List.getElem?_set_ne e] at h
    exact Or.inr ⟨fun hi => e hi.symm, h⟩

/-- The loop over the peers keeps the view of the peer at `j`, for two operations that
treat a peer with the address `a` alike and leave the datagrams to `a` alone on the other
peers, as long as neither run panics. -/
theorem loopClients_view (a : String) (j : Nat) (clients : List Nat)
    (op1 op2 : UDPClient → List Packet → UDPClient × List Packet × Ret Unit)
    (hview : ∀ (c : UDPClient) (wire1 wire2 : List Packet), c.Client = a →
      packetsTo a wire1 = packetsTo a wire2 →
      (op1 c wire1).1 = (op2 c wire2).1 ∧ (op1 c wire1).2.2 = (op2 c wire2).2.2 ∧
        packetsTo a (op1 c wire1).2.1 = packetsTo a (op2 c wire2).2.1)
    (hother1 : ∀ (c : UDPClient) (wire : List Packet), c.Client ≠ a →
      packetsTo a (op1 c wire).2.1 = packetsTo a wire)
    (hother2 : ∀ (c : UDPClient) (wire : List Packet), c.Client ≠ a →
      packetsTo a (op2 c wire).2.1 = packetsTo a wire)
    (hclient1 : ∀ (c : UDPClient) (wire : List Packet), (op1 c wire).1.Client = c.Client)
    (hclient2 : ∀ (c : UDPClient) (wire : List Packet), (op2 c wire).1.Client = c.Client)
    (cs : List Nat) :
    ∀ (w1 w2 : World) (e1 e2 : String), (∀ i ∈ cs, i ∈ clients) →
      SameView a j clients w1 w2 →
      (loopClients op1 cs w1 e1).2.2 ≠ .panic → (loopClients op2 cs w2 e2).2.2 ≠ .panic →
      SameView a j clients (loopClients op1 cs w1 e1).1 (loopClients op2 cs w2 e2).1 := by
  induction cs with
  | nil =>
    intro w1 w2 e1 e2 _ hR _ _
    exact hR
  | cons c cs ih =>
    intro w1 w2 e1 e2 hsub hR hp1 hp2
    obtain ⟨cl1, hc1, hn1, f1, heq1⟩ := loopClients_cons op1 c cs w1 e1 hp1
    obtain ⟨cl2, hc2, hn2, f2, heq2⟩ := loopClients_cons op2 c cs w2 e2 hp2
    rw [heq1] at hp1 ⊢
    rw [heq2] at hp2 ⊢
    refine ih _ _ f1 f2 (fun i hi => hsub i (List.mem_cons_of_mem _ hi)) ?_ hp1 hp2
    have hcin : c ∈ clients := hsub c (List.mem_cons_self _ _)
    by_cases hcj : c = j
    · subst hcj
      have hsame : cl1 = cl2 := by
        have := hR.peer
        rw [hc1, hc2] at this
        injection this
      subst hsame
      have haddr : cl1.Client = a := hR.addr cl1 hc1
      obtain ⟨hv1, -, hv3⟩ := hview cl1 w1.wire w2.wire haddr hR.packets
      exact
        { peer := by
            simp only
            rw [getElem?_set_here w1.heap c cl1 _ hc1, getElem?_set_here w2.heap c cl1 _ hc2, hv1]
          addr := by
            intro x hx
            simp only at hx
            rw [getElem?_set_here w1.heap c cl1 _ hc1] at hx
            injection hx with hx
            rw [← hx, hclient1]
            exact haddr
          packets := hv3
          others1 := by
            intro i hi hij x hx
            simp only at hx
            rw [List.getElem?_set_ne (fun e => hij e.symm)] at hx
            exact hR.others1 i hi hij x hx
          others2 := by
            intro i hi hij x hx
            simp only at hx
            rw [List.getElem?_set_ne (fun e => hij e.symm)] at hx
            exact hR.others2 i hi hij x hx }
    · have ha1 : cl1.Client ≠ a := hR.others1 c hcin hcj cl1 hc1
      have ha2 : cl2.Client ≠ a := hR.others2 c hcin hcj cl2 hc2
      exact
        { peer := by
            simp only
            rw [List.getElem?_set_ne hcj, List.getElem?_set_ne hcj]
            exact hR.peer
          addr := by
            intro x hx
            simp only at hx
            rw [List.getElem?_set_ne hcj] at hx
            exact hR.addr x hx
          packets := by
            simp only
            rw [hother1 cl1 w1.wire ha1, hother2 cl2 w2.wire ha2]
            exact hR.packets
          others1 := by
            intro i hi hij x hx
            simp only at hx
            rcases getElem?_set_cases _ _ _ _ _ hx with ⟨-, hxe⟩ | ⟨-, hxo⟩
            · rw [hxe, hclient1]
              exact ha1
            · exact hR.others1 i hi hij x hxo
          others2 := by
            intro i hi hij x hx
            simp only at hx
            rcases getElem?_set_cases _ _ _ _ _ hx with ⟨-, hxe⟩ | ⟨-, hxo⟩
            · rw [hxe, hclient2]
              exact ha2
            · exact hR.others2 i hi hij x hxo }

theorem SendPackage_view (a : String) (net1 net2 : Net) (hag : agreeOn a net1 net2)
    (c : UDPClient) (data : List Byte) (wire1 wire2 : List Packet) (hc : c.Client = a)
    (hw : packetsTo a wire1 = packetsTo a wire2) :
    (c.SendPackage net1 data wire1).2 = (c.SendPackage net2 data wire2).2 ∧
      packetsTo a (c.SendPackage net1 data wire1).1
        = packetsTo a (c.SendPackage net2 data wire2).1 := by
  refine ⟨?_, ?_⟩
  · unfold UDPClient.SendPackage
    rw [hc, hag wire1 wire2 data hw]
    split
    · rfl
    · split <;> rfl
  · rw [SendPackage_wire, SendPackage_wire, packetsTo_append, packetsTo_append, hw]

/-- Flush on a peer with the address `a` does the same on two sockets that treat `a` alike,
from histories with the same datagrams to `a`. -/
theorem Flush_view (a : String) (net1 net2 : Net) (hag : agreeOn a net1 net2)
    (c : UDPClient) (wire1 wire2 : List Packet) (hc : c.Client = a)
    (hw : packetsTo a wire1 = packetsTo a wire2) :
    (c.Flush net1 wire1).1 = (c.Flush net2 wire2).1 ∧
      (c.Flush net1 wire1).2.2 = (c.Flush net2 wire2).2.2 ∧
      packetsTo a (c.Flush net1 wire1).2.1 = packetsTo a (c.Flush net2 wire2).2.1 := by
  unfold UDPClient.Flush
  by_cases h : c.BufferSize > 0
  · rw [if_pos h, if_pos h]
    cases hs : sliceOf c.Buffer 0 c.BufferSize with
    | none => exact ⟨rfl, rfl, hw⟩
    | some pkt =>
      obtain ⟨h1, h2⟩ := SendPackage_view a net1 net2 hag c pkt wire1 wire2 hc hw
      exact ⟨rfl, h1, h2⟩
  · rw [if_neg h, if_neg h]
    exact ⟨rfl, rfl, hw⟩

theorem Flush_other (a : String) (net : Net) (c : UDPClient) (wire : List Packet)
    (hc : c.Client ≠ a) : packetsTo a (c.Flush net wire).2.1 = packetsTo a wire := by
  obtain ⟨-, -, h | ⟨pkt, h, -, -⟩⟩ := Flush_frame net c wire
  · rw [h]
  · rw [h, packetsTo_other a wire c.Client pkt hc]

theorem Flush_client (net : Net) (c : UDPClient) (wire : List Packet) :
    (c.Flush net wire).1.Client = c.Client := (Flush_frame net c wire).2.1

/-- Send keeps the address of the peer and hands over datagrams for that address only. -/
theorem Send_client_other (a : String) (net : Net) (c : UDPClient) (data : List Byte)
    (wire : List Packet) :
    (c.Send net data wire).1.Client = c.Client ∧
      (c.Client ≠ a → packetsTo a (c.Send net data wire).2.1 = packetsTo a wire) := by
  unfold UDPClient.Send
  have hfirst : ∀ x : UDPClient × List Packet × Ret Unit,
      x = (if (data.length : Int) + c.BufferSize > (c.Buffer.length : Int) then c.Flush net wire
        else (c, wire, .ok ())) →
      (x.1.Client = c.Client ∧ (c.Client ≠ a → packetsTo a x.2.1 = packetsTo a wire)) := by
    intro x hx
    split at hx
    · rw [hx]; exact ⟨Flush_client net c wire, Flush_other a net c wire⟩
    · rw [hx]; exact ⟨rfl, fun _ => rfl⟩
  generalize (if (data.length : Int) + c.BufferSize > (c.Buffer.length : Int) then c.Flush net wire
        else (c, wire, .ok ())) = x at hfirst
  obtain ⟨c1, wire1, r⟩ := x
  obtain ⟨hb1, hw1⟩ := hfirst _ rfl
  simp only at hb1 hw1
  cases r with
  | err e => exact ⟨hb1, hw1⟩
  | panic => exact ⟨hb1, hw1⟩
  | ok u =>
    simp only
    split
    · rename_i dst hdst
      split
      · refine ⟨?_, fun hne => ?_⟩
        · rw [Flush_client]; exact hb1
        · rw [Flush_other a net _ wire1 (by rw [hb1]; exact hne)]
          exact hw1 hne
      · exact ⟨hb1, hw1⟩
    · exact ⟨hb1, hw1⟩

/-- Send on a peer with the address `a` does the same on two sockets that treat `a` alike,
from histories with the same datagrams to `a`. -/
theorem Send_view (a : String) (net1 net2 : Net) (hag : agreeOn a net1 net2)
    (c : UDPClient) (data : List Byte) (wire1 wire2 : List Packet) (hc : c.Client = a)
    (hw : packetsTo a wire1 = packetsTo a wire2) :
    (c.Send net1 data wire1).1 = (c.Send net2 data wire2).1 ∧
      (c.Send net1 data wire1).2.2 = (c.Send net2 data wire2).2.2 ∧
      packetsTo a (c.Send net1 data wire1).2.1 = packetsTo a (c.Send net2 data wire2).2.1 := by
  unfold UDPClient.Send
  have hfirst : ∀ x y : UDPClient × List Packet × Ret Unit,
      x = (if (data.length : Int) + c.BufferSize > (c.Buffer.length : Int) then c.Flush net1 wire1
        else (c, wire1, .ok ())) →
      y = (if (data.length : Int) + c.BufferSize > (c.Buffer.length : Int) then c.Flush net2 wire2
        else (c, wire2, .ok ())) →
      (x.1 = y.1 ∧ x.2.2 = y.2.2 ∧ packetsTo a x.2.1 = packetsTo a y.2.1 ∧ x.1.Client = a) := by
    intro x y hx hy
    by_cases hcond : (data.length : Int) + c.BufferSize > (c.Buffer.length : Int)
    · rw [if_pos hcond] at hx hy
      rw [hx, hy]
      obtain ⟨h1, h2, h3⟩ := Flush_view a net1 net2 hag c wire1 wire2 hc hw
      exact ⟨h1, h2, h3, by rw [Flush_client]; exact hc⟩
    · rw [if_neg hcond] at hx hy
      rw [hx, hy]
      exact ⟨rfl, rfl, hw, hc⟩
  generalize (if (data.length : Int) + c.BufferSize > (c.Buffer.length : Int)
      then c.Flush net1 wire1 else (c, wire1, .ok ())) = x at hfirst
  generalize (if (data.length : Int) + c.BufferSize > (c.Buffer.length : Int)
      then c.Flush net2 wire2 else (c, wire2, .ok ())) = y at hfirst
  obtain ⟨c1, w1, r1⟩ := x
  obtain ⟨c2, w2, r2⟩ := y
  obtain ⟨he1, he2, he3, he4⟩ := hfirst _ _ rfl rfl
  simp only at he1 he2 he3 he4
  subst he1
  subst he2
  cases r1 with
  | err e => exact ⟨rfl, rfl, he3⟩
  | panic => exact ⟨rfl, rfl, he3⟩
  | ok u =>
    simp only
    cases hs : sliceOf c1.Buffer c1.BufferSize c1.Buffer.length with
    | none => exact ⟨rfl, rfl, he3⟩
    | some dst =>
      simp only
      split
      · exact Flush_view a net1 net2 hag _ w1 w2 he4 he3
      · exact ⟨rfl, rfl, he3⟩

theorem sendFrame_view (a : String) (j : Nat) (net1 net2 : Net) (hag : agreeOn a net1 net2)
    (d : List Byte) (clients : List Nat) (w1 w2 : World) (e1 e2 : String)
    (hR : SameView a j clients w1 w2)
    (hp1 : (sendFrame net1 d clients w1 e1).2.2 ≠ .panic)
    (hp2 : (sendFrame net2 d clients w2 e2).2.2 ≠ .panic) :
    SameView a j clients (sendFrame net1 d clients w1 e1).1 (sendFrame net2 d clients w2 e2).1 := by
  rw [loopClients_Send] at hp1 hp2
  rw [loopClients_Send net1, loopClients_Send net2]
  exact loopClients_view a j clients _ _
    (fun c wire1 wire2 hc hw => Send_view a net1 net2 hag c d wire1 wire2 hc hw)
    (fun c wire hc => (Send_client_other a net1 c d wire).2 hc)
    (fun c wire hc => (Send_client_other a net2 c d wire).2 hc)
    (fun c wire => (Send_client_other a net1 c d wire).1)
    (fun c wire => (Send_client_other a net2 c d wire).1)
    clients w1 w2 e1 e2 (fun _ h => h) hR hp1 hp2

theorem flushAll_view (a : String) (j : Nat) (net1 net2 : Net) (hag : agreeOn a net1 net2)
    (clients : List Nat) (w1 w2 : World) (e1 e2 : String)
    (hR : SameView a j clients w1 w2)
    (hp1 : (flushAll net1 clients w1 e1).2.2 ≠ .panic)
    (hp2 : (flushAll net2 clients w2 e2).2.2 ≠ .panic) :
    SameView a j clients (flushAll net1 clients w1 e1).1 (flushAll net2 clients w2 e2).1 := by
  rw [loopClients_Flush] at hp1 hp2
  rw [loopClients_Flush net1, loopClients_Flush net2]
  exact loopClients_view a j clients _ _
    (fun c wire1 wire2 hc hw => Flush_view a net1 net2 hag c wire1 wire2 hc hw)
    (fun c wire hc => Flush_other a net1 c wire hc)
    (fun c wire hc => Flush_other a net2 c wire hc)
    (fun c wire => Flush_client net1 c wire)
    (fun c wire => Flush_client net2 c wire)
    clients w1 w2 e1 e2 (fun _ h => h) hR hp1 hp2

theorem sendStatuses_view {Obj : Type} (a : String) (j : Nat) (net1 net2 : Net)
    (hag : agreeOn a net1 net2) (gens : Uint32 → Option (StatusGenerator Obj))
    (clients : List Nat) (status : List (Status Obj)) :
    ∀ (w1 w2 : World) (e1 e2 : String), SameView a j clients w1 w2 →
      (sendStatuses net1 gens clients status w1 e1).2.2 ≠ .panic →
      (sendStatuses net2 gens clients status w2 e2).2.2 ≠ .panic →
      SameView a j clients (sendStatuses net1 gens clients status w1 e1).1
        (sendStatuses net2 gens clients status w2 e2).1 := by
  induction status with
  | nil =>
    intro w1 w2 e1 e2 hR _ _
    exact hR
  | cons s rest ih =>
    intro w1 w2 e1 e2 hR hp1 hp2
    simp only [sendStatuses] at hp1 hp2 ⊢
    cases hg : gens s.Typ with
    | none =>
      rw [hg] at hp1 hp2
      exact ih _ _ _ _ hR hp1 hp2
    | some g =>
      rw [hg] at hp1 hp2
      simp only at hp1 hp2 ⊢
      cases hd : g s.Object with
      | err e =>
        rw [hd] at hp1 hp2
        exact ih _ _ _ _ hR hp1 hp2
      | panic =>
        rw [hd] at hp1
        exact absurd rfl hp1
      | ok d =>
        rw [hd] at hp1 hp2
        simp only at hp1 hp2 ⊢
        cases hf : frame s.Typ d with
        | err e =>
          rw [hf] at hp1
          exact absurd rfl hp1
        | panic =>
          rw [hf] at hp1
          exact absurd rfl hp1
        | ok f =>
          rw [hf] at hp1 hp2
          simp only at hp1 hp2 ⊢
          have hv := sendFrame_view a j net1 net2 hag f clients w1 w2 e1 e2 hR
          generalize sendFrame net1 f clients w1 e1 = T1 at hv hp1 ⊢
          generalize sendFrame net2 f clients w2 e2 = T2 at hv hp2 ⊢
          obtain ⟨v1, x1, r1⟩ := T1
          obtain ⟨v2, x2, r2⟩ := T2
          cases r1 with
          | err e => exact absurd rfl hp1
          | panic => exact absurd rfl hp1
          | ok u1 =>
            cases r2 with
            | err e => exact absurd rfl hp2
            | panic => exact absurd rfl hp2
            | ok u2 =>
              simp only at hp1 hp2 ⊢
              exact ih _ _ _ _ (hv (by simp) (by simp)) hp1 hp2

/-- A call of Send that does not panic ran both loops to their end. -/
theorem Send_parts {Obj : Type} (net : Net) (m : UDPManager Obj) (w : World)
    (clients : List Nat) (status : List (Status Obj))
    (h : (m.Send net w clients status).2 ≠ .panic) :
    (sendStatuses net m.Generators clients status w "").2.2 ≠ .panic ∧
      ∃ e, (flushAll net clients (sendStatuses net m.Generators clients status w "").1 e).2.2
          ≠ .panic ∧
        (m.Send net w clients status).1
          = (flushAll net clients (sendStatuses net m.Generators clients status w "").1 e).1 := by
  unfold UDPManager.Send at h ⊢
  generalize sendStatuses net m.Generators clients status w "" = T1 at h ⊢
  obtain ⟨w1, x1, r1⟩ := T1
  cases r1 with
  | err e => exact absurd rfl h
  | panic => exact absurd rfl h
  | ok u =>
    simp only at h ⊢
    refine ⟨by simp, x1, ?_⟩
    generalize flushAll net clients w1 x1 = T2 at h ⊢
    obtain ⟨w2, x2, r2⟩ := T2
    cases r2 with
    | err e => exact absurd rfl h
    | panic => exact absurd rfl h
    | ok u =>
      simp only
      refine ⟨by simp, ?_⟩
      split <;> rfl

/-- The world Send leaves, in terms of the loops with the errors kept apart. -/
theorem Send_world {Obj : Type} (net : Net) (m : UDPManager Obj) (w : World)
    (clients : List Nat) (status : List (Status Obj)) :
    (m.Send net w clients status).1 =
      (match (sendStatusesT net m.Generators clients status w).2.2 with
        | .ok () => (flushAllT net clients (sendStatusesT net m.Generators clients status w).1).1
        | _ => (sendStatusesT net m.Generators clients status w).1) := by
  unfold UDPManager.Send
  rw [sendStatuses_traced]
  generalize sendStatusesT net m.Generators clients status w = T1
  obtain ⟨w1, errs1, r1⟩ := T1
  cases r1 with
  | err e => rfl
  | panic => rfl
  | ok u =>
    simp only
    rw [flushAll_traced]
    generalize flushAllT net clients w1 = T2
    obtain ⟨w2, errs2, r2⟩ := T2
    cases r2 with
    | err e => rfl
    | panic => rfl
    | ok u =>
      simp only
      split <;> rfl

/-- A status whose generator returns an error changes neither the world the first loop
leaves nor whether it panics. -/
theorem sendStatusesT_skip {Obj : Type} (net : Net) (gens : Uint32 → Option (StatusGenerator Obj))
    (clients : List Nat) (s : Status Obj) (post : List (Status Obj)) (g : StatusGenerator Obj)
    (e : String) (hg : gens s.Typ = some g) (he : g s.Object = .err e)
    (pre : List (Status Obj)) :
    ∀ w : World,
      (sendStatusesT net gens clients (pre ++ s :: post) w).1
          = (sendStatusesT net gens clients (pre ++ post) w).1 ∧
        (sendStatusesT net gens clients (pre ++ s :: post) w).2.2
          = (sendStatusesT net gens clients (pre ++ post) w).2.2 := by
  induction pre with
  | nil =>
    intro w
    show (sendStatusesT net gens clients (s :: post) w).1 = _ ∧
      (sendStatusesT net gens clients (s :: post) w).2.2 = _
    simp only [sendStatusesT, hg, he]
    exact ⟨rfl, rfl⟩
  | cons t pre ih =>
    intro w
    show (sendStatusesT net gens clients (t :: (pre ++ s :: post)) w).1
        = (sendStatusesT net gens clients (t :: (pre ++ post)) w).1 ∧
      (sendStatusesT net gens clients (t :: (pre ++ s :: post)) w).2.2
        = (sendStatusesT net gens clients (t :: (pre ++ post)) w).2.2
    simp only [sendStatusesT]
    cases gens t.Typ with
    | none => exact ih w
    | some gt =>
      simp only
      cases gt t.Object with
      | err x => exact ih w
      | panic => exact ⟨rfl, rfl⟩
      | ok d =>
        simp only
        cases frame t.Typ d with
        | err x => exact ⟨rfl, rfl⟩
        | panic => exact ⟨rfl, rfl⟩
        | ok f =>
          simp only
          generalize sendFrameT net f clients w = T
          obtain ⟨v, x, r⟩ := T
          cases r with
          | err x => exact ⟨rfl, rfl⟩
          | panic => exact ⟨rfl, rfl⟩
          | ok u => exact ih v

/-- C12 (as amended): for two runs of `UDPManager.Send` from the same state over sockets
that treat the peer at pointer `j` alike, where no other listed peer has the address of
`j` and neither run panics, the datagrams handed to the socket for `j` and the final state
of `j` (buffer and used size) are the same in both runs; and a status whose generator
returns an error leaves the datagrams and the peers as the call without that status does. -/
theorem C12_fan_out_keeps_peer_view {Obj : Type} (net1 net2 : Net) (m : UDPManager Obj)
    (w : World) (clients : List Nat) (status : List (Status Obj)) (j : Nat) (cj : UDPClient)
    (hj : w.heap[j]? = some cj)
    (hag : agreeOn cj.Client net1 net2)
    (hdist : ∀ i ∈ clients, i ≠ j → ∀ c : UDPClient, w.heap[i]? = some c → c.Client ≠ cj.Client)
    (h1 : (m.Send net1 w clients status).2 ≠ .panic)
    (h2 : (m.Send net2 w clients status).2 ≠ .panic) :
    (packetsTo cj.Client (m.Send net1 w clients status).1.wire
        = packetsTo cj.Client (m.Send net2 w clients status).1.wire ∧
      (m.Send net1 w clients status).1.heap[j]? = (m.Send net2 w clients status).1.heap[j]?) ∧
    (∀ (pre post : List (Status Obj)) (s : Status Obj) (g : StatusGenerator Obj) (e : String),
      status = pre ++ s :: post → m.Generators s.Typ = some g → g s.Object = .err e →
      (m.Send net1 w clients status).1 = (m.Send net1 w clients (pre ++ post)).1) := by
  refine ⟨?_, ?_⟩
  · obtain ⟨hs1, x1, hf1, hw1⟩ := Send_parts net1 m w clients status h1
    obtain ⟨hs2, x2, hf2, hw2⟩ := Send_parts net2 m w clients status h2
    have h0 : SameView cj.Client j clients w w :=
      { peer := rfl
        addr := by
          intro c hc
          rw [hj] at hc
          injection hc with hc
          rw [hc]
        packets := rfl
        others1 := hdist
        others2 := hdist }
    have hA := sendStatuses_view cj.Client j net1 net2 hag m.Generators clients status
      w w "" "" h0 hs1 hs2
    have hB := flushAll_view cj.Client j net1 net2 hag clients _ _ x1 x2 hA hf1 hf2
    rw [hw1, hw2]
    exact ⟨hB.packets, hB.peer⟩
  · intro pre post s g e hst hg he
    rw [hst, Send_world, Send_world]
    obtain ⟨ha, hb⟩ := sendStatusesT_skip net1 m.Generators clients s post g e hg he pre w
    rw [ha, hb]

/-- Witness of C12: two peers of capacity 20, a status whose generator fails between two
that succeed, and two sockets of which one fails for the peer `a` only; the results of the
two runs differ, the view of the peer `b` does not. -/
theorem C12_fan_out_keeps_peer_view_witness :
    (UDPManager.Send (failingFor ["a"]) echoManager
        ⟨[⟨"a", List.replicate 20 0, 0⟩, ⟨"b", List.replicate 20 0, 0⟩], []⟩ [0, 1]
        [⟨1, .ok [1, 2]⟩, ⟨1, .err "g"⟩, ⟨1, .ok [3]⟩]).2 = .err "gx" ∧
    (UDPManager.Send (failingFor []) echoManager
        ⟨[⟨"a", List.replicate 20 0, 0⟩, ⟨"b", List.replicate 20 0, 0⟩], []⟩ [0, 1]
        [⟨1, .ok [1, 2]⟩, ⟨1, .err "g"⟩, ⟨1, .ok [3]⟩]).2 = .err "g" ∧
    packetsTo "b" (UDPManager.Send (failingFor ["a"]) echoManager
        ⟨[⟨"a", List.replicate 20 0, 0⟩, ⟨"b", List.replicate 20 0, 0⟩], []⟩ [0, 1]
        [⟨1, .ok [1, 2]⟩, ⟨1, .err "g"⟩, ⟨1, .ok [3]⟩]).1.wire
      = [("b", [0, 0, 0, 1, 1, 2, 0, 0, 0, 1, 3])] ∧
    ((packetsTo "b" (UDPManager.Send (failingFor ["a"]) echoManager
          ⟨[⟨"a", List.replicate 20 0, 0⟩, ⟨"b", List.replicate 20 0, 0⟩], []⟩ [0, 1]
          [⟨1, .ok [1, 2]⟩, ⟨1, .err "g"⟩, ⟨1, .ok [3]⟩]).1.wire
        = packetsTo "b" (UDPManager.Send (failingFor []) echoManager
          ⟨[⟨"a", List.replicate 20 0, 0⟩, ⟨"b", List.replicate 20 0, 0⟩], []⟩ [0, 1]
          [⟨1, .ok [1, 2]⟩, ⟨1, .err "g"⟩, ⟨1, .ok [3]⟩]).1.wire ∧
      (UDPManager.Send (failingFor ["a"]) echoManager
          ⟨[⟨"a", List.replicate 20 0, 0⟩, ⟨"b", List.replicate 20 0, 0⟩], []⟩ [0, 1]
          [⟨1, .ok [1, 2]⟩, ⟨1, .err "g"⟩, ⟨1, .ok [3]⟩]).1.heap[1]?
        = (UDPManager.Send (failingFor []) echoManager
          ⟨[⟨"a", List.replicate 20 0, 0⟩, ⟨"b", List.replicate 20 0, 0⟩], []⟩ [0, 1]
          [⟨1, .ok [1, 2]⟩, ⟨1, .err "g"⟩, ⟨1, .ok [3]⟩]).1.heap[1]?) ∧
      (UDPManager.Send (failingFor ["a"]) echoManager
          ⟨[⟨"a", List.replicate 20 0, 0⟩, ⟨"b", List.replicate 20 0, 0⟩], []⟩ [0, 1]
          [⟨1, .ok [1, 2]⟩, ⟨1, .err "g"⟩, ⟨1, .ok [3]⟩]).1
        = (UDPManager.Send (failingFor ["a"]) echoManager
          ⟨[⟨"a", List.replicate 20 0, 0⟩, ⟨"b", List.replicate 20 0, 0⟩], []⟩ [0, 1]
          [⟨1, .ok [1, 2]⟩, ⟨1, .ok [3]⟩]).1) :=
  have h := C12_fan_out_keeps_peer_view (failingFor ["a"]) (failingFor []) echoManager
    ⟨[⟨"a", List.replicate 20 0, 0⟩, ⟨"b", List.replicate 20 0, 0⟩], []⟩ [0, 1]
    [⟨1, .ok [1, 2]⟩, ⟨1, .err "g"⟩, ⟨1, .ok [3]⟩] 1 ⟨"b", List.replicate 20 0, 0⟩ rfl
    (fun _ _ _ _ => rfl)
    (by
      intro i hi hij c hc
      have hi0 : i = 0 := by
        rcases List.mem_cons.mp hi with h | h
        · exact h
        · rcases List.mem_cons.mp h with h | h
          · exact absurd h hij
          · cases h
      subst hi0
      have hc0 : c = ⟨"a", List.replicate 20 0, 0⟩ := by
        have : some (⟨"a", List.replicate 20 0, 0⟩ : UDPClient) = some c := hc
        injection this with this
        exact this.symm
      rw [hc0]
      decide)
    (by decide) (by decide)
  ⟨by decide, by decide, by decide, h.1,
    h.2 [⟨1, .ok [1, 2]⟩] [⟨1, .ok [3]⟩] ⟨1, .err "g"⟩ (fun x => x) "g" rfl rfl rfl⟩

/-- C12 (counterexample): two peers of capacity 5 and frames of 4 and 6 bytes.  When the
transmissions to both peers fail, the second frame makes each peer flush, the flush fails
and Send returns its error; when only those to `b` fail, the peer `a` takes the 6-byte
frame, its flush panics, and the peer `b` is never reached: its datagram is not sent and
its 4 bytes stay buffered. -/
theorem C12_panic_on_one_peer_cuts_off_the_next :
    agreeOn "b" (failingFor ["a", "b"]) (failingFor ["b"]) ∧
    UDPManager.Send (failingFor ["a", "b"]) echoManager
        ⟨[⟨"a", List.replicate 5 0, 0⟩, ⟨"b", List.replicate 5 0, 0⟩], []⟩ [0, 1]
        [⟨1, .ok []⟩, ⟨1, .ok [9, 9]⟩]
      = (⟨[⟨"a", [0, 0, 0, 1, 0], 0⟩, ⟨"b", [0, 0, 0, 1, 0], 0⟩],
          [("a", [0, 0, 0, 1]), ("b", [0, 0, 0, 1])]⟩, .err "xx") ∧
    UDPManager.Send (failingFor ["b"]) echoManager
        ⟨[⟨"a", List.replicate 5 0, 0⟩, ⟨"b", List.replicate 5 0, 0⟩], []⟩ [0, 1]
        [⟨1, .ok []⟩, ⟨1, .ok [9, 9]⟩]
      = (⟨[⟨"a", [0, 0, 0, 1, 9], 6⟩, ⟨"b", [0, 0, 0, 1, 0], 4⟩],
          [("a", [0, 0, 0, 1])]⟩, .panic) ∧
    packetsTo "b" (UDPManager.Send (failingFor ["a", "b"]) echoManager
        ⟨[⟨"a", List.replicate 5 0, 0⟩, ⟨"b", List.replicate 5 0, 0⟩], []⟩ [0, 1]
        [⟨1, .ok []⟩, ⟨1, .ok [9, 9]⟩]).1.wire
      ≠ packetsTo "b" (UDPManager.Send (failingFor ["b"]) echoManager
        ⟨[⟨"a", List.replicate 5 0, 0⟩, ⟨"b", List.replicate 5 0, 0⟩], []⟩ [0, 1]
        [⟨1, .ok []⟩, ⟨1, .ok [9, 9]⟩]).1.wire ∧
    (UDPManager.Send (failingFor ["a", "b"]) echoManager
        ⟨[⟨"a", List.replicate 5 0, 0⟩, ⟨"b", List.replicate 5 0, 0⟩], []⟩ [0, 1]
        [⟨1, .ok []⟩, ⟨1, .ok [9, 9]⟩]).1.heap[1]?
      ≠ (UDPManager.Send (failingFor ["b"]) echoManager
        ⟨[⟨"a", List.replicate 5 0, 0⟩, ⟨"b", List.replicate 5 0, 0⟩], []⟩ [0, 1]
        [⟨1, .ok []⟩, ⟨1, .ok [9, 9]⟩]).1.heap[1]? := by
  refine ⟨fun _ _ _ _ => rfl, ?_, ?_, ?_, ?_⟩ <;> decide

end Gss
